import Mathlib

/-!
# LteInterference (src/lte/model/lte-interference.cc)

A shallow embedding of the interference tracker of the LTE model.  The C++ object is a
record of its member fields; every method is a function of the simulated time `now`
(the value of `Now ()`), its arguments and the record, returning either a fault or the new
record together with the list of effects the call produced (consumer notifications and
scheduler requests), in the order in which the code issues them.
-/

namespace LteInterference

/-- Simulated time, in ticks: the tick count of `Time`, taken unbounded. -/
abbrev Time := Int

/-- The ways a call can fail: dereferencing a null `Ptr`, the two `NS_ASSERT`s of
`StartRx` (lines 88 and 90), and combining two vectors of different spectrum models. -/
inductive Fault where
  | nullPointer
  | assertSynchronized
  | assertOrthogonal
  | modelMismatch
  deriving DecidableEq, Repr

/-- Modelled from the spec: the axis layout ("model") of a spectral vector, which the
source only consumes through `GetSpectrumModel`; a layout is its number of bins. -/
abbrev SpectrumModel := Nat

/-- Modelled from the spec: the spectral-vector type `SpectrumValue` is an external
capability whose code is not in lte-interference.cc: a vector over a frequency axis with
element-wise `+`, `-`, `*`, `/` and a total-sum reduction.  Values are exact rationals
(division by a zero bin follows the convention `x / 0 = 0`). -/
abbrev SpectrumValue := List ℚ

/-- Modelled from the spec: `GetSpectrumModel`, the axis layout of a vector. -/
def GetSpectrumModel (v : SpectrumValue) : SpectrumModel := v.length

/-- Modelled from the spec: `Create<SpectrumValue> (model)`, the empty (all-zero) vector
on a given axis layout. -/
def Create (m : SpectrumModel) : SpectrumValue := List.replicate m 0

/-- Modelled from the spec: `Copy`, an independent snapshot of a vector. -/
def Copy (v : SpectrumValue) : SpectrumValue := v

/-- Modelled from the spec: two vectors must share an axis layout to be combined;
the combination is element-wise. -/
def combine (f : ℚ → ℚ → ℚ) (a b : SpectrumValue) : Except Fault SpectrumValue :=
  if GetSpectrumModel a = GetSpectrumModel b then .ok (List.zipWith f a b)
  else .error Fault.modelMismatch

/-- Modelled from the spec: element-wise sum (`operator+` and `operator+=`). -/
def add (a b : SpectrumValue) : Except Fault SpectrumValue := combine (fun x y => x + y) a b

/-- Modelled from the spec: element-wise difference (`operator-` and `operator-=`). -/
def sub (a b : SpectrumValue) : Except Fault SpectrumValue := combine (fun x y => x - y) a b

/-- Modelled from the spec: element-wise product (`operator*`). -/
def mul (a b : SpectrumValue) : Except Fault SpectrumValue := combine (fun x y => x * y) a b

/-- Modelled from the spec: element-wise quotient (`operator/`). -/
def div (a b : SpectrumValue) : Except Fault SpectrumValue := combine (fun x y => x / y) a b

/-- Modelled from the spec: `Sum`, the total-sum reduction over the frequency axis. -/
def Sum (v : SpectrumValue) : ℚ := v.sum

/-- Dereference of a `Ptr`, which may be null. -/
def deref {α : Type} : Option α → Except Fault α
  | some v => .ok v
  | none => .error Fault.nullPointer

/-- The modulus of `uint32_t` arithmetic. -/
def UINT32_MOD : Nat := 4294967296

/-- Conversion of a 32-bit pattern to `int32_t` (two's complement). -/
def toInt32 (x : Int) : Int :=
  if x % 4294967296 < 2147483648 then x % 4294967296 else x % 4294967296 - 4294967296

/-- What a call does to the outside: the three notifications of a chunk processor
(identified by its handle `p`), and the request to the scheduler made by `AddSignal`
(`Simulator::Schedule (duration, &DoSubtractSignal, this, spd, signalId)`). -/
inductive Effect where
  | Start (p : Nat)
  | End (p : Nat)
  | EvaluateSinrChunk (p : Nat) (sinr : SpectrumValue) (duration : Time)
  | Schedule (delay : Time) (spd : SpectrumValue) (signalId : Nat)
  deriving DecidableEq, Repr

end LteInterference

/-- The member fields of the C++ class `LteInterference`. -/
structure LteInterference where
  m_receiving : Bool
  m_rxSignal : Option LteInterference.SpectrumValue
  m_allSignals : Option LteInterference.SpectrumValue
  m_noise : Option LteInterference.SpectrumValue
  m_lastChangeTime : LteInterference.Time
  m_lastSignalId : Nat
  m_lastSignalIdBeforeReset : Nat
  m_sinrChunkProcessorList : List Nat
  deriving DecidableEq, Repr

namespace LteInterference

/-- The constructor (lines 34-40): not receiving, both ids zero, all `Ptr`s null, the
processor list empty and `m_lastChangeTime` default-constructed. -/
def construct : LteInterference :=
  { m_receiving := false
    m_rxSignal := none
    m_allSignals := none
    m_noise := none
    m_lastChangeTime := 0
    m_lastSignalId := 0
    m_lastSignalIdBeforeReset := 0
    m_sinrChunkProcessorList := [] }

/-- The result of a call: a fault, or the new object and the effects issued. -/
abbrev Result := Except Fault (LteInterference × List Effect)

/-- Lines 160-185. -/
def ConditionallyEvaluateChunk (now : Time) (s : LteInterference) : Result :=
  if s.m_receiving = true ∧ now > s.m_lastChangeTime then do
    let rx ← deref s.m_rxSignal
    let all ← deref s.m_allSignals
    let noise ← deref s.m_noise
    let others ← sub all rx
    let denominator ← add others noise
    let sinr ← div rx denominator
    let duration := now - s.m_lastChangeTime
    .ok ({ s with m_lastChangeTime := now },
         s.m_sinrChunkProcessorList.map (fun p => Effect.EvaluateSinrChunk p sinr duration))
  else
    .ok (s, [])

/-- Lines 69-93. -/
def StartRx (now : Time) (rxPsd : SpectrumValue) (s : LteInterference) : Result :=
  if s.m_receiving = false then
    .ok ({ s with m_rxSignal := some (Copy rxPsd), m_lastChangeTime := now, m_receiving := true },
         s.m_sinrChunkProcessorList.map Effect.Start)
  else
    if s.m_lastChangeTime = now then do
      let rx ← deref s.m_rxSignal
      let product ← mul rxPsd rx
      if Sum product = 0 then do
        let rx2 ← add rx rxPsd
        .ok ({ s with m_rxSignal := some rx2 }, [])
      else
        .error Fault.assertOrthogonal
    else
      .error Fault.assertSynchronized

/-- Lines 96-113. -/
def EndRx (now : Time) (s : LteInterference) : Result :=
  if s.m_receiving ≠ true then
    .ok (s, [])
  else do
    let (s1, fx) ← ConditionallyEvaluateChunk now s
    .ok ({ s1 with m_receiving := false }, fx ++ s1.m_sinrChunkProcessorList.map Effect.End)

/-- Lines 135-141. -/
def DoAddSignal (now : Time) (spd : SpectrumValue) (s : LteInterference) : Result := do
  let (s1, fx) ← ConditionallyEvaluateChunk now s
  let all ← deref s1.m_allSignals
  let all2 ← add all spd
  .ok ({ s1 with m_allSignals := some all2 }, fx)

/-- Lines 116-132. -/
def AddSignal (now : Time) (spd : SpectrumValue) (duration : Time) (s : LteInterference) :
    Result := do
  let (s1, fx) ← DoAddSignal now spd s
  let signalId := (s1.m_lastSignalId + 1) % UINT32_MOD
  let s2 := { s1 with m_lastSignalId := signalId }
  let s3 :=
    if signalId = s2.m_lastSignalIdBeforeReset then
      { s2 with m_lastSignalIdBeforeReset := (s2.m_lastSignalIdBeforeReset + 0x10000000) % UINT32_MOD }
    else s2
  .ok (s3, fx ++ [Effect.Schedule duration spd signalId])

/-- The `int32_t deltaSignalId` of line 148. -/
def deltaSignalId (signalId : Nat) (s : LteInterference) : Int :=
  toInt32 ((signalId : Int) - (s.m_lastSignalIdBeforeReset : Int))

/-- Lines 143-157. -/
def DoSubtractSignal (now : Time) (spd : SpectrumValue) (signalId : Nat) (s : LteInterference) :
    Result := do
  let (s1, fx) ← ConditionallyEvaluateChunk now s
  if deltaSignalId signalId s1 > 0 then do
    let all ← deref s1.m_allSignals
    let all2 ← sub all spd
    .ok ({ s1 with m_allSignals := some all2 }, fx)
  else
    .ok (s1, fx)

/-- Lines 187-204. -/
def SetNoisePowerSpectralDensity (now : Time) (noisePsd : SpectrumValue) (s : LteInterference) :
    Result := do
  let (s1, fx) ← ConditionallyEvaluateChunk now s
  let s2 := { s1 with m_noise := some noisePsd,
                      m_allSignals := some (Create (GetSpectrumModel noisePsd)) }
  let s3 := if s2.m_receiving = true then { s2 with m_receiving := false } else s2
  .ok ({ s3 with m_lastSignalIdBeforeReset := s3.m_lastSignalId }, fx)

/-- Lines 206-211. -/
def AddSinrChunkProcessor (p : Nat) (s : LteInterference) : Result :=
  .ok ({ s with m_sinrChunkProcessorList := s.m_sinrChunkProcessorList ++ [p] }, [])

/-- A call on the tracker: the public methods, and the firing of a scheduled
`DoSubtractSignal` event. -/
inductive Op where
  | StartRx (rxPsd : SpectrumValue)
  | EndRx
  | AddSignal (spd : SpectrumValue) (duration : Time)
  | DoSubtractSignal (spd : SpectrumValue) (signalId : Nat)
  | SetNoisePowerSpectralDensity (noisePsd : SpectrumValue)
  | AddSinrChunkProcessor (p : Nat)
  deriving DecidableEq, Repr

/-- One call executed at simulated time `now`. -/
def step (now : Time) (op : Op) (s : LteInterference) : Result :=
  match op with
  | .StartRx rxPsd => StartRx now rxPsd s
  | .EndRx => EndRx now s
  | .AddSignal spd duration => AddSignal now spd duration s
  | .DoSubtractSignal spd signalId => DoSubtractSignal now spd signalId s
  | .SetNoisePowerSpectralDensity noisePsd => SetNoisePowerSpectralDensity now noisePsd s
  | .AddSinrChunkProcessor p => AddSinrChunkProcessor p s

/-- A sequence of timed calls, executed in order; every effect is stamped with the time
of the call that issued it. -/
def run : List (Time × Op) → LteInterference →
    Except Fault (LteInterference × List (Time × Effect))
  | [], s => .ok (s, [])
  | (t, op) :: rest, s =>
    match step t op s with
    | .error e => .error e
    | .ok (s1, fx) =>
      match run rest s1 with
      | .error e => .error e
      | .ok (s2, tr) => .ok (s2, fx.map (fun e => (t, e)) ++ tr)

/-- The end-to-end scenario of the specification up to the added interferer: a fresh
tracker, consumer 0 registered, noise floor `[1,1]`, `StartRx([4,0])` and
`AddSignal([0,2], 10)` at t=0. -/
def scenarioSetup : List (Time × Op) :=
  [ (0, .AddSinrChunkProcessor 0),
    (0, .SetNoisePowerSpectralDensity [1, 1]),
    (0, .StartRx [4, 0]),
    (0, .AddSignal [0, 2] 10) ]

/-- The rest of the scenario: `EndRx` at t=5 and the removal that `AddSignal` scheduled
(signal `[0,2]`, id 1), firing at t=10. -/
def scenarioRest : List (Time × Op) :=
  [ (5, .EndRx),
    (10, .DoSubtractSignal [0, 2] 1) ]

/-- The tracker after `scenarioSetup`, as the code leaves it. -/
def scenarioAfterSetup : LteInterference :=
  { m_receiving := true
    m_rxSignal := some [4, 0]
    m_allSignals := some [0, 2]
    m_noise := some [1, 1]
    m_lastChangeTime := 0
    m_lastSignalId := 1
    m_lastSignalIdBeforeReset := 0
    m_sinrChunkProcessorList := [0] }

/-- The tracker of the scenario after `EndRx` at t=5. -/
def scenarioAfterEndRx : LteInterference :=
  { scenarioAfterSetup with m_receiving := false, m_lastChangeTime := 5 }

/-- The durations passed to `EvaluateSinrChunk` of consumer `p` in a timed trace. -/
def evalDurations (p : Nat) (tr : List (Time × Effect)) : List Time :=
  tr.filterMap (fun x =>
    match x.2 with
    | .EvaluateSinrChunk q _ d => if q = p then some d else none
    | _ => none)

/-- The time windows reported to consumer `p`: a chunk of duration `d` passed at time `t`
covers the window from `t - d` to `t`. -/
def chunkWindows (p : Nat) (tr : List (Time × Effect)) : List (Time × Time) :=
  tr.filterMap (fun x =>
    match x.2 with
    | .EvaluateSinrChunk q _ d => if q = p then some (x.1 - d, x.1) else none
    | _ => none)

/-- The windows `ws` tile the interval from `a` to `b`: the first begins at `a`, each one
is non-empty and begins where the previous one ended, and the last ends at `b`. -/
def Contiguous : Time → List (Time × Time) → Time → Prop
  | a, [], b => a = b
  | a, w :: ws, b => w.1 = a ∧ w.1 < w.2 ∧ Contiguous w.2 ws b

/-- The times `ts` are non-decreasing and none is before `t`. -/
def NonDecreasingFrom : Time → List Time → Prop
  | _, [] => True
  | t, x :: xs => t ≤ x ∧ NonDecreasingFrom x xs

/-- The calls that may occur inside a reception watched by consumer `p`: signals added,
scheduled removals, additional `StartRx`, registration of other consumers. -/
def duringRx (p : Nat) : Op → Prop
  | .StartRx _ => True
  | .AddSignal _ _ => True
  | .DoSubtractSignal _ _ => True
  | .AddSinrChunkProcessor q => q ≠ p
  | .EndRx => False
  | .SetNoisePowerSpectralDensity _ => False

/-- The calls that close a reception: `EndRx`, and `SetNoisePowerSpectralDensity`, which
aborts it. -/
def closesRx : Op → Prop
  | .EndRx => True
  | .SetNoisePowerSpectralDensity _ => True
  | _ => False

/-- A reception of `[4,0]` opened at t=0 on the tracker with consumer 0 and noise floor
`[1,1]`, the noise floor set again at t=3, and `EndRx` at t=5. -/
def abortedReception : List (Time × Op) :=
  [ (0, .StartRx [4, 0]),
    (3, .SetNoisePowerSpectralDensity [1, 1]),
    (5, .EndRx) ]

/-- The tracker with consumer 0 registered and noise floor `[1,1]` set, not receiving. -/
def idleTracker : LteInterference :=
  { m_receiving := false
    m_rxSignal := none
    m_allSignals := some [0, 0]
    m_noise := some [1, 1]
    m_lastChangeTime := 0
    m_lastSignalId := 0
    m_lastSignalIdBeforeReset := 0
    m_sinrChunkProcessorList := [0] }

/-- The timed trace of a reception of `[4,0]` opened at t=0 on `idleTracker`, with the own
signal added at t=0, an interferer `[0,2]` added at t=3, and `EndRx` at t=5. -/
def coveredTrace : List (Time × Effect) :=
  [ (0, .Start 0),
    (0, .Schedule 10 [4, 0] 1),
    (3, .EvaluateSinrChunk 0 [4, 0] 3),
    (3, .Schedule 10 [0, 2] 2),
    (5, .EvaluateSinrChunk 0 [4, 0] 2),
    (5, .End 0) ]

/-- The tracker after the reception of `coveredTrace`. -/
def coveredFinal : LteInterference :=
  { m_receiving := false
    m_rxSignal := some [4, 0]
    m_allSignals := some [4, 2]
    m_noise := some [1, 1]
    m_lastChangeTime := 5
    m_lastSignalId := 2
    m_lastSignalIdBeforeReset := 0
    m_sinrChunkProcessorList := [0] }

/-- The calls that are `AddSignal`. -/
def isAddSignal : Op → Prop
  | .AddSignal _ _ => True
  | _ => False

/-- The same `AddSignal (spd, duration)` called `n` times at time `t`. -/
def addSignals (n : Nat) (t : Time) (spd : SpectrumValue) (duration : Time) : List (Time × Op) :=
  List.replicate n (t, .AddSignal spd duration)

/-- The tracker reached from construction by setting the noise floor `[1,1]` and then
adding the signal `[0,2]` 2^32 - 1 times: the id counter is at its maximum and the reset
boundary is still 0. -/
def wrapState : LteInterference :=
  { m_receiving := false
    m_rxSignal := none
    m_allSignals := some [0, 8589934590]
    m_noise := some [1, 1]
    m_lastChangeTime := 0
    m_lastSignalId := 4294967295
    m_lastSignalIdBeforeReset := 0
    m_sinrChunkProcessorList := [] }

/-- The tracker `wrapState` after one more `AddSignal ([0,2], 10)`: the counter has
wrapped to 0, the id 0 met the boundary, and the boundary was moved to 0x10000000. -/
def wrapStateAfterAdd : LteInterference :=
  { wrapState with
    m_allSignals := some [0, 8589934592]
    m_lastSignalId := 0
    m_lastSignalIdBeforeReset := 268435456 }

/-- From construction: the noise floor is set, the signal `[0,2]` is added (id 1), then
2^31 + 1 further signals are added, and the noise floor is set again. -/
def lateResetOps : List (Time × Op) :=
  (0, .SetNoisePowerSpectralDensity [1, 1]) :: (0, .AddSignal [0, 2] 10) ::
    (addSignals 2147483649 0 [4, 0] 10 ++ [(0, .SetNoisePowerSpectralDensity [1, 1])])

/-- The tracker after `lateResetOps`. -/
def lateResetState : LteInterference :=
  { m_receiving := false
    m_rxSignal := none
    m_allSignals := some [0, 0]
    m_noise := some [1, 1]
    m_lastChangeTime := 0
    m_lastSignalId := 2147483650
    m_lastSignalIdBeforeReset := 2147483650
    m_sinrChunkProcessorList := [] }

/-- The tracker `idleTracker` after `AddSignal ([0,2], 10)`. -/
def resetExample1 : LteInterference :=
  { idleTracker with m_allSignals := some [0, 2], m_lastSignalId := 1 }

/-- The tracker `resetExample1` after `AddSignal ([4,0], 10)`. -/
def resetExample2 : LteInterference :=
  { idleTracker with m_allSignals := some [4, 2], m_lastSignalId := 2 }

/-- The tracker `resetExample2` after `SetNoisePowerSpectralDensity ([1,1])`. -/
def resetExample3 : LteInterference :=
  { idleTracker with m_lastSignalId := 2, m_lastSignalIdBeforeReset := 2 }

/-- The tracker `resetExample3` after `AddSignal ([1,1], 5)`. -/
def resetExample4 : LteInterference :=
  { idleTracker with m_allSignals := some [1, 1], m_lastSignalId := 3,
                     m_lastSignalIdBeforeReset := 2 }

/-- Two vectors overlap in frequency: some bin is non-zero in both. -/
def Overlap (a b : SpectrumValue) : Prop :=
  ∃ i, i < a.length ∧ i < b.length ∧ a.getD i 0 ≠ 0 ∧ b.getD i 0 ≠ 0

/-- The number of `EvaluateSinrChunk` notifications delivered to consumer `p`. -/
def chunkCount (p : Nat) (fx : List Effect) : Nat :=
  fx.countP (fun e =>
    match e with
    | .EvaluateSinrChunk q _ _ => decide (q = p)
    | _ => false)

/-- The sinr of line 173 on the bins of the three vectors:
`rx / (all - rx + noise)`, element-wise. -/
def sinrChunk (rx all noise : SpectrumValue) : SpectrumValue :=
  List.zipWith (fun x y => x / y) rx
    (List.zipWith (fun x y => x + y) (List.zipWith (fun x y => x - y) all rx) noise)

/-- The calls other than the registration of a consumer. -/
def notRegistration : Op → Prop
  | .AddSinrChunkProcessor _ => False
  | _ => True

/-- The number of requests to the scheduler among the effects of a call. -/
def scheduleCount (fx : List Effect) : Nat :=
  fx.countP (fun e =>
    match e with
    | .Schedule _ _ _ => true
    | _ => false)

/-- The registration of the consumers `regs`, in order, each at its own time. -/
def registrations (regs : List (Time × Nat)) : List (Time × Op) :=
  regs.map (fun r => (r.1, .AddSinrChunkProcessor r.2))

/-- The fresh tracker after `SetNoisePowerSpectralDensity (noisePsd)` as first call. -/
def afterFirstNoise (noisePsd : SpectrumValue) : LteInterference :=
  { construct with m_noise := some noisePsd,
                   m_allSignals := some (Create (GetSpectrumModel noisePsd)) }

/-- The number of `AddSignal` calls in a sequence of calls. -/
def addCount : List (Time × Op) → Nat
  | [] => 0
  | (_, .AddSignal _ _) :: rest => addCount rest + 1
  | _ :: rest => addCount rest

/-- The calls that are `SetNoisePowerSpectralDensity`. -/
def isReset : Op → Prop
  | .SetNoisePowerSpectralDensity _ => True
  | _ => False

/-- Some call of the sequence is `SetNoisePowerSpectralDensity`. -/
def hasReset (ops : List (Time × Op)) : Prop :=
  ∃ x ∈ ops, isReset x.2

/-- The fresh tracker after the noise floor `[1,1]` and `AddSignal ([0,2], 10)`. -/
def staleExample1 : LteInterference :=
  { afterFirstNoise [1, 1] with m_allSignals := some [0, 2], m_lastSignalId := 1 }

/-- The tracker `staleExample1` after `AddSignal ([4,0], 10)`. -/
def staleExample2 : LteInterference :=
  { afterFirstNoise [1, 1] with m_allSignals := some [4, 2], m_lastSignalId := 2 }

/-- The bookkeeping of the aggregate claim, following its words: `pending` holds the
scheduled removals that have not fired yet (id and signal), `present` those among them
whose signal was added since the most recent `SetNoisePowerSpectralDensity`. -/
structure Tracked where
  pending : List (Nat × SpectrumValue)
  present : List (Nat × SpectrumValue)

/-- The list without the first occurrence of the scheduled removal `x`. -/
def removeFirst (x : Nat × SpectrumValue) : List (Nat × SpectrumValue) →
    List (Nat × SpectrumValue)
  | [] => []
  | y :: l => if y = x then l else y :: removeFirst x l

/-- The bookkeeping across one call on the tracker `s`: `AddSignal` enters the signal with
the id it is assigned, a removal may only fire when it is pending and then leaves both
lists, a reset empties `present`. -/
def trackStep (s : LteInterference) : Op → Tracked → Option Tracked
  | .AddSignal spd _, g =>
    some { pending := ((s.m_lastSignalId + 1) % UINT32_MOD, spd) :: g.pending
           present := ((s.m_lastSignalId + 1) % UINT32_MOD, spd) :: g.present }
  | .DoSubtractSignal spd signalId, g =>
    if (signalId, spd) ∈ g.pending then
      some { pending := removeFirst (signalId, spd) g.pending
             present := removeFirst (signalId, spd) g.present }
    else none
  | .SetNoisePowerSpectralDensity _, g => some { pending := g.pending, present := [] }
  | _, g => some g

/-- A run of the tracker together with its bookkeeping; it stops with `none` when a call
faults or a removal fires that is not pending. -/
def runTracked : List (Time × Op) → LteInterference → Tracked → Option (LteInterference × Tracked)
  | [], s, g => some (s, g)
  | (t, op) :: rest, s, g =>
    match step t op s, trackStep s op g with
    | .ok (s1, _), some g1 => runTracked rest s1 g1
    | _, _ => none

/-- The signals and noise floors passed by a call are on the axis layout of `n` bins. -/
def onAxis (n : Nat) : Op → Prop
  | .AddSignal spd _ => spd.length = n
  | .SetNoisePowerSpectralDensity noisePsd => noisePsd.length = n
  | _ => True

/-- The sum, in bin `i`, of the signals of a list of scheduled removals. -/
def binSum (i : Nat) (l : List (Nat × SpectrumValue)) : ℚ :=
  (l.map (fun x => x.2.getD i 0)).sum

/-- The relation between the tracker and the bookkeeping that every call keeps: the
boundary is not above the counter, the aggregate is present on `n` bins and is, bin by
bin, the sum of the present signals, the present signals are the pending ones with an id
above the boundary, and every pending removal has an id up to the counter and a signal on
`n` bins. -/
def AggregateInv (n : Nat) (s : LteInterference) (g : Tracked) : Prop :=
  s.m_lastSignalIdBeforeReset ≤ s.m_lastSignalId ∧
  (∃ a, s.m_allSignals = some a ∧ a.length = n ∧ ∀ i, i < n → a.getD i 0 = binSum i g.present) ∧
  g.present = g.pending.filter (fun x => decide (s.m_lastSignalIdBeforeReset < x.1)) ∧
  (∀ x ∈ g.pending, x.1 ≤ s.m_lastSignalId ∧ x.2.length = n)

/-- The tracker after the noise floor `[1,1]`, `AddSignal ([0,2], 10)` at t=0,
`AddSignal ([4,0], 10)` at t=3 and the removal of `[0,2]` (id 1) at t=10. -/
def aggregateExample : LteInterference :=
  { afterFirstNoise [1, 1] with m_allSignals := some [4, 0], m_lastSignalId := 2 }

/-- Whether consumer `p`, after the effects `fx`, has been notified `Start` with no `End`
since; `o` is the answer before `fx`. -/
def openAfter (p : Nat) : Bool → List Effect → Bool
  | o, [] => o
  | o, .Start q :: rest => openAfter p (if q = p then true else o) rest
  | o, .End q :: rest => openAfter p (if q = p then false else o) rest
  | o, _ :: rest => openAfter p o rest

/-- The notifications of consumer `p` in `fx` are well formed: every `EvaluateSinrChunk`
and every `End` comes after a `Start` with no `End` in between, and every duration is
strictly positive; `o` tells whether such a `Start` precedes `fx`. -/
def wellFormedFrom (p : Nat) : Bool → List Effect → Prop
  | _, [] => True
  | o, .Start q :: rest => wellFormedFrom p (if q = p then true else o) rest
  | o, .End q :: rest =>
    if q = p then o = true ∧ wellFormedFrom p false rest else wellFormedFrom p o rest
  | o, .EvaluateSinrChunk q _ d :: rest =>
    if q = p then o = true ∧ 0 < d ∧ wellFormedFrom p o rest else wellFormedFrom p o rest
  | o, .Schedule _ _ _ :: rest => wellFormedFrom p o rest

/-- The calls that are not `StartRx`. -/
def notStartRx : Op → Prop
  | .StartRx _ => False
  | _ => True

end LteInterference

namespace LteInterference

/-! ## Auxiliary lemmas -/

@[simp] theorem bind_ok {α β : Type} (a : α) (f : α → Except Fault β) :
    (Except.ok a >>= f) = f a := rfl

@[simp] theorem bind_error {α β : Type} (e : Fault) (f : α → Except Fault β) :
    ((Except.error e : Except Fault α) >>= f) = Except.error e := rfl

@[simp] theorem pure_eq_ok {α : Type} (a : α) : (pure a : Except Fault α) = Except.ok a := rfl

theorem combine_eq_ok (f : ℚ → ℚ → ℚ) (a b : SpectrumValue) (h : a.length = b.length) :
    combine f a b = .ok (List.zipWith f a b) := by
  simp [combine, GetSpectrumModel, h]

theorem getD_zipWith (f : ℚ → ℚ → ℚ) :
    ∀ (a b : List ℚ) (i : Nat), i < a.length → i < b.length →
      (List.zipWith f a b).getD i 0 = f (a.getD i 0) (b.getD i 0)
  | [], _, _, h, _ => by simp at h
  | _ :: _, [], _, _, h => by simp at h
  | x :: a, y :: b, 0, _, _ => by simp
  | x :: a, y :: b, i + 1, ha, hb => by
    have ha2 : i < a.length := by simpa using ha
    have hb2 : i < b.length := by simpa using hb
    simpa using getD_zipWith f a b i ha2 hb2

theorem run_scenarioSetup :
    run scenarioSetup construct
      = .ok (scenarioAfterSetup, [(0, .Start 0), (0, .Schedule 10 [0, 2] 1)]) := by
  simp [run, step, scenarioSetup, scenarioAfterSetup, construct, AddSinrChunkProcessor,
    SetNoisePowerSpectralDensity, ConditionallyEvaluateChunk, StartRx, AddSignal, DoAddSignal,
    deref, add, combine, GetSpectrumModel, Create, Copy, UINT32_MOD, List.replicate]

/-! ## C1: the end-to-end scenario -/

/-- C1 (as stated, refuted): in the end-to-end scenario the aggregate after
`StartRx([4,0])` and `AddSignal([0,2], 10)` is not `[4,2]`: `StartRx` never adds the
receive signal into the aggregate, which is `[0,2]`. -/
theorem scenario_aggregate_is_not_4_2 :
    (∃ s tr, run scenarioSetup construct = .ok (s, tr) ∧ s.m_allSignals = some [0, 2]) ∧
    ¬ (∃ s tr, run scenarioSetup construct = .ok (s, tr) ∧ s.m_allSignals = some [4, 2]) := by
  rw [run_scenarioSetup]
  refine ⟨⟨_, _, rfl, rfl⟩, ?_⟩
  rintro ⟨s, tr, h, h2⟩
  injection h with h
  injection h with hs _
  subst hs
  simp [scenarioAfterSetup] at h2

/-- C1 (amended): on a fresh tracker with consumer 0 registered and noise floor `[1,1]`,
`StartRx([4,0])` and `AddSignal([0,2], 10)` at t=0 leave the aggregate at `[0,2]` and
schedule one removal of `[0,2]` with id 1 after 10; `EndRx` at t=5 emits exactly one
`EvaluateSinrChunk`, of duration 5 and sinr `[4,0]/([0,2]-[4,0]+[1,1]) = [-4/3, 0]`,
followed by `End`; the removal firing at t=10 is not stale and brings the aggregate back
to `[0,0]`. -/
theorem scenario_end_to_end :
    run scenarioSetup construct
      = .ok (scenarioAfterSetup, [(0, .Start 0), (0, .Schedule 10 [0, 2] 1)]) ∧
    scenarioAfterSetup.m_allSignals = some [0, 2] ∧
    EndRx 5 scenarioAfterSetup
      = .ok (scenarioAfterEndRx, [.EvaluateSinrChunk 0 [-4/3, 0] 5, .End 0]) ∧
    ([-4/3, 0] : SpectrumValue) = List.zipWith (fun x y => x / y) [4, 0]
      (List.zipWith (fun x y => x + y) (List.zipWith (fun x y => x - y) [0, 2] [4, 0]) [1, 1]) ∧
    deltaSignalId 1 scenarioAfterEndRx > 0 ∧
    DoSubtractSignal 10 [0, 2] 1 scenarioAfterEndRx
      = .ok ({ scenarioAfterEndRx with m_allSignals := some [0, 0] }, []) ∧
    run (scenarioSetup ++ scenarioRest) construct
      = .ok ({ scenarioAfterEndRx with m_allSignals := some [0, 0] },
             [(0, .Start 0), (0, .Schedule 10 [0, 2] 1),
              (5, .EvaluateSinrChunk 0 [-4/3, 0] 5), (5, .End 0)]) := by
  refine ⟨run_scenarioSetup, rfl, ?_, ?_, ?_, ?_, ?_⟩
  · simp [EndRx, ConditionallyEvaluateChunk, scenarioAfterSetup, scenarioAfterEndRx, deref,
      add, sub, div, combine, GetSpectrumModel]
    norm_num
  · norm_num
  · simp [deltaSignalId, toInt32, scenarioAfterEndRx, scenarioAfterSetup]
  · simp [DoSubtractSignal, ConditionallyEvaluateChunk, deltaSignalId, toInt32,
      scenarioAfterEndRx, scenarioAfterSetup, deref, sub, combine, GetSpectrumModel]
  · simp [run, step, scenarioSetup, scenarioRest, scenarioAfterEndRx, scenarioAfterSetup,
      construct, AddSinrChunkProcessor, SetNoisePowerSpectralDensity,
      ConditionallyEvaluateChunk, StartRx, AddSignal, DoAddSignal, deref, add, sub, div,
      combine, GetSpectrumModel, Create, Copy, UINT32_MOD, List.replicate, EndRx,
      DoSubtractSignal, deltaSignalId, toInt32]
    norm_num

/-! ## C2: ConditionallyEvaluateChunk -/

/-- C2: `ConditionallyEvaluateChunk` at time `now` fires exactly when receiving and
`now > lastChangeTime`.  When it fires (the three vectors being present on one axis
layout) every registered consumer gets exactly one `EvaluateSinrChunk (sinr, duration)`,
in registration order, with `sinr` element-wise `rx / (all - rx + noise)` and
`duration = now - lastChangeTime`, and only `lastChangeTime` changes, to `now`.
Otherwise the state is unchanged and nothing is emitted. -/
theorem ConditionallyEvaluateChunk_spec (now : Time) (s : LteInterference)
    (rx all noise : SpectrumValue)
    (hrx : s.m_rxSignal = some rx) (hall : s.m_allSignals = some all)
    (hnoise : s.m_noise = some noise)
    (h1 : all.length = rx.length) (h2 : noise.length = rx.length) :
    ((s.m_receiving = true ∧ now > s.m_lastChangeTime) →
      ∃ sinr : SpectrumValue,
        sinr.length = rx.length ∧
        (∀ i, i < rx.length →
          sinr.getD i 0 = rx.getD i 0 / (all.getD i 0 - rx.getD i 0 + noise.getD i 0)) ∧
        ConditionallyEvaluateChunk now s
          = .ok ({ s with m_lastChangeTime := now },
                 s.m_sinrChunkProcessorList.map
                   (fun p => Effect.EvaluateSinrChunk p sinr (now - s.m_lastChangeTime)))) ∧
    (¬ (s.m_receiving = true ∧ now > s.m_lastChangeTime) →
      ConditionallyEvaluateChunk now s = .ok (s, [])) := by
  constructor
  · intro hc
    refine ⟨List.zipWith (fun x y => x / y) rx
      (List.zipWith (fun x y => x + y) (List.zipWith (fun x y => x - y) all rx) noise), ?_, ?_, ?_⟩
    · simp [h1, h2]
    · intro i hi
      rw [getD_zipWith _ _ _ _ hi (by simp [h1, h2, hi]),
        getD_zipWith _ _ _ _ (by simp [h1, hi]) (by simp [h2, hi]),
        getD_zipWith _ _ _ _ (by simp [h1, hi]) hi]
    · unfold ConditionallyEvaluateChunk
      rw [if_pos hc, hrx, hall, hnoise]
      simp [deref, sub, add, div, combine_eq_ok, h1, h2]
  · intro hc
    unfold ConditionallyEvaluateChunk
    rw [if_neg hc]

/-- C2 witness: the scenario tracker at t=5 (receiving since t=0) and at t=0. -/
theorem ConditionallyEvaluateChunk_spec_witness :
    ((scenarioAfterSetup.m_receiving = true ∧ (5 : Time) > scenarioAfterSetup.m_lastChangeTime) →
      ∃ sinr : SpectrumValue,
        sinr.length = ([4, 0] : SpectrumValue).length ∧
        (∀ i, i < ([4, 0] : SpectrumValue).length →
          sinr.getD i 0 = ([4, 0] : SpectrumValue).getD i 0 /
            (([0, 2] : SpectrumValue).getD i 0 - ([4, 0] : SpectrumValue).getD i 0
              + ([1, 1] : SpectrumValue).getD i 0)) ∧
        ConditionallyEvaluateChunk 5 scenarioAfterSetup
          = .ok ({ scenarioAfterSetup with m_lastChangeTime := 5 },
                 scenarioAfterSetup.m_sinrChunkProcessorList.map
                   (fun p => Effect.EvaluateSinrChunk p sinr
                     (5 - scenarioAfterSetup.m_lastChangeTime)))) ∧
    (¬ (scenarioAfterSetup.m_receiving = true ∧ (5 : Time) > scenarioAfterSetup.m_lastChangeTime) →
      ConditionallyEvaluateChunk 5 scenarioAfterSetup = .ok (scenarioAfterSetup, [])) :=
  ConditionallyEvaluateChunk_spec 5 scenarioAfterSetup [4, 0] [0, 2] [1, 1] rfl rfl rfl rfl rfl

/-! ## C3: window coverage -/

theorem ConditionallyEvaluateChunk_cases (now : Time) (s s1 : LteInterference) (fx : List Effect)
    (h : ConditionallyEvaluateChunk now s = .ok (s1, fx)) :
    (s.m_receiving = true ∧ now > s.m_lastChangeTime ∧ s1 = { s with m_lastChangeTime := now } ∧
      ∃ sinr, fx = s.m_sinrChunkProcessorList.map
        (fun q => Effect.EvaluateSinrChunk q sinr (now - s.m_lastChangeTime))) ∨
    (¬ (s.m_receiving = true ∧ now > s.m_lastChangeTime) ∧ s1 = s ∧ fx = []) := by
  unfold ConditionallyEvaluateChunk at h
  split at h
  · rename_i hc
    left
    refine ⟨hc.1, hc.2, ?_⟩
    cases hrx : s.m_rxSignal <;> cases hall : s.m_allSignals <;> cases hn : s.m_noise <;>
      simp [hrx, hall, hn, deref] at h
    rename_i rx all noise
    cases h1 : sub all rx <;> simp [h1] at h
    rename_i v1
    cases h2 : add v1 noise <;> simp [h2] at h
    rename_i v2
    cases h3 : div rx v2 <;> simp [h3] at h
    rename_i v3
    exact ⟨h.1.symm, v3, h.2.symm⟩
  · rename_i hc
    right
    simp at h
    exact ⟨hc, h.1.symm, by simpa [eq_comm] using h.2⟩

theorem Contiguous_append :
    ∀ (ws ws2 : List (Time × Time)) (a b c : Time),
      Contiguous a ws b → Contiguous b ws2 c → Contiguous a (ws ++ ws2) c
  | [], ws2, a, b, c, h1, h2 => by
    simp only [Contiguous] at h1
    subst h1
    simpa using h2
  | w :: ws, ws2, a, b, c, h1, h2 => by
    simp only [Contiguous, List.cons_append] at h1 ⊢
    exact ⟨h1.1, h1.2.1, Contiguous_append ws ws2 _ b c h1.2.2 h2⟩

theorem Contiguous_sum :
    ∀ (ws : List (Time × Time)) (a b : Time),
      Contiguous a ws b → (ws.map (fun w => w.2 - w.1)).sum = b - a
  | [], a, b, h => by
    simp only [Contiguous] at h
    simp [h]
  | w :: ws, a, b, h => by
    simp only [Contiguous] at h
    have ih := Contiguous_sum ws _ b h.2.2
    simp only [List.map_cons, List.sum_cons, ih]
    rw [h.1]
    ring

theorem evalDurations_eq_chunkWindows (p : Nat) (tr : List (Time × Effect)) :
    evalDurations p tr = (chunkWindows p tr).map (fun w => w.2 - w.1) := by
  induction tr with
  | nil => rfl
  | cons x tr ih =>
    obtain ⟨t, e⟩ := x
    cases e with
    | EvaluateSinrChunk q sinr d =>
      by_cases hq : q = p
      · simp [evalDurations, chunkWindows, List.filterMap_cons, hq] at ih ⊢
        exact ih
      · simp [evalDurations, chunkWindows, List.filterMap_cons, hq] at ih ⊢
        exact ih
    | _ =>
      simp [evalDurations, chunkWindows, List.filterMap_cons] at ih ⊢
      exact ih

theorem chunkWindows_append (p : Nat) (a b : List (Time × Effect)) :
    chunkWindows p (a ++ b) = chunkWindows p a ++ chunkWindows p b := by
  simp [chunkWindows, List.filterMap_append]

theorem chunkWindows_chunks (p : Nat) (t : Time) (sinr : SpectrumValue) (d : Time) (l : List Nat) :
    chunkWindows p ((l.map (fun q => Effect.EvaluateSinrChunk q sinr d)).map (fun e => (t, e)))
      = List.replicate (l.count p) (t - d, t) := by
  induction l with
  | nil => rfl
  | cons q l ih =>
    by_cases hq : q = p
    · simp [chunkWindows, List.filterMap_cons, hq, List.replicate_succ] at ih ⊢
      exact ih
    · simp [chunkWindows, List.filterMap_cons, hq, List.count_cons] at ih ⊢
      exact ih

theorem chunkWindows_no_chunk (p : Nat) (t : Time) (fx : List Effect)
    (h : ∀ e ∈ fx, ∀ q sinr d, e ≠ Effect.EvaluateSinrChunk q sinr d) :
    chunkWindows p (fx.map (fun e => (t, e))) = [] := by
  induction fx with
  | nil => rfl
  | cons e fx ih =>
    have ih2 := ih (fun e2 he2 => h e2 (List.mem_cons_of_mem _ he2))
    cases e with
    | EvaluateSinrChunk q sinr d => exact absurd rfl (h _ (List.mem_cons_self _ _) q sinr d)
    | _ =>
      simp [chunkWindows, List.filterMap_cons] at ih2 ⊢
      exact ih2

/-- The window close, seen by a consumer registered once: the reported windows tile the
interval from the old `lastChangeTime` to the new one, which is `now`. -/
theorem ConditionallyEvaluateChunk_window (p : Nat) (now : Time) (s s1 : LteInterference)
    (fx : List Effect) (hr : s.m_receiving = true) (hp : s.m_sinrChunkProcessorList.count p = 1)
    (ht : s.m_lastChangeTime ≤ now) (h : ConditionallyEvaluateChunk now s = .ok (s1, fx)) :
    s1.m_receiving = true ∧ s1.m_sinrChunkProcessorList = s.m_sinrChunkProcessorList ∧
    s1.m_lastChangeTime = now ∧
    Contiguous s.m_lastChangeTime (chunkWindows p (fx.map (fun e => (now, e)))) now := by
  rcases ConditionallyEvaluateChunk_cases now s s1 fx h with ⟨_, hgt, hs1, sinr, hfx⟩ | ⟨hc, hs1, hfx⟩
  · subst hs1
    subst hfx
    refine ⟨hr, rfl, rfl, ?_⟩
    rw [chunkWindows_chunks, hp]
    simp only [List.replicate, Contiguous]
    refine ⟨by ring, ?_, trivial⟩
    have : now - (now - s.m_lastChangeTime) = s.m_lastChangeTime := by ring
    rw [this]
    exact hgt
  · subst hs1
    subst hfx
    have hle : ¬ now > s1.m_lastChangeTime := fun hgt => hc ⟨hr, hgt⟩
    have heq : s1.m_lastChangeTime = now := le_antisymm ht (not_lt.mp hle)
    refine ⟨hr, rfl, heq, ?_⟩
    simp [chunkWindows, Contiguous, heq]

/-- What `AddSignal` returns, in terms of the window close it starts with. -/
theorem AddSignal_ok (now : Time) (spd : SpectrumValue) (duration : Time)
    (s s3 : LteInterference) (fx : List Effect)
    (h : AddSignal now spd duration s = .ok (s3, fx)) :
    ∃ s1 fx1 all all2, ConditionallyEvaluateChunk now s = .ok (s1, fx1) ∧
      s1.m_allSignals = some all ∧ add all spd = .ok all2 ∧
      s3 = (if (s1.m_lastSignalId + 1) % UINT32_MOD = s1.m_lastSignalIdBeforeReset then
              { s1 with m_allSignals := some all2,
                        m_lastSignalId := (s1.m_lastSignalId + 1) % UINT32_MOD,
                        m_lastSignalIdBeforeReset :=
                          (s1.m_lastSignalIdBeforeReset + 0x10000000) % UINT32_MOD }
            else
              { s1 with m_allSignals := some all2,
                        m_lastSignalId := (s1.m_lastSignalId + 1) % UINT32_MOD }) ∧
      fx = fx1 ++ [Effect.Schedule duration spd ((s1.m_lastSignalId + 1) % UINT32_MOD)] := by
  unfold AddSignal DoAddSignal at h
  cases hc : ConditionallyEvaluateChunk now s with
  | error e => simp [hc] at h
  | ok r =>
    obtain ⟨s1, fx1⟩ := r
    cases hall : s1.m_allSignals with
    | none => simp [hc, hall, deref] at h
    | some all =>
      cases hadd : add all spd with
      | error e => simp [hc, hall, deref, hadd] at h
      | ok all2 =>
        simp only [hc, hall, deref, hadd, bind_ok] at h
        injection h with h
        injection h with hs hfx
        refine ⟨s1, fx1, all, all2, rfl, hall, hadd, ?_, hfx.symm⟩
        rw [← hs]

/-- What `DoSubtractSignal` returns, in terms of the window close it starts with. -/
theorem DoSubtractSignal_ok (now : Time) (spd : SpectrumValue) (signalId : Nat)
    (s s2 : LteInterference) (fx : List Effect)
    (h : DoSubtractSignal now spd signalId s = .ok (s2, fx)) :
    ∃ s1, ConditionallyEvaluateChunk now s = .ok (s1, fx) ∧
      ((deltaSignalId signalId s1 > 0 ∧ ∃ all all2, s1.m_allSignals = some all ∧
          sub all spd = .ok all2 ∧ s2 = { s1 with m_allSignals := some all2 }) ∨
       (¬ deltaSignalId signalId s1 > 0 ∧ s2 = s1)) := by
  unfold DoSubtractSignal at h
  cases hc : ConditionallyEvaluateChunk now s with
  | error e => simp [hc] at h
  | ok r =>
    obtain ⟨s1, fx1⟩ := r
    simp only [hc, bind_ok] at h
    by_cases hd : deltaSignalId signalId s1 > 0
    · rw [if_pos hd] at h
      cases hall : s1.m_allSignals with
      | none => simp [hall, deref] at h
      | some all =>
        cases hsub : sub all spd with
        | error e => simp [hall, deref, hsub] at h
        | ok all2 =>
          simp only [hall, deref, hsub, bind_ok] at h
          injection h with h
          injection h with hs hfx
          subst hfx
          exact ⟨s1, rfl, Or.inl ⟨hd, all, all2, hall, hsub, hs.symm⟩⟩
    · rw [if_neg hd] at h
      injection h with h
      injection h with hs hfx
      subst hfx
      exact ⟨s1, rfl, Or.inr ⟨hd, hs.symm⟩⟩

/-- What `SetNoisePowerSpectralDensity` returns, in terms of the window close it starts
with. -/
theorem SetNoisePowerSpectralDensity_ok (now : Time) (noisePsd : SpectrumValue)
    (s s2 : LteInterference) (fx : List Effect)
    (h : SetNoisePowerSpectralDensity now noisePsd s = .ok (s2, fx)) :
    ∃ s1, ConditionallyEvaluateChunk now s = .ok (s1, fx) ∧
      s2 = { s1 with m_noise := some noisePsd,
                     m_allSignals := some (Create (GetSpectrumModel noisePsd)),
                     m_receiving := false,
                     m_lastSignalIdBeforeReset := s1.m_lastSignalId } := by
  unfold SetNoisePowerSpectralDensity at h
  cases hc : ConditionallyEvaluateChunk now s with
  | error e => simp [hc] at h
  | ok r =>
    obtain ⟨s1, fx1⟩ := r
    simp only [hc, bind_ok] at h
    injection h with h
    injection h with hs hfx
    subst hfx
    refine ⟨s1, rfl, ?_⟩
    rw [← hs]
    cases hr : s1.m_receiving <;> simp [hr]

/-- What `EndRx` returns on a receiving tracker, in terms of the window close it starts
with. -/
theorem EndRx_ok (now : Time) (s s2 : LteInterference) (fx : List Effect)
    (hr : s.m_receiving = true) (h : EndRx now s = .ok (s2, fx)) :
    ∃ s1 fx1, ConditionallyEvaluateChunk now s = .ok (s1, fx1) ∧
      s2 = { s1 with m_receiving := false } ∧
      fx = fx1 ++ s1.m_sinrChunkProcessorList.map Effect.End := by
  unfold EndRx at h
  simp only [hr, ne_eq, not_true_eq_false, if_false] at h
  cases hc : ConditionallyEvaluateChunk now s with
  | error e => simp [hc] at h
  | ok r =>
    obtain ⟨s1, fx1⟩ := r
    simp only [hc, bind_ok] at h
    injection h with h
    injection h with hs hfx
    exact ⟨s1, fx1, rfl, hs.symm, hfx.symm⟩

theorem chunkWindows_schedule (p : Nat) (t : Time) (fx : List Effect) (d : Time)
    (spd : SpectrumValue) (n : Nat) :
    chunkWindows p ((fx ++ [Effect.Schedule d spd n]).map (fun e => (t, e)))
      = chunkWindows p (fx.map (fun e => (t, e))) := by
  rw [List.map_append, chunkWindows_append]
  simp [chunkWindows]

theorem chunkWindows_end (p : Nat) (t : Time) (fx : List Effect) (l : List Nat) :
    chunkWindows p ((fx ++ l.map Effect.End).map (fun e => (t, e)))
      = chunkWindows p (fx.map (fun e => (t, e))) := by
  rw [List.map_append, chunkWindows_append, chunkWindows_no_chunk p t (l.map Effect.End)]
  · simp
  · intro e he q sinr d
    rw [List.mem_map] at he
    obtain ⟨x, _, hx⟩ := he
    rw [← hx]
    simp

/-- One call inside a reception keeps the tracker receiving and extends the tiling of the
reception, as seen by a consumer registered once, up to the new `lastChangeTime`. -/
theorem step_duringRx (p : Nat) (t : Time) (op : Op) (s s1 : LteInterference) (fx : List Effect)
    (hop : duringRx p op) (hr : s.m_receiving = true)
    (hp : s.m_sinrChunkProcessorList.count p = 1) (ht : s.m_lastChangeTime ≤ t)
    (h : step t op s = .ok (s1, fx)) :
    s1.m_receiving = true ∧ s1.m_sinrChunkProcessorList.count p = 1 ∧ s1.m_lastChangeTime ≤ t ∧
    Contiguous s.m_lastChangeTime (chunkWindows p (fx.map (fun e => (t, e)))) s1.m_lastChangeTime := by
  cases op with
  | StartRx rxPsd =>
    simp only [step, StartRx, hr] at h
    by_cases hl : s.m_lastChangeTime = t
    · simp only [hl, if_true] at h
      cases hrx : s.m_rxSignal with
      | none => simp [hrx, deref] at h
      | some rx =>
        cases hm : mul rxPsd rx with
        | error e => simp [hrx, deref, hm] at h
        | ok product =>
          by_cases hs : Sum product = 0
          · cases ha : add rx rxPsd with
            | error e => simp [hrx, deref, hm, hs, ha] at h
            | ok rx2 =>
              simp [hrx, deref, hm, hs, ha] at h
              obtain ⟨h1, h2⟩ := h
              subst h1
              subst h2
              exact ⟨rfl, hp, le_refl _, by simp [chunkWindows, Contiguous, hl]⟩
          · simp [hrx, deref, hm, hs] at h
    · simp [hl] at h
  | EndRx => exact absurd hop (by simp [duringRx])
  | AddSignal spd duration =>
    obtain ⟨s0, fx1, all, all2, hc, _, _, hs3, hfx⟩ := AddSignal_ok t spd duration s s1 fx h
    obtain ⟨h1, h2, h3, h4⟩ := ConditionallyEvaluateChunk_window p t s s0 fx1 hr hp ht hc
    have hframe : s1.m_receiving = s0.m_receiving ∧
        s1.m_sinrChunkProcessorList = s0.m_sinrChunkProcessorList ∧
        s1.m_lastChangeTime = s0.m_lastChangeTime := by
      rw [hs3]; split <;> exact ⟨rfl, rfl, rfl⟩
    rw [hfx, chunkWindows_schedule, hframe.1, hframe.2.1, hframe.2.2, h2, h3]
    exact ⟨h1, hp, le_refl _, h4⟩
  | DoSubtractSignal spd signalId =>
    obtain ⟨s0, hc, hcase⟩ := DoSubtractSignal_ok t spd signalId s s1 fx h
    obtain ⟨h1, h2, h3, h4⟩ := ConditionallyEvaluateChunk_window p t s s0 fx hr hp ht hc
    have hframe : s1.m_receiving = s0.m_receiving ∧
        s1.m_sinrChunkProcessorList = s0.m_sinrChunkProcessorList ∧
        s1.m_lastChangeTime = s0.m_lastChangeTime := by
      rcases hcase with ⟨_, all, all2, _, _, hs⟩ | ⟨_, hs⟩ <;> rw [hs] <;> exact ⟨rfl, rfl, rfl⟩
    rw [hframe.1, hframe.2.1, hframe.2.2, h2, h3]
    exact ⟨h1, hp, le_refl _, h4⟩
  | SetNoisePowerSpectralDensity noisePsd => exact absurd hop (by simp [duringRx])
  | AddSinrChunkProcessor q =>
    simp only [step, AddSinrChunkProcessor] at h
    injection h with h
    injection h with hs hfx
    subst hs
    subst hfx
    have hq : q ≠ p := hop
    refine ⟨hr, ?_, ht, by simp [chunkWindows, Contiguous]⟩
    simp [List.count_append, hp, List.count_cons, hq]

/-- The call that closes a reception completes the tiling up to its own time. -/
theorem step_closesRx (p : Nat) (t : Time) (op : Op) (s s1 : LteInterference) (fx : List Effect)
    (hop : closesRx op) (hr : s.m_receiving = true)
    (hp : s.m_sinrChunkProcessorList.count p = 1) (ht : s.m_lastChangeTime ≤ t)
    (h : step t op s = .ok (s1, fx)) :
    Contiguous s.m_lastChangeTime (chunkWindows p (fx.map (fun e => (t, e)))) t := by
  cases op with
  | EndRx =>
    obtain ⟨s0, fx1, hc, _, hfx⟩ := EndRx_ok t s s1 fx hr h
    obtain ⟨_, _, _, h4⟩ := ConditionallyEvaluateChunk_window p t s s0 fx1 hr hp ht hc
    rw [hfx, chunkWindows_end]
    exact h4
  | SetNoisePowerSpectralDensity noisePsd =>
    obtain ⟨s0, hc, _⟩ := SetNoisePowerSpectralDensity_ok t noisePsd s s1 fx h
    exact (ConditionallyEvaluateChunk_window p t s s0 fx hr hp ht hc).2.2.2
  | StartRx _ => exact absurd hop (by simp [closesRx])
  | AddSignal _ _ => exact absurd hop (by simp [closesRx])
  | DoSubtractSignal _ _ => exact absurd hop (by simp [closesRx])
  | AddSinrChunkProcessor _ => exact absurd hop (by simp [closesRx])

theorem NonDecreasingFrom_mono :
    ∀ (ts : List Time) (a b : Time), a ≤ b → NonDecreasingFrom b ts → NonDecreasingFrom a ts
  | [], _, _, _, _ => trivial
  | _ :: _, _, _, hab, h => ⟨le_trans hab h.1, h.2⟩

theorem run_cons_ok (t : Time) (op : Op) (rest : List (Time × Op)) (s s2 : LteInterference)
    (tr : List (Time × Effect)) (h : run ((t, op) :: rest) s = .ok (s2, tr)) :
    ∃ s1 fx tr2, step t op s = .ok (s1, fx) ∧ run rest s1 = .ok (s2, tr2) ∧
      tr = fx.map (fun e => (t, e)) ++ tr2 := by
  simp only [run] at h
  cases hstep : step t op s with
  | error e => simp [hstep] at h
  | ok r =>
    obtain ⟨s1, fx⟩ := r
    cases hrest : run rest s1 with
    | error e => simp [hstep, hrest] at h
    | ok r2 =>
      obtain ⟨s3, tr2⟩ := r2
      simp only [hstep, hrest] at h
      injection h with h
      injection h with hs htr
      refine ⟨s1, fx, tr2, rfl, ?_, htr.symm⟩
      rw [hrest, hs]

/-- The calls inside a reception followed by the closing call: the windows reported to a
consumer registered once tile the interval from `lastChangeTime` to the closing time. -/
theorem run_reception (p : Nat) (closing : Op) (t1 : Time) (hclose : closesRx closing) :
    ∀ (mid : List (Time × Op)) (s s2 : LteInterference) (tr : List (Time × Effect)),
      s.m_receiving = true → s.m_sinrChunkProcessorList.count p = 1 →
      (∀ x ∈ mid, duringRx p x.2) →
      NonDecreasingFrom s.m_lastChangeTime (mid.map Prod.fst ++ [t1]) →
      run (mid ++ [(t1, closing)]) s = .ok (s2, tr) →
      Contiguous s.m_lastChangeTime (chunkWindows p tr) t1
  | [], s, s2, tr, hr, hp, _, htimes, hrun => by
    obtain ⟨s1, fx, tr2, hstep, hrest, htr⟩ := run_cons_ok t1 closing [] s s2 tr hrun
    simp only [run] at hrest
    injection hrest with hrest
    injection hrest with _ htr2
    subst htr2
    rw [htr, List.append_nil]
    exact step_closesRx p t1 closing s s1 fx hclose hr hp htimes.1 hstep
  | (t, op) :: mid, s, s2, tr, hr, hp, hmid, htimes, hrun => by
    obtain ⟨s1, fx, tr2, hstep, hrest, htr⟩ :=
      run_cons_ok t op (mid ++ [(t1, closing)]) s s2 tr hrun
    have hop : duringRx p op := hmid (t, op) (List.mem_cons_self _ _)
    obtain ⟨hr1, hp1, hl1, hc1⟩ := step_duringRx p t op s s1 fx hop hr hp htimes.1 hstep
    have ih := run_reception p closing t1 hclose mid s1 s2 tr2 hr1 hp1
      (fun x hx => hmid x (List.mem_cons_of_mem _ hx))
      (NonDecreasingFrom_mono _ _ _ hl1 htimes.2) hrest
    rw [htr, chunkWindows_append]
    exact Contiguous_append _ _ _ _ _ hc1 ih

/-- C3 (as stated, refuted): a reception opened at t=0 and ended by `EndRx` at t=5, with
the noise floor set at t=3 in between, reports durations that sum to 3, not to 5. -/
theorem aborted_reception_not_covered :
    ∃ s tr, run abortedReception idleTracker = .ok (s, tr) ∧
      (evalDurations 0 tr).sum = 3 ∧ (evalDurations 0 tr).sum ≠ 5 - 0 := by
  refine ⟨{ idleTracker with m_rxSignal := some [4, 0], m_lastChangeTime := 3 },
    [(0, .Start 0), (3, .EvaluateSinrChunk 0 [-4/3, 0] 3)], ?_, ?_, ?_⟩
  · simp [run, step, abortedReception, idleTracker, SetNoisePowerSpectralDensity,
      ConditionallyEvaluateChunk, StartRx, deref, add, sub, div, combine, GetSpectrumModel,
      Create, Copy, List.replicate, EndRx]
    norm_num
  · simp [evalDurations]
  · simp [evalDurations]

/-- C3 (amended): when `StartRx` at `t0` opens a reception, then calls of `AddSignal`,
scheduled removals, additional `StartRx` and registrations of other consumers are
executed at non-decreasing times, and the reception is closed at `t1` by the first
`EndRx` or `SetNoisePowerSpectralDensity`, every consumer that was registered once when
the reception opened is passed durations that sum to `t1 - t0`, and the windows reported
to it tile the interval from `t0` to `t1` without gap or overlap. -/
theorem window_coverage (p : Nat) (s s2 : LteInterference) (t0 t1 : Time)
    (rxPsd : SpectrumValue) (mid : List (Time × Op)) (closing : Op) (tr : List (Time × Effect))
    (hidle : s.m_receiving = false) (hp : s.m_sinrChunkProcessorList.count p = 1)
    (hmid : ∀ x ∈ mid, duringRx p x.2) (hclose : closesRx closing)
    (htimes : NonDecreasingFrom t0 (mid.map Prod.fst ++ [t1]))
    (hrun : run ((t0, .StartRx rxPsd) :: (mid ++ [(t1, closing)])) s = .ok (s2, tr)) :
    (evalDurations p tr).sum = t1 - t0 ∧ Contiguous t0 (chunkWindows p tr) t1 := by
  obtain ⟨s1, fx, tr2, hstep, hrest, htr⟩ := run_cons_ok _ _ _ s s2 tr hrun
  simp only [step, StartRx, hidle, if_true] at hstep
  injection hstep with hstep
  injection hstep with hs hfx
  subst hs
  subst hfx
  have hw := run_reception p closing t1 hclose mid
    { s with m_rxSignal := some (Copy rxPsd), m_lastChangeTime := t0, m_receiving := true }
    s2 tr2 rfl hp hmid htimes hrest
  have hstart : chunkWindows p
      ((s.m_sinrChunkProcessorList.map Effect.Start).map (fun e => (t0, e))) = [] := by
    apply chunkWindows_no_chunk
    intro e he q sinr d
    rw [List.mem_map] at he
    obtain ⟨x, _, hx⟩ := he
    rw [← hx]
    simp
  have hc : Contiguous t0 (chunkWindows p tr) t1 := by
    rw [htr, chunkWindows_append, hstart]
    exact hw
  exact ⟨by rw [evalDurations_eq_chunkWindows, Contiguous_sum _ _ _ hc], hc⟩

/-- C3 witness: the reception of `coveredTrace`, watched by consumer 0, with chunks of
durations 3 and 2 closing at t=3 and t=5. -/
theorem window_coverage_witness :
    (evalDurations 0 coveredTrace).sum = 5 - 0 ∧ Contiguous 0 (chunkWindows 0 coveredTrace) 5 :=
  window_coverage 0 idleTracker coveredFinal 0 5 [4, 0]
    [(0, .AddSignal [4, 0] 10), (3, .AddSignal [0, 2] 10)] .EndRx coveredTrace
    rfl (by simp [idleTracker]) (by simp [duringRx]) (by simp [closesRx])
    (by simp [NonDecreasingFrom])
    (by
      simp [run, step, idleTracker, coveredTrace, coveredFinal, ConditionallyEvaluateChunk,
        StartRx, AddSignal, DoAddSignal, deref, add, sub, div, combine, GetSpectrumModel,
        Copy, UINT32_MOD, EndRx])

/-! ## The id epoch: lemmas on `AddSignal` -/

theorem ConditionallyEvaluateChunk_frame (now : Time) (s s1 : LteInterference) (fx : List Effect)
    (h : ConditionallyEvaluateChunk now s = .ok (s1, fx)) :
    s1.m_receiving = s.m_receiving ∧ s1.m_rxSignal = s.m_rxSignal ∧
    s1.m_allSignals = s.m_allSignals ∧ s1.m_noise = s.m_noise ∧
    s1.m_lastSignalId = s.m_lastSignalId ∧
    s1.m_lastSignalIdBeforeReset = s.m_lastSignalIdBeforeReset ∧
    s1.m_sinrChunkProcessorList = s.m_sinrChunkProcessorList := by
  rcases ConditionallyEvaluateChunk_cases now s s1 fx h with ⟨_, _, hs, _⟩ | ⟨_, hs, _⟩ <;>
    subst hs <;> exact ⟨rfl, rfl, rfl, rfl, rfl, rfl, rfl⟩

theorem ConditionallyEvaluateChunk_idle (now : Time) (s : LteInterference)
    (hr : s.m_receiving = false) : ConditionallyEvaluateChunk now s = .ok (s, []) := by
  simp [ConditionallyEvaluateChunk, hr]

/-- The ids after `AddSignal`: the counter is incremented modulo 2^32, and the boundary
moves by 0x10000000 exactly when the new id meets it. -/
theorem AddSignal_ids (now : Time) (spd : SpectrumValue) (duration : Time)
    (s s3 : LteInterference) (fx : List Effect)
    (h : AddSignal now spd duration s = .ok (s3, fx)) :
    s3.m_receiving = s.m_receiving ∧
    s3.m_lastSignalId = (s.m_lastSignalId + 1) % UINT32_MOD ∧
    s3.m_lastSignalIdBeforeReset =
      (if (s.m_lastSignalId + 1) % UINT32_MOD = s.m_lastSignalIdBeforeReset then
        (s.m_lastSignalIdBeforeReset + 0x10000000) % UINT32_MOD
       else s.m_lastSignalIdBeforeReset) ∧
    Effect.Schedule duration spd ((s.m_lastSignalId + 1) % UINT32_MOD) ∈ fx := by
  obtain ⟨s1, fx1, all, all2, hc, _, _, hs3, hfx⟩ := AddSignal_ok now spd duration s s3 fx h
  obtain ⟨f1, _, _, _, f5, f6, _⟩ := ConditionallyEvaluateChunk_frame now s s1 fx1 hc
  rw [hs3, hfx, ← f1, ← f5, ← f6]
  refine ⟨?_, ?_, ?_, by simp⟩
  · split <;> rfl
  · split <;> rfl
  · split <;> rfl

/-- `AddSignal` on a tracker that is not receiving and whose aggregate is on the axis of
the signal. -/
theorem AddSignal_idle (now : Time) (spd a : SpectrumValue) (duration : Time)
    (s : LteInterference) (hr : s.m_receiving = false) (ha : s.m_allSignals = some a)
    (hl : a.length = spd.length)
    (hne : (s.m_lastSignalId + 1) % UINT32_MOD ≠ s.m_lastSignalIdBeforeReset) :
    AddSignal now spd duration s
      = .ok ({ s with m_allSignals := some (List.zipWith (fun x y => x + y) a spd),
                      m_lastSignalId := (s.m_lastSignalId + 1) % UINT32_MOD },
             [Effect.Schedule duration spd ((s.m_lastSignalId + 1) % UINT32_MOD)]) := by
  simp [AddSignal, DoAddSignal, ConditionallyEvaluateChunk, hr, ha, deref, add,
    combine_eq_ok _ _ _ hl, hne]

theorem zipWith_add_mul (n : ℚ) :
    ∀ (a spd : List ℚ),
      List.zipWith (fun x y => x + n * y) (List.zipWith (fun x y => x + y) a spd) spd
        = List.zipWith (fun x y => x + (n + 1) * y) a spd
  | [], _ => by simp
  | _ :: _, [] => by simp
  | x :: a, y :: spd => by
    simp only [List.zipWith_cons_cons, zipWith_add_mul n a spd]
    congr 1
    ring

/-- Adding the same signal `n` times to a tracker that is not receiving, while the counter
stays below 2^32 and above the boundary. -/
theorem run_addSignals (t : Time) (spd : SpectrumValue) (duration : Time) :
    ∀ (n : Nat) (s : LteInterference) (a : SpectrumValue),
      s.m_receiving = false → s.m_allSignals = some a → a.length = spd.length →
      s.m_lastSignalIdBeforeReset ≤ s.m_lastSignalId → s.m_lastSignalId + n < UINT32_MOD →
      ∃ tr, run (addSignals n t spd duration) s
        = .ok ({ s with m_allSignals := some (List.zipWith (fun x y => x + (n : ℚ) * y) a spd),
                        m_lastSignalId := s.m_lastSignalId + n }, tr)
  | 0, s, a, _, ha, hl, _, _ => by
    refine ⟨[], ?_⟩
    have hz : List.zipWith (fun x y => x + ((0 : Nat) : ℚ) * y) a spd = a := by
      clear ha
      induction a generalizing spd with
      | nil => simp
      | cons x a ih =>
        cases spd with
        | nil => simp at hl
        | cons y spd =>
          simp only [List.length_cons, add_left_inj] at hl
          simp only [List.zipWith_cons_cons, ih spd hl]
          simp
    simp only [addSignals, List.replicate, run, hz, Nat.add_zero]
    rw [← ha]
  | n + 1, s, a, hr, ha, hl, hb, hlt => by
    have hlt2 : s.m_lastSignalId + 1 < 4294967296 := by
      simp only [UINT32_MOD] at hlt; omega
    have hmod : (s.m_lastSignalId + 1) % UINT32_MOD = s.m_lastSignalId + 1 := by
      simp only [UINT32_MOD]; omega
    have hstep := AddSignal_idle t spd a duration s hr ha hl (by rw [hmod]; omega)
    rw [hmod] at hstep
    obtain ⟨tr, htr⟩ := run_addSignals t spd duration n
      { s with m_allSignals := some (List.zipWith (fun x y => x + y) a spd),
               m_lastSignalId := s.m_lastSignalId + 1 }
      (List.zipWith (fun x y => x + y) a spd) hr rfl (by simp [hl])
      (by show s.m_lastSignalIdBeforeReset ≤ s.m_lastSignalId + 1; omega)
      (by show s.m_lastSignalId + 1 + n < UINT32_MOD; omega)
    refine ⟨[Effect.Schedule duration spd (s.m_lastSignalId + 1)].map (fun e => (t, e)) ++ tr, ?_⟩
    simp only [addSignals, List.replicate, run, step, hstep]
    simp only [addSignals] at htr
    rw [htr, zipWith_add_mul]
    simp only [Nat.cast_add, Nat.cast_one, Nat.add_assoc, Nat.add_comm 1 n]

theorem run_cons_eq (t : Time) (op : Op) (rest : List (Time × Op)) (s s1 : LteInterference)
    (fx : List Effect) (h : step t op s = .ok (s1, fx)) :
    run ((t, op) :: rest) s =
      match run rest s1 with
      | .error e => .error e
      | .ok (s2, tr) => .ok (s2, fx.map (fun e => (t, e)) ++ tr) := by
  rw [run, h]

theorem run_append_ok (l1 l2 : List (Time × Op)) :
    ∀ (s s1 s2 : LteInterference) (tr1 tr2 : List (Time × Effect)),
      run l1 s = .ok (s1, tr1) → run l2 s1 = .ok (s2, tr2) →
      run (l1 ++ l2) s = .ok (s2, tr1 ++ tr2) := by
  induction l1 with
  | nil =>
    intro s s1 s2 tr1 tr2 h1 h2
    simp only [run] at h1
    injection h1 with h1
    injection h1 with hs htr
    subst hs
    subst htr
    simpa using h2
  | cons x l1 ih =>
    intro s s1 s2 tr1 tr2 h1 h2
    obtain ⟨t, op⟩ := x
    obtain ⟨s0, fx, tr0, hstep, hrest, htr⟩ := run_cons_ok t op l1 s s1 tr1 h1
    have h := ih s0 s1 s2 tr0 tr2 hrest h2
    rw [List.cons_append, run, hstep]
    simp only [h, htr, List.append_assoc]

/-- The tracker `wrapState` is reached from construction: the noise floor is set and the
signal `[0,2]` is added 2^32 - 1 times. -/
theorem wrapState_reachable :
    ∃ tr, run ((0, .SetNoisePowerSpectralDensity [1, 1]) :: addSignals 4294967295 0 [0, 2] 10)
      construct = .ok (wrapState, tr) := by
  obtain ⟨tr, htr⟩ := run_addSignals 0 [0, 2] 10 4294967295
    { construct with m_noise := some [1, 1], m_allSignals := some [0, 0] } [0, 0]
    rfl rfl rfl (by simp [construct]) (by norm_num [construct, UINT32_MOD])
  refine ⟨tr, ?_⟩
  have hstep : step 0 (.SetNoisePowerSpectralDensity [1, 1]) construct
      = .ok ({ construct with m_noise := some [1, 1], m_allSignals := some [0, 0] }, []) := by
    simp [step, SetNoisePowerSpectralDensity, ConditionallyEvaluateChunk, construct, Create,
      GetSpectrumModel, List.replicate]
  have hs : ({ construct with
      m_noise := some [1, 1],
      m_allSignals :=
        some (List.zipWith (fun x y => x + ((4294967295 : Nat) : ℚ) * y) [0, 0] [0, 2]),
      m_lastSignalId := construct.m_lastSignalId + 4294967295 } : LteInterference)
      = wrapState := by
    simp [wrapState, construct]
    norm_num
  rw [run_cons_eq _ _ _ _ _ _ hstep, htr]
  simp only [hs, List.map_nil, List.nil_append]

/-! ## C4: eventual self-removal -/

/-- C4 (code bug): on the reachable tracker `wrapState`, `AddSignal ([0,2], 10)` assigns
id 0, which meets the reset boundary, and moves the boundary to 0x10000000; the removal
it scheduled (signal `[0,2]`, id 0), firing with no `SetNoisePowerSpectralDensity` in
between, is classified as stale and subtracts nothing, so the aggregate stays at
`[0, 8589934592]` instead of returning to `[0, 8589934590]`. -/
theorem self_removal_skipped_after_wraparound :
    (∃ tr, run ((0, .SetNoisePowerSpectralDensity [1, 1]) :: addSignals 4294967295 0 [0, 2] 10)
      construct = .ok (wrapState, tr)) ∧
    wrapState.m_allSignals = some [0, 8589934590] ∧
    AddSignal 0 [0, 2] 10 wrapState = .ok (wrapStateAfterAdd, [.Schedule 10 [0, 2] 0]) ∧
    DoSubtractSignal 10 [0, 2] 0 wrapStateAfterAdd = .ok (wrapStateAfterAdd, []) ∧
    wrapStateAfterAdd.m_allSignals = some [0, 8589934592] ∧
    wrapStateAfterAdd.m_allSignals ≠ wrapState.m_allSignals := by
  refine ⟨wrapState_reachable, rfl, ?_, ?_, rfl, ?_⟩
  · simp [AddSignal, DoAddSignal, ConditionallyEvaluateChunk, wrapState, wrapStateAfterAdd,
      deref, add, combine, GetSpectrumModel, UINT32_MOD]
    norm_num
  · simp [DoSubtractSignal, ConditionallyEvaluateChunk, wrapState, wrapStateAfterAdd,
      deltaSignalId, toInt32]
  · simp [wrapState, wrapStateAfterAdd]

/-! ## C6: wraparound safety of the id epoch -/

/-- C6 (code bug): on the reachable tracker `wrapState` the counter wraps, the id that
`AddSignal` assigns is 0 and equals the reset boundary, the boundary is moved forward to
0x10000000, and the signed 32-bit difference `id - resetBoundary` is then -0x10000000,
not positive: the newly added signal is classified as added before the reset. -/
theorem wraparound_id_classified_stale :
    (∃ tr, run ((0, .SetNoisePowerSpectralDensity [1, 1]) :: addSignals 4294967295 0 [0, 2] 10)
      construct = .ok (wrapState, tr)) ∧
    (wrapState.m_lastSignalId + 1) % UINT32_MOD = wrapState.m_lastSignalIdBeforeReset ∧
    AddSignal 0 [0, 2] 10 wrapState = .ok (wrapStateAfterAdd, [.Schedule 10 [0, 2] 0]) ∧
    wrapStateAfterAdd.m_lastSignalId = 0 ∧
    wrapStateAfterAdd.m_lastSignalIdBeforeReset = 0x10000000 ∧
    deltaSignalId 0 wrapStateAfterAdd = -268435456 ∧
    ¬ (deltaSignalId 0 wrapStateAfterAdd > 0) := by
  refine ⟨wrapState_reachable, by simp [wrapState, UINT32_MOD], ?_, rfl, rfl, ?_, ?_⟩
  · simp [AddSignal, DoAddSignal, ConditionallyEvaluateChunk, wrapState, wrapStateAfterAdd,
      deref, add, combine, GetSpectrumModel, UINT32_MOD]
    norm_num
  · simp [deltaSignalId, toInt32, wrapStateAfterAdd, wrapState]
  · simp [deltaSignalId, toInt32, wrapStateAfterAdd, wrapState]

/-! ## C5: reset invalidation -/

/-- A run of `AddSignal` calls keeps the reception flag and advances the counter by the
number of calls, modulo 2^32. -/
theorem run_adds_lastSignalId :
    ∀ (ops : List (Time × Op)) (s s2 : LteInterference) (tr : List (Time × Effect)),
      (∀ x ∈ ops, isAddSignal x.2) → run ops s = .ok (s2, tr) →
      s.m_lastSignalId < UINT32_MOD →
      s2.m_receiving = s.m_receiving ∧
      s2.m_lastSignalId = (s.m_lastSignalId + ops.length) % UINT32_MOD
  | [], s, s2, tr, _, h, hlt => by
    simp only [run] at h
    injection h with h
    injection h with hs _
    subst hs
    refine ⟨rfl, ?_⟩
    simp only [UINT32_MOD] at hlt ⊢
    simp only [List.length_nil, Nat.add_zero]
    omega
  | (t, op) :: ops, s, s2, tr, hops, h, hlt => by
    obtain ⟨s1, fx, tr2, hstep, hrest, _⟩ := run_cons_ok t op ops s s2 tr h
    have hop : isAddSignal op := hops (t, op) (List.mem_cons_self _ _)
    cases op with
    | AddSignal spd duration =>
      obtain ⟨h1, h2, _, _⟩ := AddSignal_ids t spd duration s s1 fx hstep
      have hlt1 : s1.m_lastSignalId < UINT32_MOD := by
        rw [h2]; exact Nat.mod_lt _ (by simp [UINT32_MOD])
      obtain ⟨i1, i2⟩ := run_adds_lastSignalId ops s1 s2 tr2
        (fun x hx => hops x (List.mem_cons_of_mem _ hx)) hrest hlt1
      refine ⟨by rw [i1, h1], ?_⟩
      rw [i2, h2]
      simp only [UINT32_MOD, List.length_cons]
      omega
    | StartRx _ => exact absurd hop (by simp [isAddSignal])
    | EndRx => exact absurd hop (by simp [isAddSignal])
    | DoSubtractSignal _ _ => exact absurd hop (by simp [isAddSignal])
    | SetNoisePowerSpectralDensity _ => exact absurd hop (by simp [isAddSignal])
    | AddSinrChunkProcessor _ => exact absurd hop (by simp [isAddSignal])

/-- A run of fewer than 2^32 `AddSignal` calls after the boundary was set never meets the
boundary, which therefore stays where it is. -/
theorem run_adds_boundary :
    ∀ (ops : List (Time × Op)) (s s2 : LteInterference) (tr : List (Time × Effect)) (j : Nat),
      (∀ x ∈ ops, isAddSignal x.2) → run ops s = .ok (s2, tr) →
      s.m_lastSignalId % UINT32_MOD = (s.m_lastSignalIdBeforeReset + j) % UINT32_MOD →
      j + ops.length < UINT32_MOD →
      s2.m_lastSignalIdBeforeReset = s.m_lastSignalIdBeforeReset
  | [], s, s2, tr, _, _, h, _, _ => by
    simp only [run] at h
    injection h with h
    injection h with hs _
    rw [← hs]
  | (t, op) :: ops, s, s2, tr, j, hops, h, hj, hlen => by
    obtain ⟨s1, fx, tr2, hstep, hrest, _⟩ := run_cons_ok t op ops s s2 tr h
    have hop : isAddSignal op := hops (t, op) (List.mem_cons_self _ _)
    cases op with
    | AddSignal spd duration =>
      obtain ⟨_, h2, h3, _⟩ := AddSignal_ids t spd duration s s1 fx hstep
      simp only [UINT32_MOD, List.length_cons] at hj hlen h2 h3
      have hne : ¬ ((s.m_lastSignalId + 1) % 4294967296 = s.m_lastSignalIdBeforeReset) := by
        omega
      rw [if_neg hne] at h3
      have ih := run_adds_boundary ops s1 s2 tr2 (j + 1)
        (fun x hx => hops x (List.mem_cons_of_mem _ hx)) hrest
        (by simp only [UINT32_MOD]; rw [h2, h3]; omega)
        (by simp only [UINT32_MOD]; omega)
      rw [ih, h3]
    | StartRx _ => exact absurd hop (by simp [isAddSignal])
    | EndRx => exact absurd hop (by simp [isAddSignal])
    | DoSubtractSignal _ _ => exact absurd hop (by simp [isAddSignal])
    | SetNoisePowerSpectralDensity _ => exact absurd hop (by simp [isAddSignal])
    | AddSinrChunkProcessor _ => exact absurd hop (by simp [isAddSignal])

/-- C5 (amended): a signal is added with `AddSignal`, then at most 2^31 further signals
are added, then `SetNoisePowerSpectralDensity` is called, then fewer than 2^32 further
signals are added: the removal scheduled for the first signal is then classified as stale
(its signed id difference is not positive) and, when it fires, changes nothing: the
post-reset aggregate, like every other field, is unchanged and nothing is emitted. -/
theorem reset_invalidation (s0 s1 s2 s3 s4 : LteInterference) (t tn tf : Time)
    (sig noisePsd : SpectrumValue) (duration : Time) (fx1 fx3 : List Effect)
    (adds1 adds2 : List (Time × Op)) (tr2 tr4 : List (Time × Effect))
    (h1 : AddSignal t sig duration s0 = .ok (s1, fx1))
    (ha1 : ∀ x ∈ adds1, isAddSignal x.2) (h2 : run adds1 s1 = .ok (s2, tr2))
    (h3 : SetNoisePowerSpectralDensity tn noisePsd s2 = .ok (s3, fx3))
    (ha2 : ∀ x ∈ adds2, isAddSignal x.2) (h4 : run adds2 s3 = .ok (s4, tr4))
    (hk1 : adds1.length ≤ 2147483648) (hk2 : adds2.length < 4294967296) :
    Effect.Schedule duration sig s1.m_lastSignalId ∈ fx1 ∧
    ¬ (deltaSignalId s1.m_lastSignalId s4 > 0) ∧
    DoSubtractSignal tf sig s1.m_lastSignalId s4 = .ok (s4, []) := by
  obtain ⟨_, e2, _, e4⟩ := AddSignal_ids t sig duration s0 s1 fx1 h1
  have hlt1 : s1.m_lastSignalId < UINT32_MOD := by
    rw [e2]; exact Nat.mod_lt _ (by simp [UINT32_MOD])
  obtain ⟨_, a2⟩ := run_adds_lastSignalId adds1 s1 s2 tr2 ha1 h2 hlt1
  obtain ⟨sc, hc, hs3⟩ := SetNoisePowerSpectralDensity_ok tn noisePsd s2 s3 fx3 h3
  obtain ⟨_, _, _, _, f5, _, _⟩ := ConditionallyEvaluateChunk_frame tn s2 sc fx3 hc
  have r3 : s3.m_receiving = false := by rw [hs3]
  have l3 : s3.m_lastSignalId = s2.m_lastSignalId := by rw [hs3]; exact f5
  have b3 : s3.m_lastSignalIdBeforeReset = s2.m_lastSignalId := by rw [hs3]; exact f5
  have lt3 : s3.m_lastSignalId < UINT32_MOD := by
    rw [l3, a2]; exact Nat.mod_lt _ (by simp [UINT32_MOD])
  obtain ⟨r4, _⟩ := run_adds_lastSignalId adds2 s3 s4 tr4 ha2 h4 lt3
  have b4 := run_adds_boundary adds2 s3 s4 tr4 0 ha2 h4 (by rw [l3, b3]; rfl)
    (by simp only [UINT32_MOD]; omega)
  rw [r3] at r4
  have hdelta : ¬ (deltaSignalId s1.m_lastSignalId s4 > 0) := by
    simp only [deltaSignalId, toInt32, b4, b3, a2, UINT32_MOD] at hlt1 ⊢
    split <;> omega
  refine ⟨by rw [e2]; exact e4, hdelta, ?_⟩
  simp only [DoSubtractSignal, ConditionallyEvaluateChunk_idle tf s4 r4, bind_ok, if_neg hdelta]

/-- C5 (as stated, refuted): from construction the noise floor is set, `[0,2]` is added
(id 1), 2^31 + 1 further signals are added and the noise floor is set again, which resets
the aggregate to `[0,0]`; the removal of `[0,2]` that then fires is not classified as
stale (its signed id difference is positive) and subtracts `[0,2]` from the post-reset
aggregate, leaving `[0,-2]`. -/
theorem reset_invalidation_fails_after_many_adds :
    (∃ tr, run lateResetOps construct = .ok (lateResetState, tr)) ∧
    lateResetState.m_allSignals = some [0, 0] ∧
    deltaSignalId 1 lateResetState > 0 ∧
    DoSubtractSignal 10 [0, 2] 1 lateResetState
      = .ok ({ lateResetState with m_allSignals := some [0, -2] }, []) := by
  refine ⟨?_, rfl, ?_, ?_⟩
  · have hA : step 0 (.SetNoisePowerSpectralDensity [1, 1]) construct
        = .ok ({ construct with m_noise := some [1, 1], m_allSignals := some [0, 0] }, []) := by
      simp [step, SetNoisePowerSpectralDensity, ConditionallyEvaluateChunk, construct, Create,
        GetSpectrumModel, List.replicate]
    have hB : step 0 (.AddSignal [0, 2] 10)
        { construct with m_noise := some [1, 1], m_allSignals := some [0, 0] }
        = .ok ({ construct with m_noise := some [1, 1], m_allSignals := some [0, 2],
                                m_lastSignalId := 1 }, [.Schedule 10 [0, 2] 1]) := by
      simp [step, AddSignal, DoAddSignal, ConditionallyEvaluateChunk, construct, deref, add,
        combine, GetSpectrumModel, UINT32_MOD]
    obtain ⟨tr, htr⟩ := run_addSignals 0 [4, 0] 10 2147483649
      { construct with m_noise := some [1, 1], m_allSignals := some [0, 2], m_lastSignalId := 1 }
      [0, 2] rfl rfl rfl (by simp [construct]) (by norm_num [UINT32_MOD])
    have hD : run [(0, .SetNoisePowerSpectralDensity [1, 1])]
        ({ construct with
            m_noise := some [1, 1],
            m_allSignals :=
              some (List.zipWith (fun x y => x + ((2147483649 : Nat) : ℚ) * y) [0, 2] [4, 0]),
            m_lastSignalId := 1 + 2147483649 } : LteInterference)
        = .ok (lateResetState, []) := by
      simp [run, step, SetNoisePowerSpectralDensity, ConditionallyEvaluateChunk, construct,
        Create, GetSpectrumModel, List.replicate, lateResetState]
    have hCD := run_append_ok _ _ _ _ _ _ _ htr hD
    refine ⟨[Effect.Schedule 10 [0, 2] 1].map (fun e => ((0 : Time), e)) ++ (tr ++ []), ?_⟩
    rw [lateResetOps, run_cons_eq _ _ _ _ _ _ hA, run_cons_eq _ _ _ _ _ _ hB, hCD]
    rfl
  · simp [deltaSignalId, toInt32, lateResetState]
  · simp [DoSubtractSignal, ConditionallyEvaluateChunk, deltaSignalId, toInt32, lateResetState,
      deref, sub, combine, GetSpectrumModel]

/-- C5 witness: `[0,2]` is added to `idleTracker` (id 1), `[4,0]` is added, the noise floor
is set, `[1,1]` is added, and the removal of `[0,2]` fires at t=10. -/
theorem reset_invalidation_witness :
    Effect.Schedule 10 [0, 2] resetExample1.m_lastSignalId ∈ [Effect.Schedule 10 [0, 2] 1] ∧
    ¬ (deltaSignalId resetExample1.m_lastSignalId resetExample4 > 0) ∧
    DoSubtractSignal 10 [0, 2] resetExample1.m_lastSignalId resetExample4
      = .ok (resetExample4, []) :=
  reset_invalidation idleTracker resetExample1 resetExample2 resetExample3 resetExample4
    0 2 10 [0, 2] [1, 1] 10 [.Schedule 10 [0, 2] 1] []
    [(1, .AddSignal [4, 0] 10)] [(3, .AddSignal [1, 1] 5)]
    [(1, .Schedule 10 [4, 0] 2)] [(3, .Schedule 5 [1, 1] 3)]
    (by simp [AddSignal, DoAddSignal, ConditionallyEvaluateChunk, idleTracker, resetExample1,
          deref, add, combine, GetSpectrumModel, UINT32_MOD])
    (by simp [isAddSignal])
    (by simp [run, step, AddSignal, DoAddSignal, ConditionallyEvaluateChunk, idleTracker,
          resetExample1, resetExample2, deref, add, combine, GetSpectrumModel, UINT32_MOD])
    (by simp [SetNoisePowerSpectralDensity, ConditionallyEvaluateChunk, idleTracker,
          resetExample2, resetExample3, Create, GetSpectrumModel, List.replicate])
    (by simp [isAddSignal])
    (by simp [run, step, AddSignal, DoAddSignal, ConditionallyEvaluateChunk, idleTracker,
          resetExample3, resetExample4, deref, add, combine, GetSpectrumModel, UINT32_MOD])
    (by simp) (by simp)

/-! ## C7: orthogonality enforcement -/

theorem Overlap_cons (x y : ℚ) (a b : SpectrumValue) :
    Overlap (x :: a) (y :: b) ↔ (x ≠ 0 ∧ y ≠ 0) ∨ Overlap a b := by
  constructor
  · rintro ⟨i, hi1, hi2, h1, h2⟩
    cases i with
    | zero => left; simpa using And.intro h1 h2
    | succ i =>
      right
      refine ⟨i, by simpa using hi1, by simpa using hi2, ?_, ?_⟩
      · simpa using h1
      · simpa using h2
  · rintro (⟨h1, h2⟩ | ⟨i, hi1, hi2, h1, h2⟩)
    · exact ⟨0, by simp, by simp, by simpa using h1, by simpa using h2⟩
    · exact ⟨i + 1, by simpa using hi1, by simpa using hi2, by simpa using h1, by simpa using h2⟩

theorem sum_zipWith_mul_nonneg :
    ∀ (a b : List ℚ), (∀ x ∈ a, 0 ≤ x) → (∀ x ∈ b, 0 ≤ x) →
      0 ≤ (List.zipWith (fun x y => x * y) a b).sum
  | [], _, _, _ => by simp
  | _ :: _, [], _, _ => by simp
  | x :: a, y :: b, ha, hb => by
    simp only [List.zipWith_cons_cons, List.sum_cons]
    have h1 := sum_zipWith_mul_nonneg a b (fun z hz => ha z (List.mem_cons_of_mem _ hz))
      (fun z hz => hb z (List.mem_cons_of_mem _ hz))
    have h2 : 0 ≤ x * y :=
      mul_nonneg (ha x (List.mem_cons_self _ _)) (hb y (List.mem_cons_self _ _))
    linarith

/-- For vectors with non-negative entries, the element-wise product sums to zero exactly
when no bin is non-zero in both. -/
theorem sum_zipWith_mul_eq_zero_iff :
    ∀ (a b : List ℚ), (∀ x ∈ a, 0 ≤ x) → (∀ x ∈ b, 0 ≤ x) →
      ((List.zipWith (fun x y => x * y) a b).sum = 0 ↔ ¬ Overlap a b)
  | [], b, _, _ => by
    simp only [List.zipWith_nil_left, List.sum_nil, true_iff]
    rintro ⟨i, hi, _⟩
    simp at hi
  | x :: a, [], _, _ => by
    simp only [List.zipWith_nil_right, List.sum_nil, true_iff]
    rintro ⟨i, _, hi, _⟩
    simp at hi
  | x :: a, y :: b, ha, hb => by
    have ha2 : ∀ z ∈ a, 0 ≤ z := fun z hz => ha z (List.mem_cons_of_mem _ hz)
    have hb2 : ∀ z ∈ b, 0 ≤ z := fun z hz => hb z (List.mem_cons_of_mem _ hz)
    have ih := sum_zipWith_mul_eq_zero_iff a b ha2 hb2
    have h1 := sum_zipWith_mul_nonneg a b ha2 hb2
    have h2 : 0 ≤ x * y :=
      mul_nonneg (ha x (List.mem_cons_self _ _)) (hb y (List.mem_cons_self _ _))
    simp only [List.zipWith_cons_cons, List.sum_cons, Overlap_cons, not_or]
    constructor
    · intro h
      have hxy : x * y = 0 := by linarith
      have hrest : (List.zipWith (fun x y => x * y) a b).sum = 0 := by linarith
      refine ⟨?_, ih.mp hrest⟩
      intro ⟨hx, hy⟩
      exact (mul_ne_zero hx hy) hxy
    · intro ⟨hxy, hrest⟩
      have hxy2 : x * y = 0 := by
        by_contra hne
        exact hxy ⟨left_ne_zero_of_mul hne, right_ne_zero_of_mul hne⟩
      rw [hxy2, ih.mpr hrest]
      simp

/-- C7: on a receiving tracker, `StartRx` at `now == lastChangeTime` with a signal on the
axis of the receive signal, both with non-negative entries, fails its orthogonality
assertion if and only if the two vectors overlap in frequency (equivalently, the sum of
their element-wise product is non-zero); when they are disjoint the call succeeds, the
receive signal becomes the element-wise sum, nothing is emitted and no other field
(the aggregate included) changes. -/
theorem StartRx_orthogonality (now : Time) (s : LteInterference) (rx rxPsd : SpectrumValue)
    (hr : s.m_receiving = true) (hrx : s.m_rxSignal = some rx)
    (hl : rxPsd.length = rx.length) (hpos1 : ∀ x ∈ rxPsd, 0 ≤ x) (hpos2 : ∀ x ∈ rx, 0 ≤ x)
    (ht : s.m_lastChangeTime = now) :
    (Overlap rxPsd rx ↔ Sum (List.zipWith (fun x y => x * y) rxPsd rx) ≠ 0) ∧
    (StartRx now rxPsd s = .error Fault.assertOrthogonal ↔ Overlap rxPsd rx) ∧
    (¬ Overlap rxPsd rx →
      StartRx now rxPsd s
        = .ok ({ s with m_rxSignal := some (List.zipWith (fun x y => x + y) rx rxPsd) }, []) ∧
      ∀ i, i < rx.length →
        (List.zipWith (fun x y => x + y) rx rxPsd).getD i 0 = rx.getD i 0 + rxPsd.getD i 0) := by
  have hiff := sum_zipWith_mul_eq_zero_iff rxPsd rx hpos1 hpos2
  have hstart : StartRx now rxPsd s =
      if Sum (List.zipWith (fun x y => x * y) rxPsd rx) = 0 then
        .ok ({ s with m_rxSignal := some (List.zipWith (fun x y => x + y) rx rxPsd) }, [])
      else .error Fault.assertOrthogonal := by
    simp [StartRx, hr, ht, hrx, deref, mul, add, combine_eq_ok _ _ _ hl,
      combine_eq_ok _ _ _ hl.symm]
  refine ⟨?_, ?_, ?_⟩
  · rw [Sum, Ne, hiff, not_not]
  · rw [hstart]
    by_cases hov : Overlap rxPsd rx
    · have hne : ¬ Sum (List.zipWith (fun x y => x * y) rxPsd rx) = 0 := by
        rw [Sum, hiff, not_not]; exact hov
      simp [hne, hov]
    · have he : Sum (List.zipWith (fun x y => x * y) rxPsd rx) = 0 := by
        rw [Sum, hiff]; exact hov
      simp [he, hov]
  · intro hov
    have he : Sum (List.zipWith (fun x y => x * y) rxPsd rx) = 0 := by
      rw [Sum, hiff]; exact hov
    refine ⟨by rw [hstart, if_pos he], ?_⟩
    intro i hi
    exact getD_zipWith _ rx rxPsd i hi (by rw [hl]; exact hi)

/-- C7 witness: the scenario tracker, receiving `[4,0]` since t=0, gets `StartRx([0,3])`
at t=0 (disjoint), which leaves the receive signal `[4,3]`. -/
theorem StartRx_orthogonality_witness :
    (Overlap [0, 3] [4, 0] ↔ Sum (List.zipWith (fun x y => x * y) [0, 3] [4, 0]) ≠ 0) ∧
    (StartRx 0 [0, 3] scenarioAfterSetup = .error Fault.assertOrthogonal ↔ Overlap [0, 3] [4, 0]) ∧
    (¬ Overlap [0, 3] [4, 0] →
      StartRx 0 [0, 3] scenarioAfterSetup
        = .ok ({ scenarioAfterSetup with
                 m_rxSignal := some (List.zipWith (fun x y => x + y) [4, 0] [0, 3]) }, []) ∧
      ∀ i, i < ([4, 0] : SpectrumValue).length →
        (List.zipWith (fun x y => x + y) ([4, 0] : SpectrumValue) [0, 3]).getD i 0
          = ([4, 0] : SpectrumValue).getD i 0 + ([0, 3] : SpectrumValue).getD i 0) :=
  StartRx_orthogonality 0 scenarioAfterSetup [4, 0] [0, 3] rfl rfl rfl
    (by intro x hx; simp at hx; rcases hx with h | h <;> simp [h])
    (by intro x hx; simp at hx; rcases hx with h | h <;> simp [h])
    rfl

/-! ## C8: SetNoisePowerSpectralDensity -/

/-- The window close when it fires, with the three vectors present on one axis layout. -/
theorem ConditionallyEvaluateChunk_fires (now : Time) (s : LteInterference)
    (rx all noise : SpectrumValue) (hc : s.m_receiving = true ∧ now > s.m_lastChangeTime)
    (hrx : s.m_rxSignal = some rx) (hall : s.m_allSignals = some all)
    (hnoise : s.m_noise = some noise)
    (h1 : all.length = rx.length) (h2 : noise.length = rx.length) :
    ConditionallyEvaluateChunk now s
      = .ok ({ s with m_lastChangeTime := now },
             s.m_sinrChunkProcessorList.map
               (fun p => Effect.EvaluateSinrChunk p (sinrChunk rx all noise)
                 (now - s.m_lastChangeTime))) := by
  unfold ConditionallyEvaluateChunk
  rw [if_pos hc, hrx, hall, hnoise]
  simp [deref, sub, add, div, combine_eq_ok, h1, h2, sinrChunk]

theorem sinrChunk_getD (rx all noise : SpectrumValue)
    (h1 : all.length = rx.length) (h2 : noise.length = rx.length) (i : Nat) (hi : i < rx.length) :
    (sinrChunk rx all noise).getD i 0
      = rx.getD i 0 / (all.getD i 0 - rx.getD i 0 + noise.getD i 0) := by
  unfold sinrChunk
  rw [getD_zipWith _ _ _ _ hi (by simp [h1, h2, hi]),
    getD_zipWith _ _ _ _ (by simp [h1, hi]) (by simp [h2, hi]),
    getD_zipWith _ _ _ _ (by simp [h1, hi]) hi]

theorem no_End_in_chunks (l : List Nat) (sinr : SpectrumValue) (d : Time) (p : Nat) :
    Effect.End p ∉ l.map (fun q => Effect.EvaluateSinrChunk q sinr d) := by
  simp

/-- C8: `SetNoisePowerSpectralDensity` first closes the current window on the old state
(when it does not fire nothing is emitted; when it fires, one chunk per consumer computed
from the old receive signal, old aggregate and old noise floor), then leaves the noise
floor at `noisePsd`, the aggregate all-zero on the axis of `noisePsd`, `receiving` false
and the reset boundary at `lastSignalId`, which is unchanged; whenever it returns, no
`End` was notified. -/
theorem SetNoisePowerSpectralDensity_spec (now : Time) (noisePsd : SpectrumValue)
    (s : LteInterference) :
    (¬ (s.m_receiving = true ∧ now > s.m_lastChangeTime) →
      SetNoisePowerSpectralDensity now noisePsd s
        = .ok ({ s with m_noise := some noisePsd,
                        m_allSignals := some (Create (GetSpectrumModel noisePsd)),
                        m_receiving := false,
                        m_lastSignalIdBeforeReset := s.m_lastSignalId }, [])) ∧
    (∀ rx all noise : SpectrumValue,
      (s.m_receiving = true ∧ now > s.m_lastChangeTime) →
      s.m_rxSignal = some rx → s.m_allSignals = some all → s.m_noise = some noise →
      all.length = rx.length → noise.length = rx.length →
      SetNoisePowerSpectralDensity now noisePsd s
        = .ok ({ s with m_lastChangeTime := now,
                        m_noise := some noisePsd,
                        m_allSignals := some (Create (GetSpectrumModel noisePsd)),
                        m_receiving := false,
                        m_lastSignalIdBeforeReset := s.m_lastSignalId },
               s.m_sinrChunkProcessorList.map
                 (fun p => Effect.EvaluateSinrChunk p (sinrChunk rx all noise)
                   (now - s.m_lastChangeTime))) ∧
      ∀ i, i < rx.length →
        (sinrChunk rx all noise).getD i 0
          = rx.getD i 0 / (all.getD i 0 - rx.getD i 0 + noise.getD i 0)) ∧
    (∀ s2 fx, SetNoisePowerSpectralDensity now noisePsd s = .ok (s2, fx) →
      (∀ p, Effect.End p ∉ fx) ∧
      s2.m_noise = some noisePsd ∧
      s2.m_allSignals = some (Create (GetSpectrumModel noisePsd)) ∧
      s2.m_receiving = false ∧
      s2.m_lastSignalIdBeforeReset = s.m_lastSignalId ∧
      s2.m_lastSignalId = s.m_lastSignalId) ∧
    (Create (GetSpectrumModel noisePsd)).length = noisePsd.length ∧
    (∀ x ∈ Create (GetSpectrumModel noisePsd), x = 0) := by
  refine ⟨?_, ?_, ?_, by simp [Create, GetSpectrumModel], ?_⟩
  · intro hc
    have h : ConditionallyEvaluateChunk now s = .ok (s, []) := by
      unfold ConditionallyEvaluateChunk
      rw [if_neg hc]
    simp only [SetNoisePowerSpectralDensity, h, bind_ok]
    cases hr : s.m_receiving <;> simp [hr]
  · intro rx all noise hc hrx hall hnoise h1 h2
    refine ⟨?_, sinrChunk_getD rx all noise h1 h2⟩
    simp only [SetNoisePowerSpectralDensity,
      ConditionallyEvaluateChunk_fires now s rx all noise hc hrx hall hnoise h1 h2, bind_ok]
    simp [hc.1]
  · intro s2 fx h
    obtain ⟨s1, hcec, hs2⟩ := SetNoisePowerSpectralDensity_ok now noisePsd s s2 fx h
    obtain ⟨_, _, _, _, f5, _, _⟩ := ConditionallyEvaluateChunk_frame now s s1 fx hcec
    refine ⟨?_, by rw [hs2], by rw [hs2], by rw [hs2], by rw [hs2]; exact f5, by rw [hs2]; exact f5⟩
    intro p
    rcases ConditionallyEvaluateChunk_cases now s s1 fx hcec with ⟨_, _, _, sinr, hfx⟩ | ⟨_, _, hfx⟩
    · rw [hfx]; exact no_End_in_chunks _ _ _ _
    · rw [hfx]; simp
  · intro x hx
    simp only [Create] at hx
    exact List.eq_of_mem_replicate hx

/-- C8 witness: the noise floor is set to `[2,2]` at t=5 on the scenario tracker, which
has been receiving since t=0: one chunk from the old vectors, no `End`, reception
aborted; and at t=0, when no time has elapsed. -/
theorem SetNoisePowerSpectralDensity_spec_witness :
    SetNoisePowerSpectralDensity 5 [2, 2] scenarioAfterSetup
      = .ok ({ scenarioAfterSetup with
                 m_lastChangeTime := 5, m_noise := some [2, 2], m_allSignals := some [0, 0],
                 m_receiving := false, m_lastSignalIdBeforeReset := 1 },
             [.EvaluateSinrChunk 0 [-4/3, 0] 5]) ∧
    SetNoisePowerSpectralDensity 0 [2, 2] scenarioAfterSetup
      = .ok ({ scenarioAfterSetup with
                 m_noise := some [2, 2], m_allSignals := some [0, 0],
                 m_receiving := false, m_lastSignalIdBeforeReset := 1 }, []) := by
  have h := SetNoisePowerSpectralDensity_spec 5 [2, 2] scenarioAfterSetup
  have h0 := SetNoisePowerSpectralDensity_spec 0 [2, 2] scenarioAfterSetup
  constructor
  · rw [(h.2.1 [4, 0] [0, 2] [1, 1] (by simp [scenarioAfterSetup]) rfl rfl rfl rfl rfl).1]
    simp [scenarioAfterSetup, sinrChunk, Create, GetSpectrumModel, List.replicate]
    norm_num
  · rw [h0.1 (by simp [scenarioAfterSetup])]
    simp [scenarioAfterSetup, Create, GetSpectrumModel, List.replicate]

/-! ## C9: EndRx -/

/-- C9: `EndRx` on a tracker that is not receiving changes nothing and emits nothing, so
`EndRx` on the result of a successful `EndRx` is such a no-op.  On a receiving tracker it
closes the window (one `EvaluateSinrChunk` per consumer if `now > lastChangeTime`, none
otherwise), sets `receiving` to false and then notifies `End` to every registered
consumer once, in registration order, after the chunks; the aggregate, the noise floor
and both ids are unchanged. -/
theorem EndRx_spec (now : Time) (s : LteInterference) :
    (s.m_receiving ≠ true → EndRx now s = .ok (s, [])) ∧
    (∀ s2 fx, EndRx now s = .ok (s2, fx) → EndRx now s2 = .ok (s2, [])) ∧
    (s.m_receiving = true → ¬ now > s.m_lastChangeTime →
      EndRx now s
        = .ok ({ s with m_receiving := false }, s.m_sinrChunkProcessorList.map Effect.End)) ∧
    (∀ rx all noise : SpectrumValue,
      s.m_receiving = true → now > s.m_lastChangeTime →
      s.m_rxSignal = some rx → s.m_allSignals = some all → s.m_noise = some noise →
      all.length = rx.length → noise.length = rx.length →
      EndRx now s
        = .ok ({ s with m_lastChangeTime := now, m_receiving := false },
               s.m_sinrChunkProcessorList.map
                 (fun p => Effect.EvaluateSinrChunk p (sinrChunk rx all noise)
                   (now - s.m_lastChangeTime))
               ++ s.m_sinrChunkProcessorList.map Effect.End)) ∧
    (∀ s2 fx, EndRx now s = .ok (s2, fx) →
      s2.m_allSignals = s.m_allSignals ∧ s2.m_noise = s.m_noise ∧
      s2.m_lastSignalId = s.m_lastSignalId ∧
      s2.m_lastSignalIdBeforeReset = s.m_lastSignalIdBeforeReset) := by
  have hidle : ∀ x : LteInterference, x.m_receiving ≠ true → EndRx now x = .ok (x, []) := by
    intro x hx
    unfold EndRx
    rw [if_pos hx]
  refine ⟨hidle s, ?_, ?_, ?_, ?_⟩
  · intro s2 fx h
    by_cases hr : s.m_receiving = true
    · obtain ⟨s1, fx1, _, hs2, _⟩ := EndRx_ok now s s2 fx hr h
      exact hidle s2 (by rw [hs2]; simp)
    · rw [hidle s hr] at h
      injection h with h
      injection h with hs _
      rw [← hs]
      exact hidle s hr
  · intro hr hc
    have h : ConditionallyEvaluateChunk now s = .ok (s, []) := by
      unfold ConditionallyEvaluateChunk
      rw [if_neg (fun h => hc h.2)]
    simp [EndRx, hr, h]
  · intro rx all noise hr hc hrx hall hnoise h1 h2
    simp [EndRx, hr,
      ConditionallyEvaluateChunk_fires now s rx all noise ⟨hr, hc⟩ hrx hall hnoise h1 h2]
  · intro s2 fx h
    by_cases hr : s.m_receiving = true
    · obtain ⟨s1, fx1, hcec, hs2, _⟩ := EndRx_ok now s s2 fx hr h
      obtain ⟨_, _, f3, f4, f5, f6, _⟩ := ConditionallyEvaluateChunk_frame now s s1 fx1 hcec
      rw [hs2]
      exact ⟨f3, f4, f5, f6⟩
    · rw [hidle s hr] at h
      injection h with h
      injection h with hs _
      rw [← hs]
      exact ⟨rfl, rfl, rfl, rfl⟩

/-- C9 witness: `EndRx` at t=5 on the scenario tracker (receiving since t=0) emits the
chunk and then `End`; `EndRx` again on the result is a no-op. -/
theorem EndRx_spec_witness :
    EndRx 5 scenarioAfterSetup
      = .ok (scenarioAfterEndRx, [.EvaluateSinrChunk 0 [-4/3, 0] 5, .End 0]) ∧
    EndRx 5 scenarioAfterEndRx = .ok (scenarioAfterEndRx, []) := by
  have h := EndRx_spec 5 scenarioAfterSetup
  have h1 : EndRx 5 scenarioAfterSetup
      = .ok (scenarioAfterEndRx, [.EvaluateSinrChunk 0 [-4/3, 0] 5, .End 0]) := by
    rw [h.2.2.2.1 [4, 0] [0, 2] [1, 1] rfl (by simp [scenarioAfterSetup]) rfl rfl rfl rfl rfl]
    simp [scenarioAfterSetup, scenarioAfterEndRx, sinrChunk]
    norm_num
  exact ⟨h1, h.2.1 _ _ h1⟩

/-! ## C10: no-signal idempotence -/

theorem chunkCount_chunks (p : Nat) (sinr : SpectrumValue) (d : Time) (l : List Nat) :
    chunkCount p (l.map (fun q => Effect.EvaluateSinrChunk q sinr d)) = l.count p := by
  induction l with
  | nil => rfl
  | cons q l ih =>
    simp only [chunkCount] at ih
    by_cases hq : q = p
    · simp [chunkCount, List.countP_cons, hq, ih]
    · simp [chunkCount, List.countP_cons, hq, ih, List.count_cons]

/-- C10: when `ConditionallyEvaluateChunk` has returned at time `now`, calling it again at
the same `now` on the resulting state returns that state unchanged and emits nothing, so
the two calls together deliver to each consumer at most as many `EvaluateSinrChunk` as it
has registrations (at most one when it is registered once). -/
theorem ConditionallyEvaluateChunk_idempotent (now : Time) (s s1 : LteInterference)
    (fx : List Effect) (h : ConditionallyEvaluateChunk now s = .ok (s1, fx)) :
    ConditionallyEvaluateChunk now s1 = .ok (s1, []) ∧
    (∀ p, chunkCount p (fx ++ []) ≤ s.m_sinrChunkProcessorList.count p) ∧
    (∀ p, s.m_sinrChunkProcessorList.count p = 1 → chunkCount p (fx ++ []) ≤ 1) := by
  have hcount : ∀ p, chunkCount p (fx ++ []) ≤ s.m_sinrChunkProcessorList.count p := by
    intro p
    rw [List.append_nil]
    rcases ConditionallyEvaluateChunk_cases now s s1 fx h with ⟨_, _, _, sinr, hfx⟩ | ⟨_, _, hfx⟩
    · rw [hfx, chunkCount_chunks]
    · rw [hfx]; simp [chunkCount]
  refine ⟨?_, hcount, fun p hp => hp ▸ hcount p⟩
  rcases ConditionallyEvaluateChunk_cases now s s1 fx h with ⟨_, _, hs1, _⟩ | ⟨hc, hs1, _⟩
  · unfold ConditionallyEvaluateChunk
    rw [if_neg (by rw [hs1]; simp)]
  · unfold ConditionallyEvaluateChunk
    rw [if_neg (by rw [hs1]; exact hc)]

/-- C10 witness: the window of the scenario tracker closed twice at t=5. -/
theorem ConditionallyEvaluateChunk_idempotent_witness :
    ConditionallyEvaluateChunk 5 { scenarioAfterSetup with m_lastChangeTime := 5 }
      = .ok ({ scenarioAfterSetup with m_lastChangeTime := 5 }, []) ∧
    (∀ p, chunkCount p ([Effect.EvaluateSinrChunk 0 [-4/3, 0] 5] ++ [])
      ≤ scenarioAfterSetup.m_sinrChunkProcessorList.count p) ∧
    (∀ p, scenarioAfterSetup.m_sinrChunkProcessorList.count p = 1 →
      chunkCount p ([Effect.EvaluateSinrChunk 0 [-4/3, 0] 5] ++ []) ≤ 1) :=
  ConditionallyEvaluateChunk_idempotent 5 scenarioAfterSetup
    { scenarioAfterSetup with m_lastChangeTime := 5 } [.EvaluateSinrChunk 0 [-4/3, 0] 5]
    (by
      simp [ConditionallyEvaluateChunk, scenarioAfterSetup, deref, sub, add, div, combine,
        GetSpectrumModel]
      norm_num)

/-! ## C11: close-before-mutate -/

theorem ConditionallyEvaluateChunk_again (now : Time) (s s1 : LteInterference) (fx : List Effect)
    (h : ConditionallyEvaluateChunk now s = .ok (s1, fx)) :
    ConditionallyEvaluateChunk now s1 = .ok (s1, []) := by
  rcases ConditionallyEvaluateChunk_cases now s s1 fx h with ⟨_, _, hs1, _⟩ | ⟨hc, hs1, _⟩
  · unfold ConditionallyEvaluateChunk
    rw [if_neg (by rw [hs1]; simp)]
  · unfold ConditionallyEvaluateChunk
    rw [if_neg (by rw [hs1]; exact hc)]

/-- C11 (as stated, refuted): on the scenario tracker, receiving since t=0, registering a
consumer at t=5 emits nothing and leaves `lastChangeTime` at 0, whereas closing the window
first emits a chunk of duration 5 and moves `lastChangeTime` to 5. -/
theorem registration_does_not_close_window :
    AddSinrChunkProcessor 1 scenarioAfterSetup
      = .ok ({ scenarioAfterSetup with m_sinrChunkProcessorList := [0, 1] }, []) ∧
    ConditionallyEvaluateChunk 5 scenarioAfterSetup
      = .ok ({ scenarioAfterSetup with m_lastChangeTime := 5 },
             [.EvaluateSinrChunk 0 [-4/3, 0] 5]) ∧
    AddSinrChunkProcessor 1 { scenarioAfterSetup with m_lastChangeTime := 5 }
      = .ok ({ scenarioAfterSetup with m_lastChangeTime := 5,
                                       m_sinrChunkProcessorList := [0, 1] }, []) ∧
    ({ scenarioAfterSetup with m_sinrChunkProcessorList := [0, 1] } : LteInterference)
      ≠ { scenarioAfterSetup with m_lastChangeTime := 5, m_sinrChunkProcessorList := [0, 1] } := by
  refine ⟨by simp [AddSinrChunkProcessor, scenarioAfterSetup], ?_,
    by simp [AddSinrChunkProcessor, scenarioAfterSetup], by simp [scenarioAfterSetup]⟩
  simp [ConditionallyEvaluateChunk, scenarioAfterSetup, deref, sub, add, div, combine,
    GetSpectrumModel]
  norm_num

/-- C11 (amended): every call other than the registration of a consumer (`StartRx`,
`EndRx`, `AddSignal`, the scheduled removal, `SetNoisePowerSpectralDensity`) that
succeeds at `now` gives the same final state and the same sequence of effects as closing
the window at `now` first and then making the call. -/
theorem close_before_mutate (now : Time) (op : Op) (s s2 : LteInterference) (fx : List Effect)
    (hop : notRegistration op) (h : step now op s = .ok (s2, fx)) :
    ∃ s1 fx1 fx2, ConditionallyEvaluateChunk now s = .ok (s1, fx1) ∧
      step now op s1 = .ok (s2, fx2) ∧ fx = fx1 ++ fx2 := by
  cases op with
  | StartRx rxPsd =>
    have hc : ¬ (s.m_receiving = true ∧ now > s.m_lastChangeTime) := by
      rintro ⟨hr, hgt⟩
      have hne : ¬ s.m_lastChangeTime = now := fun he => by rw [he] at hgt; exact lt_irrefl _ hgt
      simp [step, StartRx, hr, hne] at h
    refine ⟨s, [], fx, ?_, h, rfl⟩
    unfold ConditionallyEvaluateChunk
    rw [if_neg hc]
  | EndRx =>
    by_cases hr : s.m_receiving = true
    · obtain ⟨s1, fx1, hc, hs2, hfx⟩ := EndRx_ok now s s2 fx hr h
      obtain ⟨f1, _⟩ := ConditionallyEvaluateChunk_frame now s s1 fx1 hc
      refine ⟨s1, fx1, s1.m_sinrChunkProcessorList.map Effect.End, hc, ?_, hfx⟩
      simp [step, EndRx, f1, hr, ConditionallyEvaluateChunk_again now s s1 fx1 hc, hs2]
    · refine ⟨s, [], fx, ?_, h, rfl⟩
      unfold ConditionallyEvaluateChunk
      rw [if_neg (fun hc => hr hc.1)]
  | AddSignal spd duration =>
    obtain ⟨s1, fx1, all, all2, hc, hall, hadd, hs3, hfx⟩ := AddSignal_ok now spd duration s s2 fx h
    refine ⟨s1, fx1, [Effect.Schedule duration spd ((s1.m_lastSignalId + 1) % UINT32_MOD)],
      hc, ?_, hfx⟩
    simp only [step, AddSignal, DoAddSignal, ConditionallyEvaluateChunk_again now s s1 fx1 hc,
      bind_ok, hall, deref, hadd, List.nil_append, hs3]
  | DoSubtractSignal spd signalId =>
    obtain ⟨s1, hc, hcase⟩ := DoSubtractSignal_ok now spd signalId s s2 fx h
    refine ⟨s1, fx, [], hc, ?_, by simp⟩
    rcases hcase with ⟨hd, all, all2, hall, hsub, hs⟩ | ⟨hd, hs⟩
    · simp only [step, DoSubtractSignal, ConditionallyEvaluateChunk_again now s s1 fx hc,
        bind_ok, if_pos hd, hall, deref, hsub, hs]
    · simp only [step, DoSubtractSignal, ConditionallyEvaluateChunk_again now s s1 fx hc,
        bind_ok, if_neg hd, hs]
  | SetNoisePowerSpectralDensity noisePsd =>
    obtain ⟨s1, hc, hs⟩ := SetNoisePowerSpectralDensity_ok now noisePsd s s2 fx h
    refine ⟨s1, fx, [], hc, ?_, by simp⟩
    simp only [step, SetNoisePowerSpectralDensity,
      ConditionallyEvaluateChunk_again now s s1 fx hc, bind_ok, hs]
    cases hr : s1.m_receiving <;> simp [hr]
  | AddSinrChunkProcessor p => exact absurd hop (by simp [notRegistration])

/-- C11 witness: `AddSignal ([0,2], 10)` at t=5 on the scenario tracker. -/
theorem close_before_mutate_witness :
    ∃ s1 fx1 fx2, ConditionallyEvaluateChunk 5 scenarioAfterSetup = .ok (s1, fx1) ∧
      step 5 (.AddSignal [0, 2] 10) s1
        = .ok ({ scenarioAfterSetup with m_lastChangeTime := 5, m_allSignals := some [0, 4],
                                         m_lastSignalId := 2 }, fx2) ∧
      [Effect.EvaluateSinrChunk 0 [-4/3, 0] 5, Effect.Schedule 10 [0, 2] 2] = fx1 ++ fx2 :=
  close_before_mutate 5 (.AddSignal [0, 2] 10) scenarioAfterSetup _ _ (by simp [notRegistration])
    (by
      simp [step, AddSignal, DoAddSignal, ConditionallyEvaluateChunk, scenarioAfterSetup, deref,
        sub, add, div, combine, GetSpectrumModel, UINT32_MOD]
      norm_num)

/-! ## C12: StartRx -/

/-- C12: `StartRx` on a tracker that is not receiving sets the receive signal to a copy of
the signal, `lastChangeTime` to `now` and `receiving` to true, notifies `Start` to every
registered consumer once, in registration order, emits nothing else and changes no other
field.  On a tracker that is already receiving it fails its synchronisation assertion,
before any change to the state, whenever `now` differs from `lastChangeTime`. -/
theorem StartRx_spec (now : Time) (rxPsd : SpectrumValue) (s : LteInterference) :
    (s.m_receiving = false →
      StartRx now rxPsd s
        = .ok ({ s with m_rxSignal := some rxPsd, m_lastChangeTime := now, m_receiving := true },
               s.m_sinrChunkProcessorList.map Effect.Start) ∧
      (∀ p sinr d, Effect.EvaluateSinrChunk p sinr d ∉ s.m_sinrChunkProcessorList.map Effect.Start) ∧
      (∀ p, (s.m_sinrChunkProcessorList.map Effect.Start).count (Effect.Start p)
        = s.m_sinrChunkProcessorList.count p)) ∧
    (s.m_receiving = true → s.m_lastChangeTime ≠ now →
      StartRx now rxPsd s = .error Fault.assertSynchronized) := by
  constructor
  · intro hr
    refine ⟨by simp [StartRx, hr, Copy], by simp, ?_⟩
    intro p
    exact List.count_map_of_injective _ _ (fun a b hab => by injection hab) p
  · intro hr hne
    simp [StartRx, hr, hne]

/-- C12 witness: `StartRx ([4,0])` at t=7 on the idle tracker, and `StartRx` at t=5 on the
scenario tracker, which has been receiving since t=0. -/
theorem StartRx_spec_witness :
    StartRx 7 [4, 0] idleTracker
      = .ok ({ idleTracker with m_rxSignal := some [4, 0], m_lastChangeTime := 7,
                                m_receiving := true }, [.Start 0]) ∧
    StartRx 5 [0, 3] scenarioAfterSetup = .error Fault.assertSynchronized :=
  ⟨((StartRx_spec 7 [4, 0] idleTracker).1 rfl).1,
   (StartRx_spec 5 [0, 3] scenarioAfterSetup).2 rfl (by simp [scenarioAfterSetup])⟩

/-! ## C13: the scheduled removal -/

/-- C13: the scheduled removal first closes the current window (its effects are those of
the window close) and then subtracts the signal, element-wise, from the aggregate if and
only if `signalId - resetBoundary`, taken modulo 2^32 and read as a signed 32-bit integer,
is strictly positive; otherwise the aggregate is unchanged.  In both cases `receiving`,
the receive signal, the noise floor and both ids are unchanged and the call returns. -/
theorem DoSubtractSignal_spec (now : Time) (spd all : SpectrumValue) (signalId : Nat)
    (s s1 : LteInterference) (fx : List Effect)
    (hc : ConditionallyEvaluateChunk now s = .ok (s1, fx))
    (hall : s.m_allSignals = some all) (hl : all.length = spd.length) :
    (deltaSignalId signalId s
      = toInt32 ((signalId : Int) - (s.m_lastSignalIdBeforeReset : Int))) ∧
    (deltaSignalId signalId s > 0 →
      DoSubtractSignal now spd signalId s
        = .ok ({ s1 with m_allSignals := some (List.zipWith (fun x y => x - y) all spd) }, fx) ∧
      ∀ i, i < all.length →
        (List.zipWith (fun x y => x - y) all spd).getD i 0 = all.getD i 0 - spd.getD i 0) ∧
    (¬ deltaSignalId signalId s > 0 →
      DoSubtractSignal now spd signalId s = .ok (s1, fx) ∧ s1.m_allSignals = s.m_allSignals) ∧
    (s1.m_receiving = s.m_receiving ∧ s1.m_rxSignal = s.m_rxSignal ∧ s1.m_noise = s.m_noise ∧
      s1.m_lastSignalId = s.m_lastSignalId ∧
      s1.m_lastSignalIdBeforeReset = s.m_lastSignalIdBeforeReset) := by
  obtain ⟨f1, f2, f3, f4, f5, f6, _⟩ := ConditionallyEvaluateChunk_frame now s s1 fx hc
  have hd : deltaSignalId signalId s1 = deltaSignalId signalId s := by
    simp only [deltaSignalId, f6]
  refine ⟨rfl, ?_, ?_, ⟨f1, f2, f4, f5, f6⟩⟩
  · intro hpos
    refine ⟨?_, fun i hi => getD_zipWith _ all spd i hi (by rw [← hl]; exact hi)⟩
    simp only [DoSubtractSignal, hc, bind_ok, hd, if_pos hpos, f3, hall, deref, sub,
      combine_eq_ok _ _ _ hl]
  · intro hneg
    refine ⟨?_, f3⟩
    simp only [DoSubtractSignal, hc, bind_ok, hd, if_neg hneg]

/-- C13 witness: on the scenario tracker after `EndRx`, the removal of `[0,2]` with id 1
is honoured (difference 1), the removal with id 0 is skipped (difference 0). -/
theorem DoSubtractSignal_spec_witness :
    DoSubtractSignal 10 [0, 2] 1 scenarioAfterEndRx
      = .ok ({ scenarioAfterEndRx with
                 m_allSignals := some (List.zipWith (fun x y => x - y) [0, 2] [0, 2]) }, []) ∧
    DoSubtractSignal 10 [0, 2] 0 scenarioAfterEndRx = .ok (scenarioAfterEndRx, []) := by
  have h1 := DoSubtractSignal_spec 10 [0, 2] [0, 2] 1 scenarioAfterEndRx scenarioAfterEndRx []
    (by simp [ConditionallyEvaluateChunk, scenarioAfterEndRx]) rfl rfl
  have h0 := DoSubtractSignal_spec 10 [0, 2] [0, 2] 0 scenarioAfterEndRx scenarioAfterEndRx []
    (by simp [ConditionallyEvaluateChunk, scenarioAfterEndRx]) rfl rfl
  exact ⟨(h1.2.1 (by simp [deltaSignalId, toInt32, scenarioAfterEndRx, scenarioAfterSetup])).1,
    (h0.2.2.1 (by simp [deltaSignalId, toInt32, scenarioAfterEndRx, scenarioAfterSetup])).1⟩

/-! ## C14: AddSignal -/

theorem scheduleCount_chunks (s s1 : LteInterference) (now : Time) (fx : List Effect)
    (h : ConditionallyEvaluateChunk now s = .ok (s1, fx)) : scheduleCount fx = 0 := by
  rcases ConditionallyEvaluateChunk_cases now s s1 fx h with ⟨_, _, _, sinr, hfx⟩ | ⟨_, _, hfx⟩
  · rw [hfx]
    simp [scheduleCount, List.countP_eq_zero]
  · rw [hfx]
    rfl

/-- C14: `AddSignal` closes the current window, adds the signal element-wise into the
aggregate, increments `lastSignalId` by one modulo 2^32 and schedules exactly one removal,
after `duration`, of that signal with the new value of `lastSignalId`.  When the tracker is
the result of `SetNoisePowerSpectralDensity`, that id is the reset boundary plus one
(modulo 2^32), and after any further `AddSignal` calls (fewer than 2^32 - 1) its signed
difference to the boundary is 1, so its removal subtracts the signal. -/
theorem AddSignal_spec (now : Time) (spd all : SpectrumValue) (duration : Time)
    (s s1 : LteInterference) (fx : List Effect)
    (hc : ConditionallyEvaluateChunk now s = .ok (s1, fx))
    (hall : s.m_allSignals = some all) (hl : all.length = spd.length) :
    ∃ s2,
      AddSignal now spd duration s
        = .ok (s2, fx ++ [Effect.Schedule duration spd ((s.m_lastSignalId + 1) % UINT32_MOD)]) ∧
      s2.m_allSignals = some (List.zipWith (fun x y => x + y) all spd) ∧
      (∀ i, i < all.length →
        (List.zipWith (fun x y => x + y) all spd).getD i 0 = all.getD i 0 + spd.getD i 0) ∧
      s2.m_lastSignalId = (s.m_lastSignalId + 1) % UINT32_MOD ∧
      scheduleCount
        (fx ++ [Effect.Schedule duration spd ((s.m_lastSignalId + 1) % UINT32_MOD)]) = 1 ∧
      (∀ s0 tn noisePsd fx0, SetNoisePowerSpectralDensity tn noisePsd s0 = .ok (s, fx0) →
        (s.m_lastSignalId + 1) % UINT32_MOD = (s.m_lastSignalIdBeforeReset + 1) % UINT32_MOD ∧
        ∀ adds s3 tr, (∀ x ∈ adds, isAddSignal x.2) → adds.length + 1 < 4294967296 →
          run adds s2 = .ok (s3, tr) →
          deltaSignalId ((s.m_lastSignalId + 1) % UINT32_MOD) s3 = 1 ∧
          ∀ tf all3, s3.m_allSignals = some all3 → all3.length = spd.length →
            DoSubtractSignal tf spd ((s.m_lastSignalId + 1) % UINT32_MOD) s3
              = .ok ({ s3 with
                       m_allSignals := some (List.zipWith (fun x y => x - y) all3 spd) },
                     [])) := by
  obtain ⟨_, _, f3, _, f5, f6, _⟩ := ConditionallyEvaluateChunk_frame now s s1 fx hc
  have hall1 : s1.m_allSignals = some all := by rw [f3]; exact hall
  have hres : ∃ s2, AddSignal now spd duration s
      = .ok (s2, fx ++ [Effect.Schedule duration spd ((s.m_lastSignalId + 1) % UINT32_MOD)]) := by
    simp only [AddSignal, DoAddSignal, hc, bind_ok, hall1, deref, add, combine_eq_ok _ _ _ hl, f5]
    exact ⟨_, rfl⟩
  obtain ⟨s2, h2⟩ := hres
  obtain ⟨s1b, fx1, allb, all2, hcb, hallb, haddb, hs3, _⟩ :=
    AddSignal_ok now spd duration s s2 _ h2
  have hs1 : s1b = s1 := by
    rw [hc] at hcb
    injection hcb with hcb
    injection hcb with h _
    exact h.symm
  subst hs1
  have hab : allb = all := by
    rw [hall1] at hallb
    injection hallb with h
    exact h.symm
  subst hab
  have hall2 : all2 = List.zipWith (fun x y => x + y) allb spd := by
    rw [add, combine_eq_ok _ _ _ hl] at haddb
    injection haddb with h
    exact h.symm
  obtain ⟨r2, l2, b2, _⟩ := AddSignal_ids now spd duration s s2 _ h2
  refine ⟨s2, h2, ?_, fun i hi => getD_zipWith _ allb spd i hi (by rw [← hl]; exact hi), l2, ?_, ?_⟩
  · rw [hs3, ← hall2]
    split <;> rfl
  · simp only [scheduleCount, List.countP_append]
    have h0 := scheduleCount_chunks s s1b now fx hc
    simp only [scheduleCount] at h0
    rw [h0]
    rfl
  · intro s0 tn noisePsd fx0 hset
    obtain ⟨sc, hcc, hs⟩ := SetNoisePowerSpectralDensity_ok tn noisePsd s0 s fx0 hset
    have hB : s.m_lastSignalIdBeforeReset = s.m_lastSignalId := by rw [hs]
    have hR : s.m_receiving = false := by rw [hs]
    have hne : ¬ ((s.m_lastSignalId + 1) % UINT32_MOD = s.m_lastSignalIdBeforeReset) := by
      rw [hB]; simp only [UINT32_MOD]; omega
    rw [if_neg hne] at b2
    refine ⟨by rw [hB], ?_⟩
    intro adds s3 tr hadds hlen hrun
    have hlt2 : s2.m_lastSignalId < UINT32_MOD := by
      rw [l2]; exact Nat.mod_lt _ (by simp [UINT32_MOD])
    obtain ⟨r3, _⟩ := run_adds_lastSignalId adds s2 s3 tr hadds hrun hlt2
    have b3 := run_adds_boundary adds s2 s3 tr 1 hadds hrun
      (by rw [l2, b2, hB]; simp only [UINT32_MOD]; omega)
      (by simp only [UINT32_MOD]; omega)
    have hdelta : deltaSignalId ((s.m_lastSignalId + 1) % UINT32_MOD) s3 = 1 := by
      simp only [deltaSignalId, toInt32, b3, b2, hB, UINT32_MOD]
      split <;> omega
    refine ⟨hdelta, ?_⟩
    intro tf all3 hall3 hl3
    have hidle : s3.m_receiving = false := by rw [r3, r2, hR]
    simp only [DoSubtractSignal, ConditionallyEvaluateChunk_idle tf s3 hidle, bind_ok, hdelta,
      hall3, deref, sub, combine_eq_ok _ _ _ hl3]
    simp

/-- C14 witness: `AddSignal ([1,1], 5)` at t=3 on the tracker whose noise floor was just
set with the counter at 2: the removal is scheduled with id 3. -/
theorem AddSignal_spec_witness :
    ∃ s2, AddSignal 3 [1, 1] 5 resetExample3 = .ok (s2, [.Schedule 5 [1, 1] 3]) ∧
      s2.m_allSignals = some [1, 1] ∧ s2.m_lastSignalId = 3 := by
  obtain ⟨s2, h1, h2, _, h4, _, _⟩ := AddSignal_spec 3 [1, 1] [0, 0] 5 resetExample3
    resetExample3 [] (by simp [ConditionallyEvaluateChunk, resetExample3, idleTracker]) rfl rfl
  refine ⟨s2, ?_, ?_, ?_⟩
  · simpa [resetExample3, idleTracker, UINT32_MOD] using h1
  · simpa using h2
  · simpa [resetExample3, idleTracker, UINT32_MOD] using h4

/-! ## C15: registration and notification order -/

theorem run_registrations :
    ∀ (regs : List (Time × Nat)) (s : LteInterference),
      run (registrations regs) s
        = .ok ({ s with m_sinrChunkProcessorList :=
                   s.m_sinrChunkProcessorList ++ regs.map Prod.snd }, [])
  | [], s => by simp [registrations, run]
  | r :: regs, s => by
    have ih := run_registrations regs
      { s with m_sinrChunkProcessorList := s.m_sinrChunkProcessorList ++ [r.2] }
    simp only [registrations] at ih
    simp only [registrations, List.map_cons, run, step, AddSinrChunkProcessor, ih]
    simp

/-- C15: registering a consumer appends it at the end of the processor list, changes no
other field and emits nothing, so consumers registered in the order c1..cn make the list
end with c1..cn; and every notifying call maps one notification with the same arguments
over the processor list, in list order: `Start` from `StartRx`, `EvaluateSinrChunk` from a
window close, and the chunks followed by `End` from `EndRx`. -/
theorem AddSinrChunkProcessor_spec (now : Time) (p : Nat) (rxPsd : SpectrumValue)
    (s : LteInterference) :
    AddSinrChunkProcessor p s
      = .ok ({ s with m_sinrChunkProcessorList := s.m_sinrChunkProcessorList ++ [p] }, []) ∧
    (∀ regs : List (Time × Nat),
      run (registrations regs) s
        = .ok ({ s with m_sinrChunkProcessorList :=
                   s.m_sinrChunkProcessorList ++ regs.map Prod.snd }, [])) ∧
    (s.m_receiving = false →
      ∃ s2, StartRx now rxPsd s = .ok (s2, s.m_sinrChunkProcessorList.map Effect.Start)) ∧
    (∀ s1 fx, ConditionallyEvaluateChunk now s = .ok (s1, fx) →
      fx = [] ∨ ∃ sinr d, fx = s.m_sinrChunkProcessorList.map
        (fun q => Effect.EvaluateSinrChunk q sinr d)) ∧
    (∀ s2 fx, s.m_receiving = true → EndRx now s = .ok (s2, fx) →
      ∃ fx1, (fx1 = [] ∨ ∃ sinr d, fx1 = s.m_sinrChunkProcessorList.map
          (fun q => Effect.EvaluateSinrChunk q sinr d)) ∧
        fx = fx1 ++ s.m_sinrChunkProcessorList.map Effect.End) := by
  have hcec : ∀ s1 fx, ConditionallyEvaluateChunk now s = .ok (s1, fx) →
      fx = [] ∨ ∃ sinr d, fx = s.m_sinrChunkProcessorList.map
        (fun q => Effect.EvaluateSinrChunk q sinr d) := by
    intro s1 fx h
    rcases ConditionallyEvaluateChunk_cases now s s1 fx h with ⟨_, _, _, sinr, hfx⟩ | ⟨_, _, hfx⟩
    · exact Or.inr ⟨sinr, _, hfx⟩
    · exact Or.inl hfx
  refine ⟨rfl, fun regs => run_registrations regs s, ?_, hcec, ?_⟩
  · intro hr
    refine ⟨{ s with m_rxSignal := some (Copy rxPsd), m_lastChangeTime := now,
                     m_receiving := true }, ?_⟩
    simp [StartRx, hr]
  · intro s2 fx hr h
    obtain ⟨s1, fx1, hc, _, hfx⟩ := EndRx_ok now s s2 fx hr h
    obtain ⟨_, _, _, _, _, _, f7⟩ := ConditionallyEvaluateChunk_frame now s s1 fx1 hc
    exact ⟨fx1, hcec s1 fx1 hc, by rw [hfx, f7]⟩

/-- C15 witness: consumers 3, 1, 2 registered in that order on a fresh tracker are
notified `Start` in that order. -/
theorem AddSinrChunkProcessor_spec_witness :
    run (registrations [(0, 3), (0, 1), (1, 2)]) construct
      = .ok ({ construct with m_sinrChunkProcessorList := [3, 1, 2] }, []) ∧
    ∃ s2, StartRx 2 [4, 0] { construct with m_sinrChunkProcessorList := [3, 1, 2] }
      = .ok (s2, [.Start 3, .Start 1, .Start 2]) :=
  ⟨(AddSinrChunkProcessor_spec 0 0 [] construct).2.1 [(0, 3), (0, 1), (1, 2)],
   (AddSinrChunkProcessor_spec 2 0 [4, 0]
      { construct with m_sinrChunkProcessorList := [3, 1, 2] }).2.2.1 rfl⟩

/-! ## C16: the vectors exist when they are dereferenced -/

theorem combine_error (f : ℚ → ℚ → ℚ) (a b : SpectrumValue) (e : Fault)
    (h : combine f a b = .error e) : e = Fault.modelMismatch := by
  unfold combine at h
  split at h
  · simp at h
  · injection h with h
    exact h.symm

/-- With the receive signal present while receiving, and the aggregate and the noise floor
present, the window close can only fail on vectors of different axis layouts. -/
theorem ConditionallyEvaluateChunk_error (now : Time) (s : LteInterference) (e : Fault)
    (hrx : s.m_receiving = true → s.m_rxSignal ≠ none)
    (hall : s.m_allSignals ≠ none) (hnoise : s.m_noise ≠ none)
    (h : ConditionallyEvaluateChunk now s = .error e) : e = Fault.modelMismatch := by
  unfold ConditionallyEvaluateChunk at h
  split at h
  · rename_i hc
    obtain ⟨rx, hrx2⟩ := Option.ne_none_iff_exists'.mp (hrx hc.1)
    obtain ⟨all, hall2⟩ := Option.ne_none_iff_exists'.mp hall
    obtain ⟨noise, hnoise2⟩ := Option.ne_none_iff_exists'.mp hnoise
    simp only [hrx2, hall2, hnoise2, deref, bind_ok] at h
    cases h1 : sub all rx with
    | error e1 =>
      simp only [h1, bind_error] at h
      injection h with h
      rw [← h]
      exact combine_error _ _ _ _ h1
    | ok v1 =>
      cases h2 : add v1 noise with
      | error e2 =>
        simp only [h1, h2, bind_ok, bind_error] at h
        injection h with h
        rw [← h]
        exact combine_error _ _ _ _ h2
      | ok v2 =>
        cases h3 : div rx v2 with
        | error e3 =>
          simp only [h1, h2, h3, bind_ok, bind_error] at h
          injection h with h
          rw [← h]
          exact combine_error _ _ _ _ h3
        | ok v3 => simp [h1, h2, h3] at h
  · simp at h

/-- One call keeps the receive signal present while receiving. -/
theorem step_rxSignal_present (t : Time) (op : Op) (s s2 : LteInterference) (fx : List Effect)
    (hrx : s.m_receiving = true → s.m_rxSignal ≠ none) (h : step t op s = .ok (s2, fx)) :
    s2.m_receiving = true → s2.m_rxSignal ≠ none := by
  cases op with
  | StartRx rxPsd =>
    by_cases hr : s.m_receiving = true
    · simp only [step, StartRx, hr] at h
      by_cases hl : s.m_lastChangeTime = t
      · simp only [hl, if_true] at h
        cases hrx2 : s.m_rxSignal with
        | none => simp [hrx2, deref] at h
        | some rx =>
          cases hm : mul rxPsd rx with
          | error e => simp [hrx2, deref, hm] at h
          | ok product =>
            by_cases hs : Sum product = 0
            · cases ha : add rx rxPsd with
              | error e => simp [hrx2, deref, hm, hs, ha] at h
              | ok rx2 =>
                simp [hrx2, deref, hm, hs, ha] at h
                obtain ⟨h1, _⟩ := h
                rw [← h1]
                intro _
                simp
            · simp [hrx2, deref, hm, hs] at h
      · simp [hl] at h
    · simp only [step, StartRx, Bool.not_eq_true] at h hr
      simp only [hr, if_true] at h
      injection h with h
      injection h with hs _
      rw [← hs]
      intro _
      simp
  | EndRx =>
    by_cases hr : s.m_receiving = true
    · obtain ⟨s1, fx1, _, hs2, _⟩ := EndRx_ok t s s2 fx hr h
      rw [hs2]
      intro hf
      simp at hf
    · simp only [step, EndRx, ne_eq, hr, not_false_eq_true, if_true] at h
      injection h with h
      injection h with hs _
      rw [← hs]
      exact hrx
  | AddSignal spd duration =>
    obtain ⟨s1, fx1, all, all2, hc, _, _, hs3, _⟩ := AddSignal_ok t spd duration s s2 fx h
    obtain ⟨f1, f2, _⟩ := ConditionallyEvaluateChunk_frame t s s1 fx1 hc
    have hframe : s2.m_receiving = s.m_receiving ∧ s2.m_rxSignal = s.m_rxSignal := by
      rw [hs3, ← f1, ← f2]; split <;> exact ⟨rfl, rfl⟩
    rw [hframe.1, hframe.2]
    exact hrx
  | DoSubtractSignal spd signalId =>
    obtain ⟨s1, hc, hcase⟩ := DoSubtractSignal_ok t spd signalId s s2 fx h
    obtain ⟨f1, f2, _⟩ := ConditionallyEvaluateChunk_frame t s s1 fx hc
    have hframe : s2.m_receiving = s.m_receiving ∧ s2.m_rxSignal = s.m_rxSignal := by
      rw [← f1, ← f2]
      rcases hcase with ⟨_, all, all2, _, _, hs⟩ | ⟨_, hs⟩ <;> rw [hs] <;> exact ⟨rfl, rfl⟩
    rw [hframe.1, hframe.2]
    exact hrx
  | SetNoisePowerSpectralDensity noisePsd =>
    obtain ⟨s1, _, hs⟩ := SetNoisePowerSpectralDensity_ok t noisePsd s s2 fx h
    rw [hs]
    intro hf
    simp at hf
  | AddSinrChunkProcessor p =>
    simp only [step, AddSinrChunkProcessor] at h
    injection h with h
    injection h with hs _
    rw [← hs]
    exact hrx

/-- `StartRx` changes neither the aggregate nor the noise floor nor the ids nor the
processor list. -/
theorem StartRx_frame (now : Time) (rxPsd : SpectrumValue) (s s2 : LteInterference)
    (fx : List Effect) (h : StartRx now rxPsd s = .ok (s2, fx)) :
    s2.m_allSignals = s.m_allSignals ∧ s2.m_noise = s.m_noise ∧
    s2.m_lastSignalId = s.m_lastSignalId ∧
    s2.m_lastSignalIdBeforeReset = s.m_lastSignalIdBeforeReset ∧
    s2.m_sinrChunkProcessorList = s.m_sinrChunkProcessorList ∧ s2.m_receiving = true ∧
    (∀ e ∈ fx, ∃ p, e = Effect.Start p) := by
  by_cases hr : s.m_receiving = true
  · simp only [StartRx, hr] at h
    by_cases hl : s.m_lastChangeTime = now
    · simp only [hl, if_true] at h
      cases hrx2 : s.m_rxSignal with
      | none => simp [hrx2, deref] at h
      | some rx =>
        cases hm : mul rxPsd rx with
        | error e => simp [hrx2, deref, hm] at h
        | ok product =>
          by_cases hs : Sum product = 0
          · cases ha : add rx rxPsd with
            | error e => simp [hrx2, deref, hm, hs, ha] at h
            | ok rx2 =>
              simp [hrx2, deref, hm, hs, ha] at h
              obtain ⟨h1, h2⟩ := h
              rw [← h1, h2]
              simp
          · simp [hrx2, deref, hm, hs] at h
    · simp [hl] at h
  · simp only [StartRx, Bool.not_eq_true] at h hr
    simp only [hr, if_true] at h
    injection h with h
    injection h with hs hfx
    rw [← hs, ← hfx]
    simp

/-- `EndRx` changes neither the aggregate nor the noise floor nor the ids nor the processor
list, and leaves the tracker not receiving. -/
theorem EndRx_frame (now : Time) (s s2 : LteInterference) (fx : List Effect)
    (h : EndRx now s = .ok (s2, fx)) :
    s2.m_allSignals = s.m_allSignals ∧ s2.m_noise = s.m_noise ∧
    s2.m_lastSignalId = s.m_lastSignalId ∧
    s2.m_lastSignalIdBeforeReset = s.m_lastSignalIdBeforeReset ∧
    s2.m_sinrChunkProcessorList = s.m_sinrChunkProcessorList ∧ s2.m_receiving = false := by
  by_cases hr : s.m_receiving = true
  · obtain ⟨s1, fx1, hc, hs2, _⟩ := EndRx_ok now s s2 fx hr h
    obtain ⟨_, _, f3, f4, f5, f6, f7⟩ := ConditionallyEvaluateChunk_frame now s s1 fx1 hc
    rw [hs2]
    exact ⟨f3, f4, f5, f6, f7, rfl⟩
  · simp only [EndRx, ne_eq, hr, not_false_eq_true, if_true] at h
    injection h with h
    injection h with hs _
    rw [← hs]
    exact ⟨rfl, rfl, rfl, rfl, rfl, by simpa using hr⟩

/-- One call keeps the aggregate and the noise floor present. -/
theorem step_vectors_present (t : Time) (op : Op) (s s2 : LteInterference) (fx : List Effect)
    (hall : s.m_allSignals ≠ none) (hnoise : s.m_noise ≠ none)
    (h : step t op s = .ok (s2, fx)) :
    s2.m_allSignals ≠ none ∧ s2.m_noise ≠ none := by
  cases op with
  | StartRx rxPsd =>
    obtain ⟨f1, f2, _⟩ := StartRx_frame t rxPsd s s2 fx h
    rw [f1, f2]
    exact ⟨hall, hnoise⟩
  | EndRx =>
    obtain ⟨f1, f2, _⟩ := EndRx_frame t s s2 fx h
    rw [f1, f2]
    exact ⟨hall, hnoise⟩
  | AddSignal spd duration =>
    obtain ⟨s1, fx1, all, all2, hc, _, _, hs3, _⟩ := AddSignal_ok t spd duration s s2 fx h
    obtain ⟨_, _, _, f4, _⟩ := ConditionallyEvaluateChunk_frame t s s1 fx1 hc
    have hframe : s2.m_allSignals = some all2 ∧ s2.m_noise = s.m_noise := by
      rw [hs3, ← f4]; split <;> exact ⟨rfl, rfl⟩
    rw [hframe.1, hframe.2]
    exact ⟨by simp, hnoise⟩
  | DoSubtractSignal spd signalId =>
    obtain ⟨s1, hc, hcase⟩ := DoSubtractSignal_ok t spd signalId s s2 fx h
    obtain ⟨_, _, f3, f4, _⟩ := ConditionallyEvaluateChunk_frame t s s1 fx hc
    rcases hcase with ⟨_, all, all2, _, _, hs⟩ | ⟨_, hs⟩
    · rw [hs]
      exact ⟨by simp, by show s1.m_noise ≠ none; rw [f4]; exact hnoise⟩
    · rw [hs, f3, f4]
      exact ⟨hall, hnoise⟩
  | SetNoisePowerSpectralDensity noisePsd =>
    obtain ⟨s1, _, hs⟩ := SetNoisePowerSpectralDensity_ok t noisePsd s s2 fx h
    rw [hs]
    exact ⟨by simp, by simp⟩
  | AddSinrChunkProcessor p =>
    simp only [step, AddSinrChunkProcessor] at h
    injection h with h
    injection h with hs _
    rw [← hs]
    exact ⟨hall, hnoise⟩

/-- With the vectors present, no call fails on a null pointer. -/
theorem step_error_not_null (t : Time) (op : Op) (s : LteInterference) (e : Fault)
    (hrx : s.m_receiving = true → s.m_rxSignal ≠ none)
    (hall : s.m_allSignals ≠ none) (hnoise : s.m_noise ≠ none)
    (h : step t op s = .error e) : e ≠ Fault.nullPointer := by
  have hcec : ∀ e1, ConditionallyEvaluateChunk t s = .error e1 → e1 ≠ Fault.nullPointer := by
    intro e1 h1
    rw [ConditionallyEvaluateChunk_error t s e1 hrx hall hnoise h1]
    simp
  obtain ⟨all, hall2⟩ := Option.ne_none_iff_exists'.mp hall
  cases op with
  | StartRx rxPsd =>
    by_cases hr : s.m_receiving = true
    · obtain ⟨rx, hrx2⟩ := Option.ne_none_iff_exists'.mp (hrx hr)
      simp only [step, StartRx, hr] at h
      by_cases hl : s.m_lastChangeTime = t
      · simp only [hl, if_true, hrx2, deref, bind_ok] at h
        cases hm : mul rxPsd rx with
        | error e1 =>
          simp only [hm, bind_error] at h
          injection h with h
          rw [← h, combine_error _ _ _ _ hm]
          simp
        | ok product =>
          by_cases hs : Sum product = 0
          · cases ha : add rx rxPsd with
            | error e1 =>
              simp only [hm, bind_ok, hs, if_true, ha, bind_error] at h
              injection h with h
              rw [← h, combine_error _ _ _ _ ha]
              simp
            | ok rx2 => simp [hm, hs, ha] at h
          · simp only [hm, bind_ok, hs, if_false] at h
            injection h with h
            rw [← h]
            simp
      · simp only [hl, if_false] at h
        simp at h
        rw [← h]
        simp
    · simp only [step, StartRx, Bool.not_eq_true] at h hr
      simp [hr] at h
  | EndRx =>
    by_cases hr : s.m_receiving = true
    · simp only [step, EndRx, hr, ne_eq, not_true_eq_false, if_false] at h
      cases hc : ConditionallyEvaluateChunk t s with
      | error e1 =>
        simp only [hc, bind_error] at h
        injection h with h
        rw [← h]
        exact hcec e1 hc
      | ok r => simp [hc] at h
    · simp [step, EndRx, hr] at h
  | AddSignal spd duration =>
    simp only [step, AddSignal, DoAddSignal] at h
    cases hc : ConditionallyEvaluateChunk t s with
    | error e1 =>
      simp only [hc, bind_error] at h
      injection h with h
      rw [← h]
      exact hcec e1 hc
    | ok r =>
      obtain ⟨s1, fx1⟩ := r
      obtain ⟨_, _, f3, _⟩ := ConditionallyEvaluateChunk_frame t s s1 fx1 hc
      simp only [hc, bind_ok, f3, hall2, deref] at h
      cases ha : add all spd with
      | error e1 =>
        simp only [ha, bind_error] at h
        injection h with h
        rw [← h, combine_error _ _ _ _ ha]
        simp
      | ok all2 => simp [ha] at h
  | DoSubtractSignal spd signalId =>
    simp only [step, DoSubtractSignal] at h
    cases hc : ConditionallyEvaluateChunk t s with
    | error e1 =>
      simp only [hc, bind_error] at h
      injection h with h
      rw [← h]
      exact hcec e1 hc
    | ok r =>
      obtain ⟨s1, fx1⟩ := r
      obtain ⟨_, _, f3, _⟩ := ConditionallyEvaluateChunk_frame t s s1 fx1 hc
      simp only [hc, bind_ok, f3, hall2, deref] at h
      by_cases hd : deltaSignalId signalId s1 > 0
      · simp only [hd, if_true] at h
        cases ha : sub all spd with
        | error e1 =>
          simp only [ha, bind_error] at h
          injection h with h
          rw [← h, combine_error _ _ _ _ ha]
          simp
        | ok all2 => simp [ha] at h
      · simp [hd] at h
  | SetNoisePowerSpectralDensity noisePsd =>
    simp only [step, SetNoisePowerSpectralDensity] at h
    cases hc : ConditionallyEvaluateChunk t s with
    | error e1 =>
      simp only [hc, bind_error] at h
      injection h with h
      rw [← h]
      exact hcec e1 hc
    | ok r => simp [hc] at h
  | AddSinrChunkProcessor p => simp [step, AddSinrChunkProcessor] at h

theorem run_rxSignal_present :
    ∀ (ops : List (Time × Op)) (s s2 : LteInterference) (tr : List (Time × Effect)),
      (s.m_receiving = true → s.m_rxSignal ≠ none) → run ops s = .ok (s2, tr) →
      (s2.m_receiving = true → s2.m_rxSignal ≠ none)
  | [], s, s2, tr, hrx, h => by
    simp only [run] at h
    injection h with h
    injection h with hs _
    rw [← hs]
    exact hrx
  | (t, op) :: ops, s, s2, tr, hrx, h => by
    obtain ⟨s1, fx, tr2, hstep, hrest, _⟩ := run_cons_ok t op ops s s2 tr h
    exact run_rxSignal_present ops s1 s2 tr2 (step_rxSignal_present t op s s1 fx hrx hstep) hrest

theorem run_vectors_present :
    ∀ (ops : List (Time × Op)) (s s2 : LteInterference) (tr : List (Time × Effect)),
      s.m_allSignals ≠ none → s.m_noise ≠ none → run ops s = .ok (s2, tr) →
      s2.m_allSignals ≠ none ∧ s2.m_noise ≠ none
  | [], s, s2, tr, hall, hnoise, h => by
    simp only [run] at h
    injection h with h
    injection h with hs _
    rw [← hs]
    exact ⟨hall, hnoise⟩
  | (t, op) :: ops, s, s2, tr, hall, hnoise, h => by
    obtain ⟨s1, fx, tr2, hstep, hrest, _⟩ := run_cons_ok t op ops s s2 tr h
    obtain ⟨h1, h2⟩ := step_vectors_present t op s s1 fx hall hnoise hstep
    exact run_vectors_present ops s1 s2 tr2 h1 h2 hrest

theorem run_error_not_null :
    ∀ (ops : List (Time × Op)) (s : LteInterference) (e : Fault),
      (s.m_receiving = true → s.m_rxSignal ≠ none) →
      s.m_allSignals ≠ none → s.m_noise ≠ none → run ops s = .error e →
      e ≠ Fault.nullPointer
  | [], s, e, _, _, _, h => by simp [run] at h
  | (t, op) :: ops, s, e, hrx, hall, hnoise, h => by
    cases hstep : step t op s with
    | error e1 =>
      simp only [run, hstep] at h
      injection h with h
      rw [← h]
      exact step_error_not_null t op s e1 hrx hall hnoise hstep
    | ok r =>
      obtain ⟨s1, fx⟩ := r
      have hrx1 := step_rxSignal_present t op s s1 fx hrx hstep
      obtain ⟨h1, h2⟩ := step_vectors_present t op s s1 fx hall hnoise hstep
      cases hrest : run ops s1 with
      | error e2 =>
        simp only [run, hstep, hrest] at h
        injection h with h
        rw [← h]
        exact run_error_not_null ops s1 e2 hrx1 h1 h2 hrest
      | ok r2 => simp [run, hstep, hrest] at h

/-- C16: in every state reached from construction by any sequence of calls, the receive
signal is present whenever `receiving` is true; and when the first call is
`SetNoisePowerSpectralDensity`, the aggregate and the noise floor are present in every
later state and no call of the sequence fails on a null pointer. -/
theorem vectors_present :
    (∀ ops s tr, run ops construct = .ok (s, tr) →
      (s.m_receiving = true → s.m_rxSignal ≠ none)) ∧
    (∀ t noisePsd ops s tr,
      run ((t, .SetNoisePowerSpectralDensity noisePsd) :: ops) construct = .ok (s, tr) →
      s.m_allSignals ≠ none ∧ s.m_noise ≠ none) ∧
    (∀ t noisePsd ops e,
      run ((t, .SetNoisePowerSpectralDensity noisePsd) :: ops) construct = .error e →
      e ≠ Fault.nullPointer) := by
  have hfirst : ∀ t noisePsd, step t (.SetNoisePowerSpectralDensity noisePsd) construct
      = .ok (afterFirstNoise noisePsd, []) := by
    intro t noisePsd
    simp [step, SetNoisePowerSpectralDensity, ConditionallyEvaluateChunk, construct,
      afterFirstNoise]
  refine ⟨?_, ?_, ?_⟩
  · intro ops s tr h
    exact run_rxSignal_present ops construct s tr (by simp [construct]) h
  · intro t noisePsd ops s tr h
    obtain ⟨s1, fx, tr2, hstep, hrest, _⟩ := run_cons_ok _ _ ops construct s tr h
    rw [hfirst] at hstep
    injection hstep with hstep
    injection hstep with hs _
    exact run_vectors_present ops s1 s tr2 (by rw [← hs]; simp [afterFirstNoise])
      (by rw [← hs]; simp [afterFirstNoise]) hrest
  · intro t noisePsd ops e h
    rw [run_cons_eq _ _ _ _ _ _ (hfirst t noisePsd)] at h
    cases hrest : run ops (afterFirstNoise noisePsd) with
    | error e2 =>
      simp only [hrest] at h
      injection h with h
      rw [← h]
      exact run_error_not_null ops _ e2 (by simp [afterFirstNoise, construct])
        (by simp [afterFirstNoise]) (by simp [afterFirstNoise]) hrest
    | ok r => simp [hrest] at h

/-- C16 witness: after the scenario, which starts with the noise floor, the three vectors
are present; and the scenario continued by a `StartRx` that is not synchronised fails, but
not on a null pointer. -/
theorem vectors_present_witness :
    (scenarioAfterSetup.m_receiving = true → scenarioAfterSetup.m_rxSignal ≠ none) ∧
    (scenarioAfterSetup.m_allSignals ≠ none ∧ scenarioAfterSetup.m_noise ≠ none) ∧
    Fault.assertSynchronized ≠ Fault.nullPointer :=
  ⟨vectors_present.1 scenarioSetup scenarioAfterSetup _ run_scenarioSetup,
   vectors_present.2.1 0 [1, 1]
     [(0, .AddSinrChunkProcessor 0), (0, .StartRx [4, 0]), (0, .AddSignal [0, 2] 10)]
     scenarioAfterSetup [(0, .Start 0), (0, .Schedule 10 [0, 2] 1)]
     (by
       simp [run, step, scenarioAfterSetup, construct, AddSinrChunkProcessor,
         SetNoisePowerSpectralDensity, ConditionallyEvaluateChunk, StartRx, AddSignal,
         DoAddSignal, deref, add, combine, GetSpectrumModel, Create, Copy, UINT32_MOD,
         List.replicate]),
   vectors_present.2.2 0 [1, 1] [(0, .StartRx [4, 0]), (5, .StartRx [0, 3])]
     Fault.assertSynchronized
     (by
       simp [run, step, construct, SetNoisePowerSpectralDensity, ConditionallyEvaluateChunk,
         StartRx, Create, GetSpectrumModel, Copy])⟩

/-! ## C17: staleness without wraparound -/

theorem addCount_append (a b : List (Time × Op)) :
    addCount (a ++ b) = addCount a + addCount b := by
  induction a with
  | nil => simp [addCount]
  | cons x a ih =>
    obtain ⟨t, op⟩ := x
    rw [List.cons_append]
    cases op <;> simp only [addCount, ih]
    omega

/-- The ids after one call, while the counter is below 2^31 and not below the boundary:
`AddSignal` increments the counter and leaves the boundary, the reset moves the boundary
to the counter, every other call leaves both. -/
theorem step_ids (t : Time) (op : Op) (s s2 : LteInterference) (fx : List Effect)
    (h : step t op s = .ok (s2, fx))
    (hb : s.m_lastSignalIdBeforeReset ≤ s.m_lastSignalId)
    (hlt : s.m_lastSignalId + addCount [(t, op)] < 2147483648) :
    s2.m_lastSignalId = s.m_lastSignalId + addCount [(t, op)] ∧
    (isReset op → s2.m_lastSignalIdBeforeReset = s.m_lastSignalId) ∧
    (¬ isReset op → s2.m_lastSignalIdBeforeReset = s.m_lastSignalIdBeforeReset) := by
  cases op with
  | StartRx rxPsd =>
    obtain ⟨_, _, f3, f4, _⟩ := StartRx_frame t rxPsd s s2 fx h
    exact ⟨by simp [addCount, f3], by simp [isReset], fun _ => f4⟩
  | EndRx =>
    obtain ⟨_, _, f3, f4, _⟩ := EndRx_frame t s s2 fx h
    exact ⟨by simp [addCount, f3], by simp [isReset], fun _ => f4⟩
  | AddSignal spd duration =>
    obtain ⟨_, l2, b2, _⟩ := AddSignal_ids t spd duration s s2 fx h
    simp only [addCount, UINT32_MOD] at hlt l2 b2 ⊢
    have hmod : (s.m_lastSignalId + 1) % 4294967296 = s.m_lastSignalId + 1 := by omega
    rw [hmod] at l2 b2
    rw [if_neg (by omega)] at b2
    exact ⟨by omega, by simp [isReset], fun _ => b2⟩
  | DoSubtractSignal spd signalId =>
    obtain ⟨s1, hc, hcase⟩ := DoSubtractSignal_ok t spd signalId s s2 fx h
    obtain ⟨_, _, _, _, f5, f6, _⟩ := ConditionallyEvaluateChunk_frame t s s1 fx hc
    have hframe : s2.m_lastSignalId = s.m_lastSignalId ∧
        s2.m_lastSignalIdBeforeReset = s.m_lastSignalIdBeforeReset := by
      rw [← f5, ← f6]
      rcases hcase with ⟨_, all, all2, _, _, hs⟩ | ⟨_, hs⟩ <;> rw [hs] <;> exact ⟨rfl, rfl⟩
    exact ⟨by simp [addCount, hframe.1], by simp [isReset], fun _ => hframe.2⟩
  | SetNoisePowerSpectralDensity noisePsd =>
    obtain ⟨s1, hc, hs⟩ := SetNoisePowerSpectralDensity_ok t noisePsd s s2 fx h
    obtain ⟨_, _, _, _, f5, _, _⟩ := ConditionallyEvaluateChunk_frame t s s1 fx hc
    refine ⟨by rw [hs]; simp [addCount, f5], fun _ => by rw [hs]; exact f5, ?_⟩
    intro hn
    exact absurd trivial hn
  | AddSinrChunkProcessor p =>
    simp only [step, AddSinrChunkProcessor] at h
    injection h with h
    injection h with hs _
    rw [← hs]
    exact ⟨by simp [addCount], by simp [isReset], fun _ => rfl⟩

/-- The ids after a run with fewer than 2^31 `AddSignal` calls in all: the counter counts
the `AddSignal` calls, the boundary never passes the counter, it stays where it was when
no reset occurred and is at least the initial counter when one did. -/
theorem run_ids :
    ∀ (ops : List (Time × Op)) (s s2 : LteInterference) (tr : List (Time × Effect)),
      run ops s = .ok (s2, tr) → s.m_lastSignalIdBeforeReset ≤ s.m_lastSignalId →
      s.m_lastSignalId + addCount ops < 2147483648 →
      s2.m_lastSignalId = s.m_lastSignalId + addCount ops ∧
      s2.m_lastSignalIdBeforeReset ≤ s2.m_lastSignalId ∧
      (¬ hasReset ops → s2.m_lastSignalIdBeforeReset = s.m_lastSignalIdBeforeReset) ∧
      (hasReset ops → s.m_lastSignalId ≤ s2.m_lastSignalIdBeforeReset)
  | [], s, s2, tr, h, hb, _ => by
    simp only [run] at h
    injection h with h
    injection h with hs _
    rw [← hs]
    refine ⟨by simp [addCount], hb, fun _ => rfl, ?_⟩
    rintro ⟨x, hx, _⟩
    simp at hx
  | (t, op) :: ops, s, s2, tr, h, hb, hlt => by
    obtain ⟨s1, fx, tr2, hstep, hrest, _⟩ := run_cons_ok t op ops s s2 tr h
    have hsplit : addCount ((t, op) :: ops) = addCount [(t, op)] + addCount ops :=
      addCount_append [(t, op)] ops
    rw [hsplit] at hlt ⊢
    obtain ⟨l1, b1r, b1n⟩ := step_ids t op s s1 fx hstep hb (by omega)
    have hb1 : s1.m_lastSignalIdBeforeReset ≤ s1.m_lastSignalId := by
      by_cases hr : isReset op
      · rw [b1r hr, l1]; omega
      · rw [b1n hr, l1]; omega
    obtain ⟨l2, b2, n2, r2⟩ := run_ids ops s1 s2 tr2 hrest hb1 (by rw [l1]; omega)
    refine ⟨by rw [l2, l1]; omega, b2, ?_, ?_⟩
    · intro hn
      have hn1 : ¬ isReset op := fun hr => hn ⟨(t, op), List.mem_cons_self _ _, hr⟩
      have hn2 : ¬ hasReset ops := fun ⟨x, hx, hr⟩ => hn ⟨x, List.mem_cons_of_mem _ hx, hr⟩
      rw [n2 hn2, b1n hn1]
    · intro _
      by_cases hr2 : hasReset ops
      · have := r2 hr2
        rw [l1] at this
        omega
      · rw [n2 hr2]
        by_cases hr : isReset op
        · rw [b1r hr]
        · exfalso
          rename_i hh
          obtain ⟨x, hx, hxr⟩ := hh
          rcases List.mem_cons.mp hx with hx1 | hx1
          · rw [hx1] at hxr
            exact hr hxr
          · exact hr2 ⟨x, hx1, hxr⟩

theorem combine_ok_eq (f : ℚ → ℚ → ℚ) (a b v : SpectrumValue)
    (h : combine f a b = .ok v) : v = List.zipWith f a b := by
  unfold combine at h
  split at h
  · injection h with h
    exact h.symm
  · simp at h

/-- C17: in a run from construction with fewer than 2^31 `AddSignal` calls in all, an
`AddSignal` never meets the reset boundary (the wraparound branch is not taken), it
schedules the removal with the counter value it produces, and when that removal fires
after further calls `mid`, its signed id difference is positive, and the signal is
subtracted from the aggregate, if and only if `mid` contains no
`SetNoisePowerSpectralDensity`; otherwise the aggregate is left as it is. -/
theorem staleness_without_wraparound (pre mid : List (Time × Op)) (t : Time)
    (spd : SpectrumValue) (duration : Time) (s0 s1 s2 : LteInterference)
    (tr0 tr2 : List (Time × Effect)) (fx1 : List Effect)
    (h0 : run pre construct = .ok (s0, tr0))
    (h1 : AddSignal t spd duration s0 = .ok (s1, fx1))
    (h2 : run mid s1 = .ok (s2, tr2))
    (hcount : addCount (pre ++ (t, .AddSignal spd duration) :: mid) < 2147483648) :
    (s0.m_lastSignalId + 1) % UINT32_MOD ≠ s0.m_lastSignalIdBeforeReset ∧
    s1.m_lastSignalIdBeforeReset = s0.m_lastSignalIdBeforeReset ∧
    s1.m_lastSignalId = s0.m_lastSignalId + 1 ∧
    Effect.Schedule duration spd s1.m_lastSignalId ∈ fx1 ∧
    (deltaSignalId s1.m_lastSignalId s2 > 0 ↔ ¬ hasReset mid) ∧
    (∀ tf s3 fx, DoSubtractSignal tf spd s1.m_lastSignalId s2 = .ok (s3, fx) →
      (¬ hasReset mid → ∃ all, s2.m_allSignals = some all ∧
        s3.m_allSignals = some (List.zipWith (fun x y => x - y) all spd)) ∧
      (hasReset mid → s3.m_allSignals = s2.m_allSignals)) := by
  have hsplit : addCount (pre ++ (t, .AddSignal spd duration) :: mid)
      = addCount pre + (addCount mid + 1) := by
    rw [addCount_append]
    simp only [addCount]
  rw [hsplit] at hcount
  obtain ⟨l0, b0, _, _⟩ := run_ids pre construct s0 tr0 h0 (by simp [construct])
    (by simp only [construct]; omega)
  simp only [construct, Nat.zero_add] at l0
  obtain ⟨_, l1, b1, e1⟩ := AddSignal_ids t spd duration s0 s1 fx1 h1
  simp only [UINT32_MOD] at l1 b1 e1 ⊢
  have hmod : (s0.m_lastSignalId + 1) % 4294967296 = s0.m_lastSignalId + 1 := by omega
  rw [hmod] at l1 b1 e1 ⊢
  have hne : ¬ (s0.m_lastSignalId + 1 = s0.m_lastSignalIdBeforeReset) := by omega
  rw [if_neg hne] at b1
  obtain ⟨l2, b2, n2, r2⟩ := run_ids mid s1 s2 tr2 h2 (by omega) (by omega)
  have hdelta : deltaSignalId s1.m_lastSignalId s2 > 0 ↔ ¬ hasReset mid := by
    simp only [deltaSignalId, toInt32]
    constructor
    · intro hpos hr
      have := r2 hr
      split at hpos <;> omega
    · intro hn
      have := n2 hn
      split <;> omega
  refine ⟨hne, b1, l1, by rw [l1]; exact e1, hdelta, ?_⟩
  intro tf s3 fx h3
  obtain ⟨sc, hc, hcase⟩ := DoSubtractSignal_ok tf spd s1.m_lastSignalId s2 s3 fx h3
  obtain ⟨_, _, f3, _, _, f6, _⟩ := ConditionallyEvaluateChunk_frame tf s2 sc fx hc
  have hd : deltaSignalId s1.m_lastSignalId sc = deltaSignalId s1.m_lastSignalId s2 := by
    simp only [deltaSignalId, f6]
  rw [hd, hdelta] at hcase
  rcases hcase with ⟨hn, all, all2, hall, hsub, hs⟩ | ⟨hr, hs⟩
  · refine ⟨fun _ => ⟨all, by rw [← f3]; exact hall, ?_⟩, fun hr => absurd hr hn⟩
    rw [hs, combine_ok_eq _ _ _ _ hsub]
  · refine ⟨fun hn => absurd hn hr, fun _ => by rw [hs]; exact f3⟩

/-- C17 witness: from construction the noise floor is set, `[0,2]` is added (id 1) and
then `[4,0]`; with no reset in between, the removal of `[0,2]` has a positive difference. -/
theorem staleness_without_wraparound_witness :
    deltaSignalId 1 staleExample2 > 0 ↔ ¬ hasReset [(3, .AddSignal [4, 0] 10)] :=
  (staleness_without_wraparound [(0, .SetNoisePowerSpectralDensity [1, 1])]
    [(3, .AddSignal [4, 0] 10)] 0 [0, 2] 10 (afterFirstNoise [1, 1]) staleExample1 staleExample2
    [] [(3, .Schedule 10 [4, 0] 2)] [.Schedule 10 [0, 2] 1]
    (by
      simp [run, step, SetNoisePowerSpectralDensity, ConditionallyEvaluateChunk, construct,
        afterFirstNoise])
    (by
      simp [AddSignal, DoAddSignal, ConditionallyEvaluateChunk, construct, afterFirstNoise,
        staleExample1, deref, add, combine, GetSpectrumModel, Create, List.replicate,
        UINT32_MOD])
    (by
      simp [run, step, AddSignal, DoAddSignal, ConditionallyEvaluateChunk, construct,
        afterFirstNoise, staleExample1, staleExample2, deref, add, combine, GetSpectrumModel,
        UINT32_MOD])
    (by simp [addCount])).2.2.2.2.1

/-! ## C18: the aggregate invariant -/

theorem removeFirst_of_not_mem (x : Nat × SpectrumValue) :
    ∀ l : List (Nat × SpectrumValue), x ∉ l → removeFirst x l = l
  | [], _ => rfl
  | y :: l, h => by
    have hyx : ¬ y = x := fun e => h (by rw [e]; exact List.mem_cons_self _ _)
    have hl : x ∉ l := fun hm => h (List.mem_cons_of_mem _ hm)
    simp only [removeFirst, if_neg hyx, removeFirst_of_not_mem x l hl]

theorem mem_of_mem_removeFirst (x z : Nat × SpectrumValue) :
    ∀ l : List (Nat × SpectrumValue), z ∈ removeFirst x l → z ∈ l
  | [], h => by simp [removeFirst] at h
  | y :: l, h => by
    by_cases hyx : y = x
    · simp only [removeFirst, if_pos hyx] at h
      exact List.mem_cons_of_mem _ h
    · simp only [removeFirst, if_neg hyx] at h
      rcases List.mem_cons.mp h with h1 | h1
      · rw [h1]; exact List.mem_cons_self _ _
      · exact List.mem_cons_of_mem _ (mem_of_mem_removeFirst x z l h1)

theorem filter_removeFirst (p : Nat × SpectrumValue → Bool) (x : Nat × SpectrumValue) :
    ∀ l : List (Nat × SpectrumValue),
      (removeFirst x l).filter p = removeFirst x (l.filter p)
  | [] => by simp [removeFirst]
  | y :: l => by
    by_cases hyx : y = x
    · subst hyx
      by_cases hp : p y = true
      · simp [removeFirst, List.filter_cons, hp]
      · have hnot : y ∉ l.filter p := fun hm => hp (List.mem_filter.mp hm).2
        simp [removeFirst, List.filter_cons, hp, removeFirst_of_not_mem y _ hnot]
    · have ih := filter_removeFirst p x l
      by_cases hp : p y = true
      · simp [removeFirst, hyx, List.filter_cons, hp, ih]
      · simp [removeFirst, hyx, List.filter_cons, hp, ih]

theorem binSum_removeFirst (i : Nat) (x : Nat × SpectrumValue) :
    ∀ l : List (Nat × SpectrumValue), x ∈ l →
      binSum i (removeFirst x l) = binSum i l - x.2.getD i 0
  | [], h => by simp at h
  | y :: l, h => by
    by_cases hyx : y = x
    · subst hyx
      simp only [removeFirst, if_true, binSum, List.map_cons, List.sum_cons]
      ring
    · have hl : x ∈ l := by
        rcases List.mem_cons.mp h with h1 | h1
        · exact absurd h1.symm hyx
        · exact h1
      have ih := binSum_removeFirst i x l hl
      simp only [binSum] at ih
      simp only [removeFirst, if_neg hyx, binSum, List.map_cons, List.sum_cons, ih]
      ring

theorem AggregateInv_frame (n : Nat) (s s2 : LteInterference) (g : Tracked)
    (f1 : s2.m_allSignals = s.m_allSignals) (f2 : s2.m_lastSignalId = s.m_lastSignalId)
    (f3 : s2.m_lastSignalIdBeforeReset = s.m_lastSignalIdBeforeReset)
    (h : AggregateInv n s g) : AggregateInv n s2 g := by
  unfold AggregateInv at h ⊢
  rw [f1, f2, f3]
  exact h

theorem AddSignal_AggregateInv (n : Nat) (t : Time) (spd : SpectrumValue) (duration : Time)
    (s s2 : LteInterference) (fx : List Effect) (g : Tracked)
    (hinv : AggregateInv n s g) (hax : spd.length = n) (hlt : s.m_lastSignalId + 1 < 2147483648)
    (h : AddSignal t spd duration s = .ok (s2, fx)) :
    AggregateInv n s2
      { pending := ((s.m_lastSignalId + 1) % UINT32_MOD, spd) :: g.pending
        present := ((s.m_lastSignalId + 1) % UINT32_MOD, spd) :: g.present } := by
  obtain ⟨i1, ⟨a, ha, hlen, hsum⟩, i3, i4⟩ := hinv
  obtain ⟨s1, fx1, all, all2, hc, hall, hadd, hs3, _⟩ := AddSignal_ok t spd duration s s2 fx h
  obtain ⟨_, _, f3, _⟩ := ConditionallyEvaluateChunk_frame t s s1 fx1 hc
  obtain ⟨_, l2, b2, _⟩ := AddSignal_ids t spd duration s s2 fx h
  simp only [UINT32_MOD] at l2 b2 ⊢
  have hmod : (s.m_lastSignalId + 1) % 4294967296 = s.m_lastSignalId + 1 := by omega
  rw [hmod] at l2 b2 ⊢
  rw [if_neg (by omega)] at b2
  have hall_a : all = a := by
    rw [f3, ha] at hall
    injection hall with hall
    exact hall.symm
  subst hall_a
  have hall2 : all2 = List.zipWith (fun x y => x + y) all spd := combine_ok_eq _ _ _ _ hadd
  have hs2all : s2.m_allSignals = some all2 := by
    rw [hs3]; split <;> rfl
  refine ⟨by omega, ⟨all2, hs2all, ?_, ?_⟩, ?_, ?_⟩
  · rw [hall2, List.length_zipWith, hlen, hax, Nat.min_self]
  · intro i hi
    rw [hall2, getD_zipWith _ all spd i (by rw [hlen]; exact hi) (by rw [hax]; exact hi),
      hsum i hi]
    simp only [binSum, List.map_cons, List.sum_cons]
    ring
  · have hd : decide (s2.m_lastSignalIdBeforeReset < s.m_lastSignalId + 1) = true := by
      rw [b2]; simp; omega
    rw [b2] at hd
    simp only [List.filter_cons, b2]
    rw [i3, if_pos hd]
  · intro x hx
    rcases List.mem_cons.mp hx with hx1 | hx1
    · rw [hx1, l2]
      exact ⟨le_refl _, hax⟩
    · obtain ⟨h1, h2⟩ := i4 x hx1
      exact ⟨by rw [l2]; omega, h2⟩

theorem DoSubtractSignal_AggregateInv (n : Nat) (t : Time) (spd : SpectrumValue) (signalId : Nat)
    (s s2 : LteInterference) (fx : List Effect) (g : Tracked)
    (hinv : AggregateInv n s g) (hlt : s.m_lastSignalId < 2147483648)
    (hmem : (signalId, spd) ∈ g.pending)
    (h : DoSubtractSignal t spd signalId s = .ok (s2, fx)) :
    AggregateInv n s2
      { pending := removeFirst (signalId, spd) g.pending
        present := removeFirst (signalId, spd) g.present } := by
  obtain ⟨i1, ⟨a, ha, hlen, hsum⟩, i3, i4⟩ := hinv
  obtain ⟨s1, hc, hcase⟩ := DoSubtractSignal_ok t spd signalId s s2 fx h
  obtain ⟨_, _, f3, _, f5, f6, _⟩ := ConditionallyEvaluateChunk_frame t s s1 fx hc
  obtain ⟨hid, hspd⟩ := i4 (signalId, spd) hmem
  simp only at hid hspd
  have hdelta : deltaSignalId signalId s1 > 0 ↔ s.m_lastSignalIdBeforeReset < signalId := by
    simp only [deltaSignalId, toInt32, f6]
    constructor
    · intro hpos
      split at hpos <;> omega
    · intro hpos
      split <;> omega
  have hfilter : removeFirst (signalId, spd) g.present
      = (removeFirst (signalId, spd) g.pending).filter
          (fun x => decide (s.m_lastSignalIdBeforeReset < x.1)) := by
    rw [filter_removeFirst, ← i3]
  have hmem4 : ∀ x ∈ removeFirst (signalId, spd) g.pending,
      x.1 ≤ s.m_lastSignalId ∧ x.2.length = n :=
    fun x hx => i4 x (mem_of_mem_removeFirst _ x _ hx)
  rcases hcase with ⟨hpos, all, all2, hall, hsub, hs⟩ | ⟨hneg, hs⟩
  · have hall_a : all = a := by
      rw [f3, ha] at hall
      injection hall with hall
      exact hall.symm
    subst hall_a
    have hall2 : all2 = List.zipWith (fun x y => x - y) all spd := combine_ok_eq _ _ _ _ hsub
    have hpres : (signalId, spd) ∈ g.present := by
      rw [i3, List.mem_filter]
      exact ⟨hmem, by simpa using hdelta.mp hpos⟩
    rw [hs]
    refine ⟨by show s1.m_lastSignalIdBeforeReset ≤ s1.m_lastSignalId; rw [f5, f6]; exact i1,
      ⟨all2, rfl, ?_, ?_⟩, ?_, ?_⟩
    · rw [hall2, List.length_zipWith, hlen, hspd, Nat.min_self]
    · intro i hi
      rw [hall2, getD_zipWith _ all spd i (by rw [hlen]; exact hi) (by rw [hspd]; exact hi),
        hsum i hi, binSum_removeFirst i _ _ hpres]
    · show removeFirst (signalId, spd) g.present
        = (removeFirst (signalId, spd) g.pending).filter
            (fun x => decide (s1.m_lastSignalIdBeforeReset < x.1))
      rw [f6]; exact hfilter
    · show ∀ x ∈ removeFirst (signalId, spd) g.pending,
        x.1 ≤ s1.m_lastSignalId ∧ x.2.length = n
      rw [f5]; exact hmem4
  · have hnot : (signalId, spd) ∉ g.present := by
      rw [i3, List.mem_filter]
      rintro ⟨_, hd⟩
      exact hneg (hdelta.mpr (by simpa using hd))
    rw [hs]
    refine ⟨by rw [f5, f6]; exact i1, ⟨a, by rw [f3]; exact ha, hlen, ?_⟩, ?_, ?_⟩
    · intro i hi
      rw [hsum i hi, removeFirst_of_not_mem _ _ hnot]
    · rw [f6]; exact hfilter
    · rw [f5]; exact hmem4

theorem SetNoisePowerSpectralDensity_AggregateInv (n : Nat) (t : Time) (noisePsd : SpectrumValue)
    (s s2 : LteInterference) (fx : List Effect) (g : Tracked)
    (hpend : ∀ x ∈ g.pending, x.1 ≤ s.m_lastSignalId ∧ x.2.length = n)
    (hax : noisePsd.length = n)
    (h : SetNoisePowerSpectralDensity t noisePsd s = .ok (s2, fx)) :
    AggregateInv n s2 { pending := g.pending, present := [] } := by
  obtain ⟨s1, hc, hs⟩ := SetNoisePowerSpectralDensity_ok t noisePsd s s2 fx h
  obtain ⟨_, _, _, _, f5, _, _⟩ := ConditionallyEvaluateChunk_frame t s s1 fx hc
  rw [hs]
  refine ⟨le_refl _, ⟨Create (GetSpectrumModel noisePsd), rfl, ?_, ?_⟩, ?_, ?_⟩
  · simp [Create, GetSpectrumModel, hax]
  · intro i hi
    have hi2 : i < noisePsd.length := by rw [hax]; exact hi
    simp [Create, GetSpectrumModel, binSum, List.getD_eq_getElem?_getD, hi2]
  · show ([] : List (Nat × SpectrumValue))
      = g.pending.filter (fun x => decide (s1.m_lastSignalId < x.1))
    symm
    rw [List.filter_eq_nil_iff]
    intro x hx
    have := (hpend x hx).1
    rw [f5]
    simp
    omega
  · show ∀ x ∈ g.pending, x.1 ≤ s1.m_lastSignalId ∧ x.2.length = n
    rw [f5]
    exact hpend

/-- One call keeps the relation between the tracker and the bookkeeping. -/
theorem step_AggregateInv (n : Nat) (t : Time) (op : Op) (s s2 : LteInterference)
    (fx : List Effect) (g g2 : Tracked) (hinv : AggregateInv n s g) (hax : onAxis n op)
    (hlt : s.m_lastSignalId + addCount [(t, op)] < 2147483648)
    (hstep : step t op s = .ok (s2, fx)) (hg : trackStep s op g = some g2) :
    AggregateInv n s2 g2 := by
  cases op with
  | StartRx rxPsd =>
    simp only [trackStep] at hg
    injection hg with hg
    subst hg
    obtain ⟨f1, _, f3, f4, _⟩ := StartRx_frame t rxPsd s s2 fx hstep
    exact AggregateInv_frame n s s2 g f1 f3 f4 hinv
  | EndRx =>
    simp only [trackStep] at hg
    injection hg with hg
    subst hg
    obtain ⟨f1, _, f3, f4, _⟩ := EndRx_frame t s s2 fx hstep
    exact AggregateInv_frame n s s2 g f1 f3 f4 hinv
  | AddSignal spd duration =>
    simp only [trackStep] at hg
    injection hg with hg
    subst hg
    exact AddSignal_AggregateInv n t spd duration s s2 fx g hinv hax
      (by simpa [addCount] using hlt) hstep
  | DoSubtractSignal spd signalId =>
    simp only [trackStep] at hg
    split at hg
    · rename_i hmem
      injection hg with hg
      subst hg
      exact DoSubtractSignal_AggregateInv n t spd signalId s s2 fx g hinv
        (by simp only [addCount] at hlt; omega) hmem hstep
    · simp at hg
  | SetNoisePowerSpectralDensity noisePsd =>
    simp only [trackStep] at hg
    injection hg with hg
    subst hg
    exact SetNoisePowerSpectralDensity_AggregateInv n t noisePsd s s2 fx g hinv.2.2.2 hax hstep
  | AddSinrChunkProcessor p =>
    simp only [trackStep] at hg
    injection hg with hg
    subst hg
    simp only [step, AddSinrChunkProcessor] at hstep
    injection hstep with hstep
    injection hstep with hs _
    rw [← hs]
    exact AggregateInv_frame n s _ g rfl rfl rfl hinv

theorem runTracked_cons_some (t : Time) (op : Op) (rest : List (Time × Op))
    (s s2 : LteInterference) (g g2 : Tracked)
    (h : runTracked ((t, op) :: rest) s g = some (s2, g2)) :
    ∃ s1 fx g1, step t op s = .ok (s1, fx) ∧ trackStep s op g = some g1 ∧
      runTracked rest s1 g1 = some (s2, g2) := by
  simp only [runTracked] at h
  cases hstep : step t op s with
  | error e => simp [hstep] at h
  | ok r =>
    obtain ⟨s1, fx⟩ := r
    cases hg : trackStep s op g with
    | none => simp [hstep, hg] at h
    | some g1 =>
      simp only [hstep, hg] at h
      exact ⟨s1, fx, g1, rfl, rfl, h⟩

theorem runTracked_run :
    ∀ (ops : List (Time × Op)) (s s2 : LteInterference) (g g2 : Tracked),
      runTracked ops s g = some (s2, g2) → ∃ tr, run ops s = .ok (s2, tr)
  | [], s, s2, g, g2, h => by
    simp only [runTracked] at h
    injection h with h
    injection h with hs _
    exact ⟨[], by rw [← hs]; rfl⟩
  | (t, op) :: ops, s, s2, g, g2, h => by
    obtain ⟨s1, fx, g1, hstep, _, hrest⟩ := runTracked_cons_some t op ops s s2 g g2 h
    obtain ⟨tr, htr⟩ := runTracked_run ops s1 s2 g1 g2 hrest
    exact ⟨fx.map (fun e => (t, e)) ++ tr, by rw [run_cons_eq _ _ _ _ _ _ hstep, htr]⟩

theorem runTracked_AggregateInv (n : Nat) :
    ∀ (ops : List (Time × Op)) (s s2 : LteInterference) (g g2 : Tracked),
      AggregateInv n s g → (∀ x ∈ ops, onAxis n x.2) →
      s.m_lastSignalId + addCount ops < 2147483648 →
      runTracked ops s g = some (s2, g2) → AggregateInv n s2 g2
  | [], s, s2, g, g2, hinv, _, _, h => by
    simp only [runTracked] at h
    injection h with h
    injection h with hs hg
    rw [← hs, ← hg]
    exact hinv
  | (t, op) :: ops, s, s2, g, g2, hinv, hax, hlt, h => by
    obtain ⟨s1, fx, g1, hstep, hg, hrest⟩ := runTracked_cons_some t op ops s s2 g g2 h
    have hsplit : addCount ((t, op) :: ops) = addCount [(t, op)] + addCount ops :=
      addCount_append [(t, op)] ops
    rw [hsplit] at hlt
    obtain ⟨l1, _, _⟩ := step_ids t op s s1 fx hstep hinv.1 (by omega)
    have hinv1 := step_AggregateInv n t op s s1 fx g g1 hinv
      (hax (t, op) (List.mem_cons_self _ _)) (by omega) hstep hg
    exact runTracked_AggregateInv n ops s1 s2 g1 g2 hinv1
      (fun x hx => hax x (List.mem_cons_of_mem _ hx)) (by rw [l1]; omega) hrest

theorem eq_replicate_of_getD :
    ∀ (a : List ℚ) (n : Nat), a.length = n → (∀ i, i < n → a.getD i 0 = 0) →
      a = List.replicate n 0
  | [], n, hlen, _ => by
    simp only [List.length_nil] at hlen
    rw [← hlen]
    rfl
  | x :: a, n, hlen, h => by
    simp only [List.length_cons] at hlen
    subst hlen
    have hx : x = 0 := by simpa using h 0 (by omega)
    have ih := eq_replicate_of_getD a a.length rfl
      (fun i hi => by simpa using h (i + 1) (by omega))
    rw [List.replicate_succ, hx, ← ih]

/-- C18: in a run from construction that starts with `SetNoisePowerSpectralDensity`, keeps
every added signal and every noise floor on one axis layout, makes fewer than 2^31
`AddSignal` calls and fires only removals that are pending, the aggregate is present on
that layout and is, bin by bin, the sum of the signals added since the most recent reset
whose removal has not fired (the all-zero vector when there are none); and `StartRx` and
`EndRx` leave the aggregate as it is. -/
theorem aggregate_invariant (t0 : Time) (noisePsd : SpectrumValue) (ops : List (Time × Op))
    (s : LteInterference) (g : Tracked)
    (hax : ∀ x ∈ ops, onAxis noisePsd.length x.2) (hcount : addCount ops < 2147483648)
    (hrun : runTracked ((t0, .SetNoisePowerSpectralDensity noisePsd) :: ops) construct
      { pending := [], present := [] } = some (s, g)) :
    (∃ tr, run ((t0, .SetNoisePowerSpectralDensity noisePsd) :: ops) construct = .ok (s, tr)) ∧
    (∃ a, s.m_allSignals = some a ∧ a.length = noisePsd.length ∧
      ∀ i, i < noisePsd.length → a.getD i 0 = binSum i g.present) ∧
    (g.present = [] → s.m_allSignals = some (Create noisePsd.length)) ∧
    (∀ now rxPsd s2 fx, StartRx now rxPsd s = .ok (s2, fx) →
      s2.m_allSignals = s.m_allSignals) ∧
    (∀ now s2 fx, EndRx now s = .ok (s2, fx) → s2.m_allSignals = s.m_allSignals) := by
  obtain ⟨s1, fx, g1, hstep, hg, hrest⟩ := runTracked_cons_some _ _ ops construct s _ g hrun
  simp only [trackStep] at hg
  injection hg with hg
  have hinv1 : AggregateInv noisePsd.length s1 g1 := by
    rw [← hg]
    exact SetNoisePowerSpectralDensity_AggregateInv noisePsd.length t0 noisePsd construct s1 fx
      { pending := [], present := [] } (by simp) rfl hstep
  obtain ⟨s1b, hc, hs1⟩ := SetNoisePowerSpectralDensity_ok t0 noisePsd construct s1 fx hstep
  obtain ⟨_, _, _, _, f5, _, _⟩ := ConditionallyEvaluateChunk_frame t0 construct s1b fx hc
  have hl1 : s1.m_lastSignalId = 0 := by rw [hs1]; exact f5
  have hinv := runTracked_AggregateInv noisePsd.length ops s1 s g1 g hinv1 hax
    (by rw [hl1]; omega) hrest
  obtain ⟨_, ⟨a, ha, hlen, hsum⟩, _, _⟩ := hinv
  refine ⟨runTracked_run _ construct s _ g hrun, ⟨a, ha, hlen, hsum⟩, ?_,
    fun now rxPsd s2 fx2 h => (StartRx_frame now rxPsd s s2 fx2 h).1,
    fun now s2 fx2 h => (EndRx_frame now s s2 fx2 h).1⟩
  intro hempty
  rw [ha, Create]
  congr 1
  exact eq_replicate_of_getD a noisePsd.length hlen
    (fun i hi => by rw [hsum i hi, hempty]; rfl)

/-- C18 witness: after the noise floor `[1,1]`, `[0,2]` and `[4,0]` are added and the
removal of `[0,2]` fires: the aggregate is the one remaining signal, `[4,0]`. -/
theorem aggregate_invariant_witness :
    ∃ a, aggregateExample.m_allSignals = some a ∧ a.length = ([1, 1] : SpectrumValue).length ∧
      ∀ i, i < ([1, 1] : SpectrumValue).length → a.getD i 0 = binSum i [(2, [4, 0])] :=
  (aggregate_invariant 0 [1, 1]
    [(0, .AddSignal [0, 2] 10), (3, .AddSignal [4, 0] 10), (10, .DoSubtractSignal [0, 2] 1)]
    aggregateExample { pending := [(2, [4, 0])], present := [(2, [4, 0])] }
    (by simp [onAxis]) (by simp [addCount])
    (by
      simp [runTracked, step, trackStep, removeFirst, SetNoisePowerSpectralDensity, AddSignal,
        DoAddSignal, DoSubtractSignal, ConditionallyEvaluateChunk, construct, afterFirstNoise,
        aggregateExample, deltaSignalId, toInt32, deref, add, sub, combine, GetSpectrumModel,
        Create, List.replicate, UINT32_MOD])).2.1

/-! ## C19: well-formed notification traces -/

theorem wellFormedFrom_append (p : Nat) :
    ∀ (a b : List Effect) (o : Bool),
      wellFormedFrom p o (a ++ b) ↔
        wellFormedFrom p o a ∧ wellFormedFrom p (openAfter p o a) b
  | [], b, o => by simp [wellFormedFrom, openAfter]
  | e :: a, b, o => by
    rw [List.cons_append]
    cases e with
    | Start q =>
      simp only [wellFormedFrom, openAfter]
      exact wellFormedFrom_append p a b _
    | End q =>
      simp only [wellFormedFrom, openAfter]
      by_cases hq : q = p
      · simp only [hq, if_true]
        have ih := wellFormedFrom_append p a b false
        constructor
        · rintro ⟨h1, h2⟩
          exact ⟨⟨h1, (ih.mp h2).1⟩, (ih.mp h2).2⟩
        · rintro ⟨⟨h1, h2⟩, h3⟩
          exact ⟨h1, ih.mpr ⟨h2, h3⟩⟩
      · simp only [hq, if_false]
        exact wellFormedFrom_append p a b o
    | EvaluateSinrChunk q sinr d =>
      simp only [wellFormedFrom, openAfter]
      by_cases hq : q = p
      · simp only [hq, if_true]
        have ih := wellFormedFrom_append p a b o
        constructor
        · rintro ⟨h1, h2, h3⟩
          exact ⟨⟨h1, h2, (ih.mp h3).1⟩, (ih.mp h3).2⟩
        · rintro ⟨⟨h1, h2, h3⟩, h4⟩
          exact ⟨h1, h2, ih.mpr ⟨h3, h4⟩⟩
      · simp only [hq, if_false]
        exact wellFormedFrom_append p a b o
    | Schedule d spd n =>
      simp only [wellFormedFrom, openAfter]
      exact wellFormedFrom_append p a b o

theorem openAfter_append (p : Nat) :
    ∀ (a b : List Effect) (o : Bool),
      openAfter p o (a ++ b) = openAfter p (openAfter p o a) b
  | [], b, o => by simp [openAfter]
  | e :: a, b, o => by
    rw [List.cons_append]
    cases e <;> simp only [openAfter] <;> exact openAfter_append p a b _

theorem wellFormedFrom_starts (p : Nat) :
    ∀ (l : List Nat) (o : Bool), wellFormedFrom p o (l.map Effect.Start)
  | [], _ => trivial
  | _ :: l, _ => by
    simp only [List.map_cons, wellFormedFrom]
    exact wellFormedFrom_starts p l _

theorem openAfter_starts (p : Nat) :
    ∀ (l : List Nat) (o : Bool), (o = true ∨ p ∈ l) → openAfter p o (l.map Effect.Start) = true
  | [], o, h => by
    rcases h with h | h
    · simpa [openAfter] using h
    · simp at h
  | q :: l, o, h => by
    simp only [List.map_cons, openAfter]
    apply openAfter_starts p l
    by_cases hq : q = p
    · left; simp [hq]
    · rcases h with h | h
      · left; simp [hq, h]
      · right
        rcases List.mem_cons.mp h with h1 | h1
        · exact absurd h1.symm hq
        · exact h1

theorem wellFormedFrom_chunks (p : Nat) (sinr : SpectrumValue) (d : Time) (hd : 0 < d) :
    ∀ (l : List Nat),
      wellFormedFrom p true (l.map (fun q => Effect.EvaluateSinrChunk q sinr d)) ∧
      openAfter p true (l.map (fun q => Effect.EvaluateSinrChunk q sinr d)) = true
  | [] => ⟨trivial, rfl⟩
  | q :: l => by
    obtain ⟨h1, h2⟩ := wellFormedFrom_chunks p sinr d hd l
    simp only [List.map_cons, wellFormedFrom, openAfter]
    refine ⟨?_, h2⟩
    by_cases hq : q = p
    · simp only [hq, if_true]
      exact ⟨trivial, hd, h1⟩
    · simp only [hq, if_false]
      exact h1

theorem wellFormedFrom_ends_absent (p : Nat) :
    ∀ (l : List Nat) (o : Bool), p ∉ l → wellFormedFrom p o (l.map Effect.End)
  | [], _, _ => trivial
  | q :: l, o, h => by
    have hq : ¬ q = p := fun e => h (by rw [e]; exact List.mem_cons_self _ _)
    simp only [List.map_cons, wellFormedFrom, hq, if_false]
    exact wellFormedFrom_ends_absent p l o (fun hm => h (List.mem_cons_of_mem _ hm))

theorem wellFormedFrom_ends (p : Nat) :
    ∀ (l : List Nat), l.count p = 1 → wellFormedFrom p true (l.map Effect.End)
  | [], h => by simp at h
  | q :: l, h => by
    simp only [List.map_cons, wellFormedFrom]
    by_cases hq : q = p
    · simp only [hq, if_true]
      refine ⟨trivial, wellFormedFrom_ends_absent p l false ?_⟩
      rw [hq, List.count_cons_self] at h
      exact List.count_eq_zero.mp (by omega)
    · simp only [hq, if_false]
      apply wellFormedFrom_ends p l
      rw [List.count_cons_of_ne (fun e => hq e.symm)] at h
      exact h

theorem ConditionallyEvaluateChunk_wellFormed (p : Nat) (now : Time) (s s1 : LteInterference)
    (fx : List Effect) (o : Bool) (ho : s.m_receiving = true → o = true)
    (h : ConditionallyEvaluateChunk now s = .ok (s1, fx)) :
    wellFormedFrom p o fx ∧ openAfter p o fx = o := by
  rcases ConditionallyEvaluateChunk_cases now s s1 fx h with ⟨hr, hgt, _, sinr, hfx⟩ | ⟨_, _, hfx⟩
  · have ho2 := ho hr
    subst ho2
    rw [hfx]
    exact wellFormedFrom_chunks p sinr _ (sub_pos.mpr hgt) _
  · rw [hfx]
    exact ⟨trivial, rfl⟩

theorem StartRx_cases (now : Time) (rxPsd : SpectrumValue) (s s2 : LteInterference)
    (fx : List Effect) (h : StartRx now rxPsd s = .ok (s2, fx)) :
    (s.m_receiving = false ∧ fx = s.m_sinrChunkProcessorList.map Effect.Start) ∨
    (s.m_receiving = true ∧ fx = []) := by
  by_cases hr : s.m_receiving = true
  · right
    refine ⟨hr, ?_⟩
    simp only [StartRx, hr] at h
    by_cases hl : s.m_lastChangeTime = now
    · simp only [hl, if_true] at h
      cases hrx2 : s.m_rxSignal with
      | none => simp [hrx2, deref] at h
      | some rx =>
        cases hm : mul rxPsd rx with
        | error e => simp [hrx2, deref, hm] at h
        | ok product =>
          by_cases hs : Sum product = 0
          · cases ha : add rx rxPsd with
            | error e => simp [hrx2, deref, hm, hs, ha] at h
            | ok rx2 =>
              simp [hrx2, deref, hm, hs, ha] at h
              exact h.2
          · simp [hrx2, deref, hm, hs] at h
    · simp [hl] at h
  · left
    simp only [StartRx, Bool.not_eq_true] at h hr
    simp only [hr, if_true] at h
    injection h with h
    injection h with _ hfx
    exact ⟨hr, hfx.symm⟩

/-- One call other than a registration keeps the notifications of a consumer registered
once well formed, and leaves it with an open `Start` whenever the tracker is receiving. -/
theorem step_wellFormed (p : Nat) (t : Time) (op : Op) (s s2 : LteInterference)
    (fx : List Effect) (o : Bool) (hop : notRegistration op)
    (hp : s.m_sinrChunkProcessorList.count p = 1) (ho : s.m_receiving = true → o = true)
    (h : step t op s = .ok (s2, fx)) :
    wellFormedFrom p o fx ∧ (s2.m_receiving = true → openAfter p o fx = true) ∧
    s2.m_sinrChunkProcessorList = s.m_sinrChunkProcessorList := by
  have hmem : p ∈ s.m_sinrChunkProcessorList := List.count_pos_iff.mp (by omega)
  cases op with
  | StartRx rxPsd =>
    obtain ⟨_, _, _, _, f5, _, _⟩ := StartRx_frame t rxPsd s s2 fx h
    rcases StartRx_cases t rxPsd s s2 fx h with ⟨_, hfx⟩ | ⟨hr, hfx⟩
    · rw [hfx]
      exact ⟨wellFormedFrom_starts p _ o, fun _ => openAfter_starts p _ o (Or.inr hmem), f5⟩
    · rw [hfx]
      exact ⟨trivial, fun _ => ho hr, f5⟩
  | EndRx =>
    obtain ⟨_, _, _, _, f5, f6⟩ := EndRx_frame t s s2 fx h
    refine ⟨?_, fun hr => by rw [f6] at hr; simp at hr, f5⟩
    by_cases hr : s.m_receiving = true
    · obtain ⟨s1, fx1, hc, _, hfx⟩ := EndRx_ok t s s2 fx hr h
      obtain ⟨_, _, _, _, _, _, f7⟩ := ConditionallyEvaluateChunk_frame t s s1 fx1 hc
      obtain ⟨w1, w2⟩ := ConditionallyEvaluateChunk_wellFormed p t s s1 fx1 o ho hc
      rw [hfx, wellFormedFrom_append, w2, ho hr, f7]
      refine ⟨?_, wellFormedFrom_ends p _ hp⟩
      rw [← ho hr]
      exact w1
    · simp only [step, EndRx, ne_eq, hr, not_false_eq_true, if_true] at h
      injection h with h
      injection h with _ hfx
      rw [← hfx]
      trivial
  | AddSignal spd duration =>
    obtain ⟨s1, fx1, all, all2, hc, _, _, hs3, hfx⟩ := AddSignal_ok t spd duration s s2 fx h
    obtain ⟨f1, _, _, _, _, _, f7⟩ := ConditionallyEvaluateChunk_frame t s s1 fx1 hc
    obtain ⟨w1, w2⟩ := ConditionallyEvaluateChunk_wellFormed p t s s1 fx1 o ho hc
    have hframe : s2.m_receiving = s.m_receiving ∧
        s2.m_sinrChunkProcessorList = s.m_sinrChunkProcessorList := by
      rw [hs3, ← f1, ← f7]; split <;> exact ⟨rfl, rfl⟩
    rw [hfx, wellFormedFrom_append, openAfter_append, w2]
    refine ⟨⟨w1, by simp [wellFormedFrom]⟩, ?_, hframe.2⟩
    intro hr
    rw [hframe.1] at hr
    simpa [openAfter] using ho hr
  | DoSubtractSignal spd signalId =>
    obtain ⟨s1, hc, hcase⟩ := DoSubtractSignal_ok t spd signalId s s2 fx h
    obtain ⟨f1, _, _, _, _, _, f7⟩ := ConditionallyEvaluateChunk_frame t s s1 fx hc
    obtain ⟨w1, w2⟩ := ConditionallyEvaluateChunk_wellFormed p t s s1 fx o ho hc
    have hframe : s2.m_receiving = s.m_receiving ∧
        s2.m_sinrChunkProcessorList = s.m_sinrChunkProcessorList := by
      rw [← f1, ← f7]
      rcases hcase with ⟨_, all, all2, _, _, hs⟩ | ⟨_, hs⟩ <;> rw [hs] <;> exact ⟨rfl, rfl⟩
    refine ⟨w1, ?_, hframe.2⟩
    intro hr
    rw [hframe.1] at hr
    rw [w2]
    exact ho hr
  | SetNoisePowerSpectralDensity noisePsd =>
    obtain ⟨s1, hc, hs⟩ := SetNoisePowerSpectralDensity_ok t noisePsd s s2 fx h
    obtain ⟨_, _, _, _, _, _, f7⟩ := ConditionallyEvaluateChunk_frame t s s1 fx hc
    obtain ⟨w1, _⟩ := ConditionallyEvaluateChunk_wellFormed p t s s1 fx o ho hc
    rw [hs]
    exact ⟨w1, fun hr => by simp at hr, f7⟩
  | AddSinrChunkProcessor q => exact absurd hop (by simp [notRegistration])

theorem run_wellFormed (p : Nat) :
    ∀ (ops : List (Time × Op)) (s s2 : LteInterference) (tr : List (Time × Effect)) (o : Bool),
      (∀ x ∈ ops, notRegistration x.2) → s.m_sinrChunkProcessorList.count p = 1 →
      (s.m_receiving = true → o = true) → run ops s = .ok (s2, tr) →
      wellFormedFrom p o (tr.map Prod.snd)
  | [], s, s2, tr, o, _, _, _, h => by
    simp only [run] at h
    injection h with h
    injection h with _ htr
    rw [← htr]
    trivial
  | (t, op) :: ops, s, s2, tr, o, hops, hp, ho, h => by
    obtain ⟨s1, fx, tr2, hstep, hrest, htr⟩ := run_cons_ok t op ops s s2 tr h
    obtain ⟨w1, w2, w3⟩ := step_wellFormed p t op s s1 fx o
      (hops (t, op) (List.mem_cons_self _ _)) hp ho hstep
    have ih := run_wellFormed p ops s1 s2 tr2 (openAfter p o fx)
      (fun x hx => hops x (List.mem_cons_of_mem _ hx)) (by rw [w3]; exact hp) w2 hrest
    have hmap : tr.map Prod.snd = fx ++ tr2.map Prod.snd := by
      rw [htr, List.map_append, List.map_map]
      congr 1
      induction fx with
      | nil => rfl
      | cons e fx ihf => simp
    rw [hmap, wellFormedFrom_append]
    exact ⟨w1, ih⟩

theorem step_idle_no_chunk (t : Time) (op : Op) (s s2 : LteInterference) (fx : List Effect)
    (hr : s.m_receiving = false) (hop : notStartRx op) (h : step t op s = .ok (s2, fx)) :
    s2.m_receiving = false ∧ ∀ e ∈ fx, ∀ q sinr d, e ≠ Effect.EvaluateSinrChunk q sinr d := by
  have hidle := ConditionallyEvaluateChunk_idle t s hr
  cases op with
  | StartRx rxPsd => exact absurd hop (by simp [notStartRx])
  | EndRx =>
    simp only [step, EndRx, hr, ne_eq, Bool.false_eq_true, not_false_eq_true, if_true] at h
    injection h with h
    injection h with hs hfx
    rw [← hs, ← hfx]
    exact ⟨hr, by simp⟩
  | AddSignal spd duration =>
    obtain ⟨s1, fx1, all, all2, hc, _, _, hs3, hfx⟩ := AddSignal_ok t spd duration s s2 fx h
    rw [hidle] at hc
    injection hc with hc
    injection hc with hs1 hfx1
    refine ⟨?_, ?_⟩
    · rw [hs3, ← hs1]; split <;> exact hr
    · rw [hfx, ← hfx1]
      intro e he q sinr d
      simp at he
      rw [he]
      simp
  | DoSubtractSignal spd signalId =>
    obtain ⟨s1, hc, hcase⟩ := DoSubtractSignal_ok t spd signalId s s2 fx h
    rw [hidle] at hc
    injection hc with hc
    injection hc with hs1 hfx1
    refine ⟨?_, by rw [← hfx1]; simp⟩
    rcases hcase with ⟨_, all, all2, _, _, hs⟩ | ⟨_, hs⟩ <;> rw [hs, ← hs1] <;> exact hr
  | SetNoisePowerSpectralDensity noisePsd =>
    obtain ⟨s1, hc, hs⟩ := SetNoisePowerSpectralDensity_ok t noisePsd s s2 fx h
    rw [hidle] at hc
    injection hc with hc
    injection hc with _ hfx1
    exact ⟨by rw [hs], by rw [← hfx1]; simp⟩
  | AddSinrChunkProcessor p =>
    simp only [step, AddSinrChunkProcessor] at h
    injection h with h
    injection h with hs hfx
    rw [← hs, ← hfx]
    exact ⟨hr, by simp⟩

theorem run_idle_no_chunk :
    ∀ (ops : List (Time × Op)) (s s2 : LteInterference) (tr : List (Time × Effect)),
      s.m_receiving = false → (∀ x ∈ ops, notStartRx x.2) → run ops s = .ok (s2, tr) →
      ∀ x ∈ tr, ∀ q sinr d, x.2 ≠ Effect.EvaluateSinrChunk q sinr d
  | [], s, s2, tr, _, _, h => by
    simp only [run] at h
    injection h with h
    injection h with _ htr
    rw [← htr]
    simp
  | (t, op) :: ops, s, s2, tr, hr, hops, h => by
    obtain ⟨s1, fx, tr2, hstep, hrest, htr⟩ := run_cons_ok t op ops s s2 tr h
    obtain ⟨hr1, hno⟩ := step_idle_no_chunk t op s s1 fx hr
      (hops (t, op) (List.mem_cons_self _ _)) hstep
    have ih := run_idle_no_chunk ops s1 s2 tr2 hr1
      (fun x hx => hops x (List.mem_cons_of_mem _ hx)) hrest
    intro x hx q sinr d
    rw [htr] at hx
    rcases List.mem_append.mp hx with h1 | h1
    · rw [List.mem_map] at h1
      obtain ⟨e, he, hxe⟩ := h1
      rw [← hxe]
      exact hno e he q sinr d
    · exact ih x h1 q sinr d

/-- C19: from a tracker that is not receiving, with a fixed processor list, every sequence
of calls (no registration) gives each consumer registered once a well-formed trace: every
`EvaluateSinrChunk` and every `End` is preceded by a `Start` with no `End` in between and
every reported duration is strictly positive; and after an `EndRx` or a
`SetNoisePowerSpectralDensity`, no `EvaluateSinrChunk` is emitted by the calls that follow
until the next `StartRx`. -/
theorem notification_trace_well_formed (p : Nat) (s0 s : LteInterference)
    (ops : List (Time × Op)) (tr : List (Time × Effect))
    (hidle : s0.m_receiving = false) (hp : s0.m_sinrChunkProcessorList.count p = 1)
    (hops : ∀ x ∈ ops, notRegistration x.2) (hrun : run ops s0 = .ok (s, tr)) :
    wellFormedFrom p false (tr.map Prod.snd) ∧
    (∀ (sa sb sc : LteInterference) (t : Time) (closing : Op) (fx : List Effect)
      (mid : List (Time × Op)) (trm : List (Time × Effect)),
      closesRx closing → step t closing sa = .ok (sb, fx) →
      (∀ x ∈ mid, notStartRx x.2) → run mid sb = .ok (sc, trm) →
      ∀ x ∈ trm, ∀ q sinr d, x.2 ≠ Effect.EvaluateSinrChunk q sinr d) := by
  refine ⟨run_wellFormed p ops s0 s tr false hops hp (fun h => by rw [hidle] at h; simp at h) hrun,
    ?_⟩
  intro sa sb sc t closing fx mid trm hclose hstep hmid hrunm
  have hsb : sb.m_receiving = false := by
    cases closing with
    | EndRx => exact (EndRx_frame t sa sb fx hstep).2.2.2.2.2
    | SetNoisePowerSpectralDensity noisePsd =>
      obtain ⟨s1, _, hs⟩ := SetNoisePowerSpectralDensity_ok t noisePsd sa sb fx hstep
      rw [hs]
    | StartRx _ => exact absurd hclose (by simp [closesRx])
    | AddSignal _ _ => exact absurd hclose (by simp [closesRx])
    | DoSubtractSignal _ _ => exact absurd hclose (by simp [closesRx])
    | AddSinrChunkProcessor _ => exact absurd hclose (by simp [closesRx])
  exact run_idle_no_chunk mid sb sc trm hsb hmid hrunm

/-- C19 witness: the trace of consumer 0 over the reception `coveredTrace` on
`idleTracker`: `Start`, two chunks of durations 3 and 2, `End`. -/
theorem notification_trace_well_formed_witness :
    wellFormedFrom 0 false (coveredTrace.map Prod.snd) :=
  (notification_trace_well_formed 0 idleTracker coveredFinal
    [(0, .StartRx [4, 0]), (0, .AddSignal [4, 0] 10), (3, .AddSignal [0, 2] 10), (5, .EndRx)]
    coveredTrace rfl (by simp [idleTracker]) (by simp [notRegistration])
    (by
      simp [run, step, idleTracker, coveredTrace, coveredFinal, ConditionallyEvaluateChunk,
        StartRx, AddSignal, DoAddSignal, deref, add, sub, div, combine, GetSpectrumModel,
        Copy, UINT32_MOD, EndRx])).1

end LteInterference
